import Mathlib

/-!
# cfenc: the CineForm transcoder's frame pipeline

A shallow embedding of `src/cfenc.cpp` (the encoder wrapper `CFHD_Encoder`, its
slot queue, and the control loops of `CFHD_Transcoder`) together with the
properties of the pipeline that the specification states.

Conventions of the embedding.

* C++ `int` values are `Int`, `uint32_t`/`size_t` values are `Nat`; where the
  source mixes signed and unsigned operands the wrap-around is written out
  (`to_uint32`, `to_int32`).
* The external collaborators (CineForm encoder pool, libavcodec, libswscale,
  the muxer) are not code of this repository.  Whatever they answer is supplied
  to the model as data: the pool's answers to `CFHD_TestForSample` /
  `CFHD_GetEncodedSample` as a list of `PoolReply`, the error codes of the
  other fallible calls as a list of `Bool` (`true` = the call reports an
  error), the decoder's output as part of each packet.
* The calls the program makes to the collaborators are recorded, newest first,
  in an event log; the log is the observable behaviour the theorems talk about.
* An access outside the slot vector or a remainder by zero is undefined
  behaviour in C++; the model stops with `Res.undefined` there.
-/

namespace Cfenc

/-! ## Machine integers -/

/-- Reduction of an integer to `unsigned int` (32 bit). -/
def to_uint32 (x : Int) : Nat := (x % 4294967296).toNat

/-- Conversion of an `unsigned int` value to `int` (two's complement). -/
def to_int32 (u : Nat) : Int :=
  if u % 4294967296 < 2147483648 then ((u % 4294967296 : Nat) : Int)
  else ((u % 4294967296 : Nat) : Int) - 4294967296

/-- Number of low-order bits an integer below `2^32` loses when it is stored in
a `float` (24-bit significand). -/
def float_shift (n : Nat) : Nat :=
  ((List.range 8).filter (fun k => decide (2 ^ (24 + k) ≤ n))).length

/-- Conversion `(float)n` of a non-negative integer below `2^32`: the nearest
value with a 24-bit significand, ties to even. The result is an integer, so it
is returned as a natural number. -/
def to_float (n : Nat) : Nat :=
  if n < 16777216 then n
  else
    let k := float_shift n
    let q := n / 2 ^ k
    let r := n % 2 ^ k
    let half := 2 ^ (k - 1)
    if r > half ∨ (r = half ∧ q % 2 = 1) then (q + 1) * 2 ^ k else q * 2 ^ k

/-- The C function `round` applied to `f * 1.5` for a non-negative integer
valued `f` (the product is exact in `double`): halves go away from zero. -/
def round_times_1_5 (f : Nat) : Nat := (3 * f + 1) / 2

/-- Conversion `(int)d` of a non-negative integer valued `double`. Above
`INT_MAX` the C++ conversion is undefined; the model returns what the x86
conversion instruction returns, `INT_MIN`. -/
def double_to_int (d : Nat) : Int :=
  if d ≤ 2147483647 then (d : Int) else -2147483648

/-! ## Types of the CineForm SDK and of libav that the program uses -/

inductive CFHD_PixelFormat
  | YUY2
  | V210
  | RG48
  deriving DecidableEq, Repr

inductive CFHD_EncodedFormat
  | YUV_422
  | RGB_444
  deriving DecidableEq, Repr

inductive CFHD_EncodingQuality
  | DEFAULT
  | LOW
  | MEDIUM
  | HIGH
  | FILMSCAN1
  | FILMSCAN2
  | FILMSCAN3
  deriving DecidableEq, Repr

/-- The SDK constant `CFHD_ENCODING_FLAGS_NONE`, the empty flag word. -/
def CFHD_ENCODING_FLAGS_NONE : Nat := 0

inductive AVCodecID
  | NONE
  | RAWVIDEO
  | CFHD
  | other (id : Nat)
  deriving DecidableEq, Repr

inductive AVPixelFormat
  | NONE
  | YUYV422
  | RGB48LE
  | YUV422P10LE
  | GBRP12LE
  | other (id : Nat)
  deriving DecidableEq, Repr

inductive AVColorSpace
  | BT709
  | BT470BG
  deriving DecidableEq, Repr

/-! ## `CFHD_Encoder` -/

/-- The `struct CFHD_AVData`: one slot of the queue. `data` is the copy of the
frame's pixels. -/
structure CFHD_AVData where
  data : List Nat
  pts : Int
  duration : Int
  deriving DecidableEq, Repr

/-- The `struct CFHD_Sample`: the most recently retrieved encoded sample. Pointers
are addresses, `0` is `nullptr`. -/
structure CFHD_Sample where
  buffer : Nat
  frame_num : Nat
  data : Nat
  size : Nat
  pts : Int
  duration : Int
  deriving DecidableEq, Repr

/-- The constructor `CFHD_Sample::CFHD_Sample()`. -/
def CFHD_Sample.new : CFHD_Sample :=
  { buffer := 0, frame_num := 0, data := 0, size := 0, pts := 0, duration := 0 }

/-- The data members of `struct CFHD_Encoder` (the pool and metadata handles
are owned by the SDK and carry no state of the program). -/
structure CFHD_Encoder where
  sample : CFHD_Sample
  pix_fmt : CFHD_PixelFormat
  enc_fmt : CFHD_EncodedFormat
  flags : Nat
  quality : CFHD_EncodingQuality
  threads : Int
  queue_size : Int
  queued : Int
  queue : List CFHD_AVData
  deriving DecidableEq, Repr

/-- The function `CFHD_Encoder::set_quality`. -/
def set_quality (quality : String) : CFHD_EncodingQuality :=
  if quality = "low" then .LOW
  else if quality = "medium" then .MEDIUM
  else if quality = "high" then .HIGH
  else if quality = "fs1" then .FILMSCAN1
  else if quality = "fs2" then .FILMSCAN2
  else if quality = "fs3" then .FILMSCAN3
  else .DEFAULT

/-- Lines 365-388 of the constructor: pixel format, encoded format and flags.
`YUV_601` is the SDK constant `CFHD_ENCODING_FLAGS_YUV_601`. -/
def select_format (YUV_601 : Nat) (g_width : Int) (input_is_8_bit : Bool) (rgb : Int)
    (trc : Int) : CFHD_PixelFormat × CFHD_EncodedFormat × Nat :=
  let flags := CFHD_ENCODING_FLAGS_NONE
  if rgb ≠ 0 then
    (.RG48, .RGB_444, flags)
  else
    let pix_fmt := if input_is_8_bit then CFHD_PixelFormat.YUY2 else CFHD_PixelFormat.V210
    let flags :=
      if trc = 0 then
        (if g_width ≤ 720 then flags ||| YUV_601 else flags)
      else if trc = 601 then flags ||| YUV_601
      else flags
    (pix_fmt, .YUV_422, flags)

/-- Lines 390-395 of the constructor: the thread count. `hw` is the value
returned by `std::thread::hardware_concurrency()` (an `unsigned int`); the
subtraction is unsigned and the result is converted to `int`. -/
def resolve_threads (hw : Nat) (threads : Int) : Int :=
  if threads > 0 then threads
  else
    let t := to_int32 (to_uint32 ((hw : Int) - 1))
    if t ≤ 0 then 1 else t

/-- Line 396: `queue_size = (int)round((float)this->threads * 1.5)`. -/
def compute_queue_size (threads : Int) : Int :=
  double_to_int (round_times_1_5 (to_float threads.toNat))

/-- The constructor `CFHD_Encoder::CFHD_Encoder`. `YUV_601` is the SDK constant, `g_width` the
global frame width, `hw` the value of `hardware_concurrency()`. -/
def CFHD_Encoder.new (YUV_601 : Nat) (g_width : Int) (hw : Nat) (input_is_8_bit : Bool)
    (rgb : Int) (quality : String) (trc : Int) (threads : Int) : CFHD_Encoder :=
  let f := select_format YUV_601 g_width input_is_8_bit rgb trc
  let t := resolve_threads hw threads
  { sample := CFHD_Sample.new
    pix_fmt := f.1
    enc_fmt := f.2.1
    flags := f.2.2
    quality := set_quality quality
    threads := t
    queue_size := compute_queue_size t
    queued := 0
    queue := [] }

/-! ## The collaborators as data, and the event log -/

/-- What the encoder pool answers to one `CFHD_TestForSample` call and, when
it hands out a sample, to the `CFHD_GetEncodedSample` call that follows:
`get = none` is an error code, `get = some (data, size)` the encoded bytes. -/
inductive PoolReply
  | not_ready
  | ready (frame_num : Nat) (buffer : Nat) (get : Option (Nat × Nat))
  deriving DecidableEq, Repr

/-- Calls to the collaborators, and the two updates of program state the
specification talks about (`store`, `retrieve`). -/
inductive Event
  /-- Call `CFHD_CreateEncoderPool(&pool, threads, queue_size, nullptr)`. -/
  | create_pool (threads queue_size : Int)
  /-- Call `CFHD_PrepareEncoderPool(pool, g_width, g_height, pix_fmt, enc_fmt,
  flags, quality)`. -/
  | prepare (pix_fmt : CFHD_PixelFormat) (enc_fmt : CFHD_EncodedFormat) (flags : Nat)
      (quality : CFHD_EncodingQuality)
  /-- Slot `i` of the queue received the pixels, `pts` and `duration` of a frame
  (lines 552-559). -/
  | store (i : Nat) (frame_num : Int) (pts duration : Int)
  /-- Call `CFHD_EncodeAsyncSample(pool, frame_num, queue[i].data, pitch, metadata)`;
  `ok` tells whether the pool accepted the frame. -/
  | submit (frame_num : Int) (i : Nat) (ok : Bool)
  /-- Call of `CFHD_TestForSample` by `pop`; `pending` is the value `sample.size`
  has at that moment (non-zero: a retrieved sample has not been written yet). -/
  | poll (pending : Nat)
  /-- A completed sample was retrieved by `pop` (lines 581-593); `pts` and
  `duration` are the values `pop` copied into `sample`. -/
  | retrieve (frame_num : Nat) (pts duration : Int)
  /-- Call of `av_write_frame` for an encoded sample; `pts` and `duration` are the packet
  fields of lines 893-894, before `av_packet_rescale_ts`. -/
  | write (stream_index : Int) (frame_num : Nat) (pts duration : Int) (ok : Bool)
  /-- Call `CFHD_ReleaseSampleBuffer(pool, buffer)`. -/
  | release (buffer : Nat)
  /-- Call of `av_write_frame` for a packet of another stream, passed through. -/
  | remux (stream_index : Int) (ok : Bool)
  /-- Call of `av_write_trailer`. -/
  | trailer (ok : Bool)
  /-- Call of `avcodec_open2` for the decoder of the input video stream. -/
  | open_decoder (codec_id : AVCodecID)
  /-- Call of `avcodec_open2` for the v210 encoder (`init_v210_encoder`). -/
  | init_v210
  /-- Scaler set up by `init_scaler`: target format, rounding flags, coefficient
  table. -/
  | init_scaler (new_pix_fmt : AVPixelFormat) (accurate : Bool) (colorspace : AVColorSpace)
  deriving DecidableEq, Repr

/-- The encoder together with the error codes the collaborators are going to
return (`errs`, consumed call by call; when the list is used up every further
call succeeds) and the log of events so far, newest first. -/
structure St where
  enc : CFHD_Encoder
  errs : List Bool
  log : List Event
  deriving DecidableEq, Repr

/-- The error code of the next fallible collaborator call, and the codes that
remain. -/
def take_err (errs : List Bool) : Bool × List Bool :=
  match errs with
  | [] => (false, [])
  | b :: bs => (b, bs)

/-- The error code of the next fallible collaborator call. -/
def St.next_err (s : St) : Bool × St :=
  match s.errs with
  | [] => (false, s)
  | b :: bs => (b, { s with errs := bs })

/-- Appends an event to the log. -/
def St.emit (s : St) (ev : Event) : St := { s with log := ev :: s.log }

/-- Result of an operation that polls the encoder pool. -/
inductive Res
  /-- The function returned `ok`; `rest` are the pool replies not yet consumed -/
  | ret (ok : Bool) (s : St) (rest : List PoolReply)
  /-- The replies ran out while the function was still polling -/
  | stalled (s : St)
  /-- Undefined behaviour: slot access out of range, or remainder by zero -/
  | undefined
  deriving DecidableEq, Repr

/-! ## `start`, `pop`, `push` -/

/-- The function `CFHD_Encoder::start`: seven SDK calls, each of which may fail. -/
def start (s : St) : Bool × St :=
  let (e1, s) := s.next_err  -- CFHD_MetadataOpen
  if e1 then (false, s) else
  let s := s.emit (.create_pool s.enc.threads s.enc.queue_size)
  let (e2, s) := s.next_err  -- CFHD_CreateEncoderPool
  if e2 then (false, s) else
  let (e3, s) := s.next_err  -- CFHD_AttachEncoderPoolMetadata
  if e3 then (false, s) else
  let (e4, s) := s.next_err  -- CFHD_MetadataAdd
  if e4 then (false, s) else
  let s := s.emit (.prepare s.enc.pix_fmt s.enc.enc_fmt s.enc.flags s.enc.quality)
  let (e5, s) := s.next_err  -- CFHD_PrepareEncoderPool
  if e5 then (false, s) else
  let (e6, s) := s.next_err  -- CFHD_AttachEncoderPoolMetadata
  if e6 then (false, s) else
  let (e7, s) := s.next_err  -- CFHD_StartEncoderPool
  if e7 then (false, s) else
  (true, s)

/-- Line 590: `int i = (sample.frame_num - 1) % queue_size`. `sample.frame_num`
is a `uint32_t`, so both operands are converted to `unsigned int`; `none` when
the divisor is zero. -/
def pop_index (frame_num : Nat) (queue_size : Int) : Option Int :=
  let m := to_uint32 queue_size
  if m = 0 then none
  else some (to_int32 (to_uint32 ((frame_num : Int) - 1) % m))

/-- The access `queue[i]` for an `int` index: `i` is converted to `size_t`, so a negative
index is out of range like one that is too large. -/
def slot_at (queue : List CFHD_AVData) (i : Int) : Option CFHD_AVData :=
  if 0 ≤ i then queue[i.toNat]? else none

/-- The function `CFHD_Encoder::pop` for one answer `r` of the pool. `none` is undefined
behaviour. When the pool has no sample the function sleeps and returns true
(`sample` is left as it was). -/
def pop (r : PoolReply) (s : St) : Option (Bool × St) :=
  let s := s.emit (.poll s.enc.sample.size)
  match r with
  | .not_ready => some (true, s)
  | .ready frame_num buffer get =>
    let smp := { s.enc.sample with frame_num := frame_num, buffer := buffer }
    match get with
    | none => some (false, { s with enc := { s.enc with sample := smp } })
    | some (data, size) =>
      let smp := { smp with data := data, size := size }
      match pop_index frame_num s.enc.queue_size with
      | none => none
      | some i =>
        match slot_at s.enc.queue i with
        | none => none
        | some slot =>
          some (true,
            { s with
              enc := { s.enc with
                sample := { smp with pts := slot.pts, duration := slot.duration }
                queued := s.enc.queued - 1 }
              log := .retrieve frame_num slot.pts slot.duration :: s.log })

/-- Line 551: `int i = (frame_num - 1) % queue_size` on `int` operands (the
remainder truncates towards zero); `none` when the divisor is zero. -/
def push_index (frame_num : Int) (queue_size : Int) : Option Int :=
  if queue_size = 0 then none else some (Int.tmod (frame_num - 1) queue_size)

/-- The bytes `memcpy(dst, data, (size_t)(pitch * g_height))` leaves in a
buffer that held `old`. -/
def memcpy (old data : List Nat) (pitch g_height : Int) : List Nat :=
  let n := (pitch * g_height).toNat
  data.take n ++ old.drop n

/-- Lines 551-559 of `push`: the slot vector after the frame has been stored,
with the index used; `none` when `queue[i]` is out of range. In
`i == queue.size()` the `int` is converted to `size_t`, so a negative `i` is
never equal to the size. -/
def store_frame (queue : List CFHD_AVData) (queue_size g_height : Int) (data : List Nat)
    (pitch frame_num pts duration : Int) : Option (Nat × List CFHD_AVData) :=
  match push_index frame_num queue_size with
  | none => none
  | some i =>
    if 0 ≤ i ∧ i.toNat = queue.length then
      some (i.toNat, queue ++ [{ data := memcpy [] data pitch g_height, pts := pts,
                                 duration := duration }])
    else
      match slot_at queue i with
      | none => none
      | some slot =>
        some (i.toNat, queue.set i.toNat { data := memcpy slot.data data pitch g_height,
                                           pts := pts, duration := duration })

/-- The body of `push` on the branch `queued < queue_size` (lines 542-569). -/
def push_store (g_height : Int) (data : List Nat) (pitch frame_num pts duration : Int)
    (s : St) : Option (Bool × St) :=
  let (md_err, s) := s.next_err  -- CFHD_MetadataAdd
  if md_err then some (false, s)
  else
    match store_frame s.enc.queue s.enc.queue_size g_height data pitch frame_num pts
        duration with
    | none => none
    | some (i, queue) =>
      let s := { s with enc := { s.enc with queue := queue } }
      let s := s.emit (.store i frame_num pts duration)
      let (enc_err, s) := s.next_err  -- CFHD_EncodeAsyncSample
      if enc_err then some (false, s.emit (.submit frame_num i false))
      else
        some (true, { s with
          enc := { s.enc with queued := s.enc.queued + 1 }
          log := .submit frame_num i true :: s.log })

/-- The function `CFHD_Encoder::push`. The `while (1)` loop polls the pool through `pop`
as long as the queue is full; each poll consumes one reply. -/
def push (g_height : Int) (data : List Nat) (pitch frame_num pts duration : Int) :
    List PoolReply → St → Res
  | [], s =>
    if s.enc.queued < s.enc.queue_size then
      match push_store g_height data pitch frame_num pts duration s with
      | none => .undefined
      | some (ok, s) => .ret ok s []
    else .stalled s
  | r :: rs, s =>
    if s.enc.queued < s.enc.queue_size then
      match push_store g_height data pitch frame_num pts duration s with
      | none => .undefined
      | some (ok, s) => .ret ok s (r :: rs)
    else
      match pop r s with
      | none => .undefined
      | some (false, s) => .ret false s rs
      | some (true, s) => push g_height data pitch frame_num pts duration rs s

/-! ## `CFHD_Transcoder` -/

/-- Command line options that reach the pipeline (`struct CliOptions`). -/
structure CliOptions where
  quality : String
  b_rgb : Bool
  trc : Int
  threads : Int
  b_video_only : Bool
  deriving DecidableEq, Repr

/-- The fields of the input video `AVStream` and of its `codecpar` that the
program reads. -/
structure InputStream where
  index : Int
  codec_id : AVCodecID
  format : AVPixelFormat
  width : Int
  height : Int
  deriving DecidableEq, Repr

/-- Answer of `avcodec_receive_packet` on the v210 encoder. -/
inductive V210Reply
  | eagain
  | packet (data : List Nat)
  | error
  deriving DecidableEq, Repr

/-- A frame returned by the decoder (`in_frame`), with what the scaler writes
into `out_frame` for it and what the v210 encoder answers for it. Only the
fields of the active path are read. -/
structure Frame where
  pts : Int
  pkt_duration : Int
  data : List Nat
  linesize : Int
  scaled : List Nat
  scaled_linesize : Int
  v210 : List V210Reply
  deriving DecidableEq, Repr

/-- A packet returned by `av_read_frame`. `frames` and `recv_err` describe the
decoder: the frames `avcodec_receive_frame` returns after this packet has been
sent, and whether the call that follows them reports an error (instead of
`EAGAIN` or end of file). -/
structure Packet where
  stream_index : Int
  data : List Nat
  pts : Int
  duration : Int
  frames : List Frame
  recv_err : Bool
  deriving DecidableEq, Repr

/-- The members of `struct CFHD_Transcoder` that steer the loops; they are
fixed once `process` has set up the adaptation stage. `dec_codec_id` is
`dec_ctx->codec_id`, `sws_ctx` and `v210_ctx` tell whether the pointer is set. -/
structure CFHD_Transcoder where
  b_video_only : Bool
  input : InputStream
  dec_codec_id : AVCodecID
  sws_ctx : Bool
  v210_ctx : Bool
  deriving DecidableEq, Repr

/-- Lines 896-899 of `write_cfhd_sample`: the output track an encoded sample is
written to. -/
def sample_stream_index (tc : CFHD_Transcoder) : Int :=
  if tc.b_video_only then 0 else tc.input.index

/-- The function `CFHD_Transcoder::write_cfhd_sample`. -/
def write_cfhd_sample (tc : CFHD_Transcoder) (s : St) : Bool × St :=
  if s.enc.sample.size > 0 then
    let stream_index := sample_stream_index tc
    let (err, s) := s.next_err  -- av_write_frame
    let s := s.emit (.write stream_index s.enc.sample.frame_num s.enc.sample.pts
      s.enc.sample.duration (!err))
    if err then (false, s)
    else
      (true, { s with
        enc := { s.enc with sample := { s.enc.sample with data := 0, size := 0 } }
        log := .release s.enc.sample.buffer :: s.log })
  else (true, s)

/-- The function `CFHD_Transcoder::encode`, from the state in which the local
`frame_num` has the given value, for the packets `av_read_frame` is going to
return. `buf->size / g_height` divides by zero when `g_height` is zero. -/
def encode (tc : CFHD_Transcoder) : List Packet → Int → List PoolReply → St → Res
  | [], _, rs, s => .ret true s rs
  | pkt :: pkts, frame_num, rs, s =>
    if pkt.stream_index = tc.input.index then
      let frame_num := frame_num + 1
      if tc.input.height = 0 then .undefined
      else
        let pitch := Int.tdiv (pkt.data.length : Int) tc.input.height
        match push tc.input.height pkt.data pitch frame_num pkt.pts pkt.duration rs s with
        | .ret true s rs =>
          let (ok, s) := write_cfhd_sample tc s
          if ok then encode tc pkts frame_num rs s else .ret false s rs
        | r => r
    else if !tc.b_video_only then
      let (err, s) := s.next_err  -- av_write_frame
      let s := s.emit (.remux pkt.stream_index (!err))
      if err then .ret false s rs else encode tc pkts frame_num rs s
    else encode tc pkts frame_num rs s

/-- The receive loop of `CFHD_Transcoder::encode_v210` (after
`avcodec_send_frame` succeeded), for the answers of the v210 encoder. -/
def encode_v210_recv (tc : CFHD_Transcoder) (frame_number pts pkt_duration : Int) :
    List V210Reply → List PoolReply → St → Res
  | [], _, s => .stalled s
  | .eagain :: vs, rs, s => encode_v210_recv tc frame_number pts pkt_duration vs rs s
  | .error :: _, rs, s => .ret false s rs
  | .packet data :: _, rs, s =>
    if tc.input.height = 0 then .undefined
    else
      let pitch := Int.tdiv (data.length : Int) tc.input.height
      push tc.input.height data pitch frame_number pts pkt_duration rs s

/-- The function `CFHD_Transcoder::encode_v210`. -/
def encode_v210 (tc : CFHD_Transcoder) (frame_number : Int) (fr : Frame)
    (rs : List PoolReply) (s : St) : Res :=
  let (err, s) := s.next_err  -- avcodec_send_frame
  if err then .ret false s rs
  else encode_v210_recv tc frame_number fr.pts fr.pkt_duration fr.v210 rs s

/-- The receive loop of `CFHD_Transcoder::transcode_packet`. `frame_number`
is `dec_ctx->frame_number`, which libavcodec increments for every frame it
returns. The result carries the counter in its last component. -/
def transcode_frames (tc : CFHD_Transcoder) (recv_err : Bool) :
    List Frame → Int → List PoolReply → St → Res × Int
  | [], frame_number, rs, s => (.ret (!recv_err) s rs, frame_number)
  | fr :: frs, frame_number, rs, s =>
    let frame_number := frame_number + 1
    let (scale_err, s) := if tc.sws_ctx then s.next_err else (false, s)  -- sws_scale
    if scale_err then (.ret false s rs, frame_number)
    else
      let pushed :=
        if tc.v210_ctx then encode_v210 tc frame_number fr rs s
        else if tc.sws_ctx then
          push tc.input.height fr.scaled fr.scaled_linesize frame_number fr.pts
            fr.pkt_duration rs s
        else
          push tc.input.height fr.data fr.linesize frame_number fr.pts fr.pkt_duration rs s
      match pushed with
      | .ret true s rs =>
        let (ok, s) := write_cfhd_sample tc s
        if ok then transcode_frames tc recv_err frs frame_number rs s
        else (.ret false s rs, frame_number)
      | r => (r, frame_number)

/-- The function `CFHD_Transcoder::transcode_packet` for a packet whose decoding
yields `frames` (for the flush call: the frames the decoder still holds). -/
def transcode_packet (tc : CFHD_Transcoder) (frames : List Frame) (recv_err : Bool)
    (frame_number : Int) (rs : List PoolReply) (s : St) : Res × Int :=
  let (err, s) := s.next_err  -- avcodec_send_packet
  if err then (.ret false s rs, frame_number)
  else transcode_frames tc recv_err frames frame_number rs s

/-- The function `CFHD_Transcoder::transcode`; `flush` and `flush_err` are the
decoder's answers to the final flush. -/
def transcode (tc : CFHD_Transcoder) (flush : List Frame) (flush_err : Bool) :
    List Packet → Int → List PoolReply → St → Res
  | [], frame_number, rs, s => (transcode_packet tc flush flush_err frame_number rs s).1
  | pkt :: pkts, frame_number, rs, s =>
    if pkt.stream_index = tc.input.index then
      match transcode_packet tc pkt.frames pkt.recv_err frame_number rs s with
      | (.ret true s rs, frame_number) => transcode tc flush flush_err pkts frame_number rs s
      | (r, _) => r
    else if !tc.b_video_only then
      let (err, s) := s.next_err  -- av_write_frame
      let s := s.emit (.remux pkt.stream_index (!err))
      if err then .ret false s rs else transcode tc flush flush_err pkts frame_number rs s
    else transcode tc flush flush_err pkts frame_number rs s

/-- The drain loop of `process` (lines 1220-1222):
`while (cfhd->queued) if (! (cfhd->pop() && write_cfhd_sample())) throw 4;` -/
def drain (tc : CFHD_Transcoder) : List PoolReply → St → Res
  | [], s => if s.enc.queued ≠ 0 then .stalled s else .ret true s []
  | r :: rs, s =>
    if s.enc.queued ≠ 0 then
      match pop r s with
      | none => .undefined
      | some (false, s) => .ret false s rs
      | some (true, s) =>
        let (ok, s) := write_cfhd_sample tc s
        if ok then drain tc rs s else .ret false s rs
    else .ret true s (r :: rs)

/-! ## `open_input` and `process` -/

/-- The two fields of an `AVPixFmtDescriptor` that `process` reads:
`comp[0].depth` and the flag `AV_PIX_FMT_FLAG_RGB`. -/
structure AVPixFmtDescriptor where
  depth : Nat
  rgb : Bool
  deriving DecidableEq, Repr

/-- The libavutil table `av_pix_fmt_desc_get` for the formats the program
names; `others` is the table for the remaining formats. There is no
descriptor for `AV_PIX_FMT_NONE` (the function returns a null pointer). -/
def av_pix_fmt_desc_get (others : Nat → AVPixFmtDescriptor) :
    AVPixelFormat → Option AVPixFmtDescriptor
  | .NONE => none
  | .YUYV422 => some { depth := 8, rgb := false }
  | .RGB48LE => some { depth := 16, rgb := true }
  | .YUV422P10LE => some { depth := 10, rgb := false }
  | .GBRP12LE => some { depth := 12, rgb := true }
  | .other id => some (others id)

/-- The test of lines 741-750 of `open_input`: the video can go to the encoder
as it is. -/
def is_direct_format (b_rgb : Bool) (stream : InputStream) : Bool :=
  if stream.codec_id = .RAWVIDEO then
    if b_rgb then
      (if stream.format = .RGB48LE then true else false)
    else if stream.format = .YUYV422 then true
    else false
  else false

/-- The function `CFHD_Transcoder::open_input` from `av_find_best_stream` on,
for the video stream libavformat selects. The result is the transcoder with
`dec_ctx->codec_id` as `open_input` leaves it, or the thrown status. The
constructor allocated `dec_ctx` without a codec, so its `codec_id` is
`AV_CODEC_ID_NONE` until `avcodec_parameters_to_context` copies the stream's.
`av_find_best_stream` is asked for a decoder and fails for a stream that has
none, as is the case for `AV_CODEC_ID_NONE`. -/
def open_input (cliopt : CliOptions) (stream : InputStream) (errs : List Bool) :
    Except Nat (CFHD_Transcoder × List Bool × List Event) :=
  let tc : CFHD_Transcoder :=
    { b_video_only := cliopt.b_video_only, input := stream, dec_codec_id := .NONE,
      sws_ctx := false, v210_ctx := false }
  let (e1, errs) := take_err errs  -- avformat_open_input
  if e1 then .error 2 else
  let (e2, errs) := take_err errs  -- av_find_best_stream
  if e2 || stream.codec_id = .NONE then .error 2 else
  if is_direct_format cliopt.b_rgb stream then .ok (tc, errs, []) else
  let (e3, errs) := take_err errs  -- avcodec_alloc_context3
  if e3 then .error 2 else
  let (e4, errs) := take_err errs  -- avcodec_parameters_to_context
  if e4 then .error 2 else
  let (e5, errs) := take_err errs  -- avcodec_open2
  if e5 then .error 2 else
  .ok ({ tc with dec_codec_id := stream.codec_id }, errs, [.open_decoder stream.codec_id])

/-- How `process` ends. -/
inductive Outcome
  /-- The function returned normally. -/
  | returned (s : St)
  /-- The function threw `code`. -/
  | thrown (code : Nat) (s : St)
  /-- The pool replies (or the v210 encoder's answers) ran out while a loop was
  still waiting. -/
  | stalled (s : St)
  /-- Undefined behaviour. -/
  | undefined
  deriving DecidableEq, Repr

/-- The pattern `if (! f()) throw 4;` followed by the rest of `process`. -/
def or_throw (r : Res) (rest : St → List PoolReply → Outcome) : Outcome :=
  match r with
  | .ret true s rs => rest s rs
  | .ret false s _ => .thrown 4 s
  | .stalled s => .stalled s
  | .undefined => .undefined

/-- Lines 1219-1230 of `process`: drain the encoder, write the trailer. -/
def process_flush (tc : CFHD_Transcoder) (rs : List PoolReply) (s : St) : Outcome :=
  or_throw (drain tc rs s) fun s _ =>
    let (err, s) := s.next_err  -- av_write_trailer
    let s := s.emit (.trailer (!err))
    if err then .thrown 4 s else .returned s

/-- The direct path of `process` (lines 1170-1171, then the flush). -/
def process_direct (tc : CFHD_Transcoder) (packets : List Packet) (rs : List PoolReply)
    (s : St) : Outcome :=
  or_throw (encode tc packets 0 rs s) fun s rs => process_flush tc rs s

/-- The choice of the coefficient table in `init_scaler` (lines 1007-1020). -/
def scaler_colorspace (trc : Int) (g_width : Int) : AVColorSpace :=
  if trc = 601 then .BT470BG
  else if trc = 709 then .BT709
  else if g_width ≤ 720 then .BT470BG
  else .BT709

/-- The function `CFHD_Transcoder::init_scaler`. -/
def init_scaler (tc : CFHD_Transcoder) (new_pix_fmt : AVPixelFormat) (accurate : Bool)
    (trc : Int) (s : St) : Bool × St :=
  let (err, s) := s.next_err  -- sws_getContext
  if err then (false, s)
  else (true, s.emit (.init_scaler new_pix_fmt accurate (scaler_colorspace trc tc.input.width)))

/-- The function `CFHD_Transcoder::init_v210_encoder`. -/
def init_v210_encoder (s : St) : Bool × St :=
  let (e1, s) := s.next_err  -- avcodec_find_encoder_by_name
  if e1 then (false, s) else
  let (e2, s) := s.next_err  -- avcodec_alloc_context3
  if e2 then (false, s) else
  let s := s.emit .init_v210
  let (e3, s) := s.next_err  -- avcodec_open2
  if e3 then (false, s) else
  (true, s)

/-- The target format `new_pix_fmt` chosen in lines 1184-1191. -/
def select_new_pix_fmt (b_rgb input_is_8_bit : Bool) (format : AVPixelFormat) :
    AVPixelFormat :=
  if b_rgb then .RGB48LE
  else if input_is_8_bit then .YUYV422
  else if format ≠ .YUV422P10LE then .YUV422P10LE
  else .NONE

/-- The decode path of `process` (lines 1175-1216, then the flush). -/
def process_adapt (cliopt : CliOptions) (tc : CFHD_Transcoder)
    (input_is_8_bit input_is_rgb : Bool) (packets : List Packet) (flush : List Frame)
    (flush_err : Bool) (rs : List PoolReply) (s : St) : Outcome :=
  let (e1, s) := s.next_err  -- av_frame_alloc
  let (e2, s) := s.next_err  -- av_frame_alloc
  if e1 || e2 then .thrown 4 s else
  let new_pix_fmt := select_new_pix_fmt cliopt.b_rgb input_is_8_bit tc.input.format
  let use_v210 := !cliopt.b_rgb && !input_is_8_bit
  let (ok, s) := if use_v210 then init_v210_encoder s else (true, s)
  if !ok then .thrown 4 s else
  let tc := { tc with v210_ctx := use_v210 }
  let set_up : Bool × St × CFHD_Transcoder :=
    if new_pix_fmt ≠ .NONE then
      let (e3, s) := s.next_err  -- av_frame_get_buffer
      if e3 then (false, s, tc)
      else
        let accurate := input_is_rgb != cliopt.b_rgb
        let (ok, s) := init_scaler tc new_pix_fmt accurate cliopt.trc s
        (ok, s, { tc with sws_ctx := ok })
    else (true, s, tc)
  if !set_up.1 then .thrown 4 set_up.2.1 else
  or_throw (transcode set_up.2.2 flush flush_err packets 0 rs set_up.2.1) fun s rs =>
    process_flush set_up.2.2 rs s

/-- Lines 1156-1163 of `process`: the encoder constructed for an input whose
pixel format has the descriptor `input_desc` (`g_width` was set to the
stream's width by `open_input`). -/
def process_encoder (YUV_601 : Nat) (hw : Nat) (cliopt : CliOptions) (tc : CFHD_Transcoder)
    (input_desc : AVPixFmtDescriptor) : CFHD_Encoder :=
  let input_is_8_bit := input_desc.depth == 8
  CFHD_Encoder.new YUV_601 tc.input.width hw input_is_8_bit
    (if cliopt.b_rgb then 1 else 0) cliopt.quality cliopt.trc cliopt.threads

/-- Whether flag `f` is set in the flag word `flags`. -/
def has_flag (flags f : Nat) : Bool := flags &&& f != 0

/-- Lines 1167-1230 of `process`: the choice between `encode` and the decode
path (`dec_ctx->codec_id` is `AV_CODEC_ID_NONE` when no decoder was opened),
then the flush. -/
def process_body (cliopt : CliOptions) (tc : CFHD_Transcoder)
    (input_is_8_bit input_is_rgb : Bool) (packets : List Packet) (flush : List Frame)
    (flush_err : Bool) (rs : List PoolReply) (s : St) : Outcome :=
  if tc.dec_codec_id = .NONE then process_direct tc packets rs s
  else process_adapt cliopt tc input_is_8_bit input_is_rgb packets flush flush_err rs s

/-- The function `CFHD_Transcoder::process`. `YUV_601` is the SDK flag
constant, `hw` the value of `hardware_concurrency()`, `others` the pixel format
table, `packets`, `flush`, `flush_err` what the demuxer and the decoder
deliver, `rs` the answers of the encoder pool and `errs` the error codes of the
other calls. The log starts empty. -/
def process (YUV_601 : Nat) (hw : Nat) (others : Nat → AVPixFmtDescriptor)
    (cliopt : CliOptions) (tc : CFHD_Transcoder) (packets : List Packet)
    (flush : List Frame) (flush_err : Bool) (rs : List PoolReply) (errs : List Bool) :
    Outcome :=
  match av_pix_fmt_desc_get others tc.input.format with
  | none => .undefined
  | some input_desc =>
    let input_is_8_bit := input_desc.depth == 8
    let input_is_rgb := input_desc.rgb
    let cfhd := process_encoder YUV_601 hw cliopt tc input_desc
    let s : St := { enc := cfhd, errs := errs, log := [] }
    let (ok, s) := start s
    if !ok then .thrown 4 s
    else process_body cliopt tc input_is_8_bit input_is_rgb packets flush flush_err rs s

/-! ## Notions the properties are stated with -/

/-- Change of the number of frames in flight that an event stands for. -/
def Event.delta : Event → Int
  | .submit _ _ true => 1
  | .retrieve _ _ _ => -1
  | _ => 0

/-- Number of frames in flight after the events of a log: frames the pool
accepted minus samples retrieved. -/
def in_flight_count : List Event → Int
  | [] => 0
  | ev :: l => in_flight_count l + ev.delta

/-- Events by which `push` puts a frame into a slot or hands it to the pool. -/
def Event.is_store_or_submit : Event → Bool
  | .store _ _ _ _ => true
  | .submit _ _ _ => true
  | _ => false

/-- The states an encoder of capacity `C` can be in: it starts with nothing
queued, and then `push`, `pop` and `write_cfhd_sample` are called in any order
with any arguments, whatever the pool and the other collaborators answer and
whether or not earlier calls failed. -/
inductive Reachable (C : Int) : St → Prop
  | init (s : St) (hC : s.enc.queue_size = C) (hq : s.enc.queued = 0)
      (hv : s.enc.queue = []) (hl : s.log = []) : Reachable C s
  | pop (r : PoolReply) (s s' : St) (b : Bool) (h : Reachable C s)
      (hp : pop r s = some (b, s')) : Reachable C s'
  | push (g_height : Int) (data : List Nat) (pitch frame_num pts duration : Int)
      (rs rest : List PoolReply) (s s' : St) (ok : Bool) (h : Reachable C s)
      (hp : push g_height data pitch frame_num pts duration rs s = .ret ok s' rest) :
      Reachable C s'
  | push_stalled (g_height : Int) (data : List Nat) (pitch frame_num pts duration : Int)
      (rs : List PoolReply) (s s' : St) (h : Reachable C s)
      (hp : push g_height data pitch frame_num pts duration rs s = .stalled s') :
      Reachable C s'
  | write (tc : CFHD_Transcoder) (s : St) (h : Reachable C s) :
      Reachable C (write_cfhd_sample tc s).2

/-- The in-flight bound along a whole log: after every event at most `C` frames
are in flight, and every store or submit event happens while fewer than `C`
are. -/
def Bounded (C : Int) : List Event → Prop
  | [] => True
  | ev :: l =>
    Bounded C l ∧ in_flight_count (ev :: l) ≤ C ∧
      (ev.is_store_or_submit = true → in_flight_count l < C)

/-! ## A concrete run: capacity 3, frames 1 to 4 -/

/-- The state a `Res` ends in (`dflt` for undefined behaviour). -/
def Res.st (r : Res) (dflt : St) : St :=
  match r with
  | .ret _ s _ => s
  | .stalled s => s
  | .undefined => dflt

/-- An encoder for two threads: capacity 3. -/
def enc3 : CFHD_Encoder := CFHD_Encoder.new 4 1920 8 true 0 "fs1" 0 2

/-- Nothing pushed yet, no collaborator call fails. -/
def run0 : St := { enc := enc3, errs := [], log := [] }

/-- Frame 1 pushed with `pts` 10. -/
def run1 : St := (push 2 [1, 1, 1, 1] 2 1 10 1 [] run0).st run0

/-- Frame 2 pushed with `pts` 20. -/
def run2 : St := (push 2 [2, 2, 2, 2] 2 2 20 1 [] run1).st run1

/-- Frame 3 pushed with `pts` 30: the queue is full. -/
def run3 : St := (push 2 [3, 3, 3, 3] 2 3 30 1 [] run2).st run2

/-- Frame 4 pushed with `pts` 40 while the pool first has nothing ready and then
completes frame 1. -/
def run4_in_order : St :=
  (push 2 [4, 4, 4, 4] 2 4 40 1 [.not_ready, .ready 1 7 (some (9, 100))] run3).st run3

/-- Frame 4 pushed with `pts` 40 while the pool completes frame 2 first. -/
def run4_reordered : St :=
  (push 2 [4, 4, 4, 4] 2 4 40 1 [.ready 2 7 (some (9, 100))] run3).st run3

/-- After `run4_reordered` the sample of frame 2 is written and the pool
completes frame 1. -/
def run5_reordered : St :=
  match pop (.ready 1 8 (some (9, 100)))
      (write_cfhd_sample ⟨false, ⟨0, .RAWVIDEO, .YUYV422, 1920, 2⟩, .NONE, false, false⟩
        run4_reordered).2 with
  | some (_, s) => s
  | none => run4_reordered

/-! ## Frames in flight, pool disciplines, and the slot properties -/

/-- Effect of an event on the list of frames in flight (oldest first): an
accepted submission appends its frame, a retrieval removes its frame. -/
def Event.apply (ev : Event) (fl : List Int) : List Int :=
  match ev with
  | .submit f _ true => fl ++ [f]
  | .retrieve f _ _ => fl.erase (f : Int)
  | _ => fl

/-- The frames in flight after the events of a log, oldest first. -/
def in_flight : List Event → List Int
  | [] => []
  | ev :: l => ev.apply (in_flight l)

/-- Number of submissions the pool accepted. -/
def submitted_count : List Event → Nat
  | [] => 0
  | ev :: l => submitted_count l + (if ev.delta = 1 then 1 else 0)

/-- A retrieval is legitimate for a pool that may complete frames in any order
when the frame is in flight; other events are not constrained. -/
def Event.any_order_ok (ev : Event) (fl : List Int) : Bool :=
  match ev with
  | .retrieve f _ _ => decide ((f : Int) ∈ fl)
  | _ => true

/-- The pool only hands out samples of frames that are in flight, in whatever
order it completes them. -/
def pool_any_order : List Event → Bool
  | [] => true
  | ev :: l => pool_any_order l && ev.any_order_ok (in_flight l)

/-- A retrieval is in submission order when the frame is the oldest one in
flight. -/
def Event.fifo_ok (ev : Event) (fl : List Int) : Bool :=
  match ev with
  | .retrieve f _ _ => decide (fl.head? = some (f : Int))
  | _ => true

/-- The pool hands out the samples in the order in which the frames were
submitted. -/
def pool_fifo : List Event → Bool
  | [] => true
  | ev :: l => pool_fifo l && ev.fifo_ok (in_flight l)

/-- A store carries the next frame number when `n` submissions have been
accepted so far; frame numbers are `int` values. -/
def Event.numbered_ok (ev : Event) (n : Nat) : Bool :=
  match ev with
  | .store _ f _ _ => decide (f = (n : Int) + 1 ∧ f ≤ 2147483647)
  | _ => true

/-- The frames are pushed with the numbers 1, 2, 3, ... (as `encode` and the
decoder's frame counter do), and no frame is pushed after a failed one. -/
def numbered : List Event → Bool
  | [] => true
  | ev :: l => numbered l && ev.numbered_ok (submitted_count l)

/-- The frame an event puts into a slot or hands to the pool. -/
def Event.puts (ev : Event) : Option Int :=
  match ev with
  | .store _ f _ _ => some f
  | .submit f _ _ => some f
  | _ => none

/-- The `pts` and `duration` an event stores for frame `f`. -/
def Event.stored (ev : Event) (f : Int) : Option (Int × Int) :=
  match ev with
  | .store _ g p d => if g = f then some (p, d) else none
  | _ => none

/-- The `pts` and `duration` given to the most recent `push` that stored
frame `f`. -/
def last_store : List Event → Int → Option (Int × Int)
  | [], _ => none
  | ev :: l, f =>
    match ev.stored f with
    | some x => some x
    | none => last_store l f

/-- Slot exclusivity as the specification states it, for capacity `C`: when a
frame `f2` is stored or submitted, every other frame `f1` of the same slot that
was submitted before has had its sample retrieved. -/
def SlotExclusive (C : Int) (log : List Event) : Prop :=
  ∀ (ev : Event) (l : List Event) (f1 f2 : Int) (i1 : Nat),
    ev :: l <:+ log → ev.puts = some f2 → Event.submit f1 i1 true ∈ l → f1 ≠ f2 →
    (f1 - 1) % C = (f2 - 1) % C → ∃ p d, Event.retrieve f1.toNat p d ∈ l

/-- Timestamp fidelity as the specification states it: the `pts` and
`duration` `pop` attaches to the sample of frame `f` are those given to `push`
for frame `f`. -/
def TimestampFidelity (log : List Event) : Prop :=
  ∀ (l : List Event) (f : Nat) (p d : Int),
    Event.retrieve f p d :: l <:+ log → last_store l (f : Int) = some (p, d)

/-- The integers `a, a+1, ..., a+k-1`. -/
def consecutive (a : Int) : Nat → List Int
  | 0 => []
  | k + 1 => a :: consecutive (a + 1) k

/-- Slot exclusivity, event by event: a store or submission of `f2` finds no
other frame of the same slot in flight. -/
def Exclusive (C : Int) : List Event → Prop
  | [] => True
  | ev :: l =>
    Exclusive C l ∧
      ∀ f2, ev.puts = some f2 → ∀ f1 ∈ in_flight l, f1 ≠ f2 → (f1 - 1) % C ≠ (f2 - 1) % C

/-- Timestamp fidelity, event by event. -/
def Faithful : List Event → Prop
  | [] => True
  | ev :: l =>
    Faithful l ∧ ∀ (f : Nat) (p d : Int), ev = .retrieve f p d → last_store l (f : Int) = some (p, d)

/-- The invariant behind the in-flight bound. -/
def Inv1 (C : Int) (s : St) : Prop :=
  s.enc.queue_size = C ∧ s.enc.queued = in_flight_count s.log ∧ s.enc.queued ≤ C ∧
    Bounded C s.log

/-- The invariant behind slot exclusivity and timestamp fidelity: `m` frames
have been submitted, the `k` youngest of them are in flight, `queued` is `k`,
and the slot of every frame in flight still holds that frame's `pts` and
`duration`. -/
def Inv2 (C : Int) (s : St) : Prop :=
  ∃ (m k : Nat),
    submitted_count s.log = m ∧ k ≤ m ∧ (m : Int) ≤ 2147483647 ∧ s.enc.queued = k ∧
    s.enc.queue_size = C ∧
    in_flight s.log = consecutive ((m : Int) - k + 1) k ∧
    (∀ f ∈ in_flight s.log, ∃ slot, slot_at s.enc.queue ((f - 1) % C) = some slot ∧
        last_store s.log f = some (slot.pts, slot.duration)) ∧
    Exclusive C s.log ∧ Faithful s.log

/-- The property carried through a run: if the log shows in-order completion
and consecutive frame numbers, the invariant holds. -/
def P2 (C : Int) (s : St) : Prop :=
  pool_fifo s.log = true → numbered s.log = true → Inv2 C s

/-! ## Reasoning about whole runs of `process` -/

/-- Events that belong neither to the slot queue protocol nor to the output of
samples, the trailer apart. -/
def Event.is_control : Event → Bool
  | .create_pool _ _ => true
  | .prepare _ _ _ _ => true
  | .remux _ _ => true
  | .open_decoder _ => true
  | .init_v210 => true
  | .init_scaler _ _ _ => true
  | _ => false

/-- What is known when a loop of the transcoder ends: `Q` if it returned true
(and the replies left over still satisfy `R`), `W` if it returned false or
stalled. -/
def ResPost (R : PoolReply → Prop) (W Q : St → Prop) (r : Res) : Prop :=
  match r with
  | .ret true s rest => Q s ∧ ∀ x ∈ rest, R x
  | .ret false s _ => W s
  | .stalled s => W s
  | .undefined => True

/-- What is known when `process` ends: `Q` if it returned, `W` if it threw
(always the status 4) or stalled. -/
def OutcomePost (W Q : St → Prop) (o : Outcome) : Prop :=
  match o with
  | .returned s => Q s
  | .thrown code s => code = 4 ∧ W s
  | .stalled s => W s
  | .undefined => True

/-- The assumptions of the induction over a run. `A n` holds between two
steps of the pipeline when `n` frames have been pushed, `B n` after a `push`
or a draining `pop`, before the sample is written, `W` when the run is
abandoned; `R` is what is known about the replies of the pool. -/
structure RunInvariant (R : PoolReply → Prop) (A B : Int → St → Prop) (W : St → Prop) :
    Prop where
  weaken : ∀ n s, A n s → W s
  err : ∀ n s, A n s → A n s.next_err.2
  emit : ∀ n s ev, A n s → ev.is_control = true → A n (s.emit ev)
  push : ∀ n g_height data pitch pts duration rs s, A n s → (∀ x ∈ rs, R x) →
    ResPost (fun _ => True) W (B (n + 1)) (push g_height data pitch (n + 1) pts duration rs s)
  write : ∀ n tc s, B n s →
    if (write_cfhd_sample tc s).1 = true then A n (write_cfhd_sample tc s).2
    else W (write_cfhd_sample tc s).2
  pop : ∀ n r s b s', A n s → R r → s.enc.queued ≠ 0 → pop r s = some (b, s') →
    if b = true then B n s' else W s'

/-- What the induction gives once `av_write_trailer` has been called with the
result `ok`: the call was made in a state `s1` that satisfies `A` and has an
empty queue counter, and the trailer is the last event. -/
def Finished (A : Int → St → Prop) (ok : Bool) (s : St) : Prop :=
  ∃ (m : Int) (s1 : St), A m s1 ∧ s1.enc.queued = 0 ∧ s.enc = s1.enc ∧
    s.log = .trailer ok :: s1.log

/-- What the induction gives when `process` ends: it returned after the
trailer was written; or it threw 4, either because the trailer could not be
written or earlier (`W`); or it stalled (`W`). -/
def ProcessPost (A : Int → St → Prop) (W : St → Prop) (o : Outcome) : Prop :=
  OutcomePost (fun s => W s ∨ Finished A false s) (Finished A true) o

/-- The state in which a run ends. -/
def Outcome.final : Outcome → Option St
  | .returned s => some s
  | .thrown _ s => some s
  | .stalled s => some s
  | .undefined => none

/-- The log holds no trailer event. -/
def NoTrailer (s : St) : Prop := ∀ ok, Event.trailer ok ∉ s.log

/-! ## One pending sample at a time; the frames submitted, retrieved, written -/

/-- The sample that is pending after an event, given the one pending before:
a retrieval makes its frame pending, a successful write clears it. -/
def Event.pend (ev : Event) (p : Option Nat) : Option Nat :=
  match ev with
  | .retrieve f _ _ => some f
  | .write _ _ _ _ true => none
  | _ => p

/-- The frame whose sample has been retrieved but not yet written. -/
def pending : List Event → Option Nat
  | [] => none
  | ev :: l => ev.pend (pending l)

/-- A retrieval is in turn when no sample is pending, a write when the sample
it writes is the pending one. -/
def Event.turn_ok (ev : Event) (p : Option Nat) : Bool :=
  match ev with
  | .retrieve _ _ _ => p == none
  | .write _ f _ _ _ => p == some f
  | _ => true

/-- Every sample retrieved is written before the next one is retrieved, and
nothing else is written. -/
def one_at_a_time : List Event → Bool
  | [] => true
  | ev :: l => one_at_a_time l && ev.turn_ok (pending l)

/-- The frame an event retrieves, if it is a retrieval. -/
def Event.retrieved_frame (ev : Event) : List Nat :=
  match ev with
  | .retrieve f _ _ => [f]
  | _ => []

/-- The frame numbers of the samples retrieved, oldest first. -/
def retrieved_frames : List Event → List Nat
  | [] => []
  | ev :: l => retrieved_frames l ++ ev.retrieved_frame

/-- The frame an event writes to the output, if it is a successful write. -/
def Event.written_frame (ev : Event) : List Nat :=
  match ev with
  | .write _ f _ _ true => [f]
  | _ => []

/-- The frame numbers of the samples written to the output, oldest first. -/
def written_frames : List Event → List Nat
  | [] => []
  | ev :: l => written_frames l ++ ev.written_frame

/-- The frame an event submits, if it is an accepted submission. -/
def Event.submitted_frame (ev : Event) : List Int :=
  match ev with
  | .submit f _ true => [f]
  | _ => []

/-- The frame numbers the pool accepted, oldest first. -/
def submitted_frames : List Event → List Int
  | [] => []
  | ev :: l => submitted_frames l ++ ev.submitted_frame

/-- A completed sample is never empty. -/
def PoolReply.nonempty (r : PoolReply) : Prop :=
  match r with
  | .ready _ _ (some (_, size)) => 0 < size
  | _ => True

/-- Between two steps of the pipeline, with `n` frames pushed: the frames
1, ..., n have been submitted, no sample is pending, and the samples written
are the samples retrieved, in the same order. -/
def Settled (C : Int) (n : Int) (s : St) : Prop :=
  Inv1 C s ∧ 0 ≤ n ∧ one_at_a_time s.log = true ∧
  submitted_frames s.log = consecutive 1 n.toNat ∧
  s.enc.sample.size = 0 ∧ pending s.log = none ∧
  retrieved_frames s.log = written_frames s.log

/-- After a `push` or a `pop`, with `n` frames pushed: either nothing is
pending, or the sample held in `sample` is the one retrieved last and not yet
written. -/
def Holding (C : Int) (n : Int) (s : St) : Prop :=
  Inv1 C s ∧ 0 ≤ n ∧ one_at_a_time s.log = true ∧
  submitted_frames s.log = consecutive 1 n.toNat ∧
  ((s.enc.sample.size = 0 ∧ pending s.log = none ∧
      retrieved_frames s.log = written_frames s.log) ∨
   (0 < s.enc.sample.size ∧ pending s.log = some s.enc.sample.frame_num ∧
      retrieved_frames s.log = written_frames s.log ++ [s.enc.sample.frame_num]))

/-- At any moment of a run: retrievals and writes alternate, and the samples
retrieved are the samples written followed by the pending one, if any. -/
def Orderly (s : St) : Prop :=
  one_at_a_time s.log = true ∧
  retrieved_frames s.log = written_frames s.log ++ (pending s.log).toList

/-- The state of the polling loop of `push` number `n + 1`. -/
def Polling (C : Int) (n : Int) (s : St) : Prop :=
  Inv1 C s ∧ 0 ≤ n ∧ one_at_a_time s.log = true ∧
  submitted_frames s.log = consecutive 1 n.toNat ∧
  ((s.enc.sample.size = 0 ∧ pending s.log = none ∧
      retrieved_frames s.log = written_frames s.log) ∨
   (s.enc.queued < s.enc.queue_size ∧ 0 < s.enc.sample.size ∧
      pending s.log = some s.enc.sample.frame_num ∧
      retrieved_frames s.log = written_frames s.log ++ [s.enc.sample.frame_num]))

/-! ## A concrete run of `process`: two frames in flight at the end of the stream -/

/-- Options: YUV, no forced transfer characteristic, two threads (capacity 3). -/
def demo_opts : CliOptions :=
  { quality := "fs1", b_rgb := false, trc := 0, threads := 2, b_video_only := false }

/-- A raw YUYV422 input of 720 by 2 pixels on track 0, opened for the direct
path. -/
def demo_tc : CFHD_Transcoder :=
  { b_video_only := false
    input := { index := 0, codec_id := .RAWVIDEO, format := .YUYV422, width := 720, height := 2 }
    dec_codec_id := .NONE, sws_ctx := false, v210_ctx := false }

/-- A video packet with the given `pts` and duration 1. -/
def demo_packet (pts : Int) : Packet :=
  { stream_index := 0, data := [0, 0, 0, 0], pts := pts, duration := 1, frames := [],
    recv_err := false }

/-- Two video packets and one packet of another track; the pool completes
frame 2 before frame 1, both during the final drain. -/
def demo_run : Outcome :=
  process 4 8 (fun _ => { depth := 8, rgb := false }) demo_opts demo_tc
    [demo_packet 10, { demo_packet 15 with stream_index := 1 }, demo_packet 20] [] false
    [.ready 2 7 (some (9, 100)), .not_ready, .ready 1 8 (some (9, 100))] []

/-- The state in which `demo_run` ends. -/
def demo_final : St := (demo_run.final).getD run0

/-- The log of `demo_run` at the moment the trailer is written. -/
def demo_log : List Event := demo_final.log.tail

/-! ## The ranges of the C types -/

/-- The largest `int`. -/
def INT_MAX : Int := 2147483647

/-! ## The set-up of the decode path -/

/-- Lines 1175-1213 of `process`: the set-up of the decode path, from the
allocation of the frames to the call of `transcode`. The result tells whether
the set-up got through (`process` throws 4 when it did not) and gives the state
and the transcoder, with `v210_ctx` and `sws_ctx` as the set-up leaves them. -/
def process_setup (cliopt : CliOptions) (tc : CFHD_Transcoder)
    (input_is_8_bit input_is_rgb : Bool) (s : St) : Bool × St × CFHD_Transcoder :=
  let (e1, s) := s.next_err  -- av_frame_alloc
  let (e2, s) := s.next_err  -- av_frame_alloc
  if e1 || e2 then (false, s, tc) else
  let chosen : Bool × St × CFHD_Transcoder × AVPixelFormat :=
    if cliopt.b_rgb then (true, s, tc, .RGB48LE)
    else if input_is_8_bit then (true, s, tc, .YUYV422)
    else
      let new_pix_fmt : AVPixelFormat :=
        if tc.input.format ≠ .YUV422P10LE then .YUV422P10LE else .NONE
      let (ok, s) := init_v210_encoder s
      (ok, s, { tc with v210_ctx := ok }, new_pix_fmt)
  if !chosen.1 then (false, chosen.2.1, chosen.2.2.1) else
  let s := chosen.2.1
  let tc := chosen.2.2.1
  let new_pix_fmt := chosen.2.2.2
  if new_pix_fmt ≠ .NONE then
    let (e3, s) := s.next_err  -- av_frame_get_buffer
    if e3 then (false, s, tc)
    else
      let accurate := input_is_rgb != cliopt.b_rgb
      let (ok, s) := init_scaler tc new_pix_fmt accurate cliopt.trc s
      (ok, s, { tc with sws_ctx := ok })
  else (true, s, tc)

/-! ## Lazy allocation of the slots -/

/-- An event by which `push` puts a frame into a slot. -/
def Event.is_store : Event → Bool
  | .store _ _ _ _ => true
  | _ => false

/-- Number of frames that have been put into a slot. -/
def stored_count : List Event → Nat
  | [] => 0
  | ev :: l => stored_count l + (if ev.is_store then 1 else 0)

/-- A store carries the next frame number when `n` frames have been stored so
far; frame numbers are `int` values. -/
def Event.in_sequence (ev : Event) (n : Nat) : Bool :=
  match ev with
  | .store _ f _ _ => decide (f = (n : Int) + 1 ∧ f ≤ INT_MAX)
  | _ => true

/-- The frames are stored with the numbers 1, 2, 3, ... (as `encode` and the
decoder's frame counter give them). -/
def stores_in_sequence : List Event → Bool
  | [] => true
  | ev :: l => stores_in_sequence l && ev.in_sequence (stored_count l)

/-- The slot vector has one entry per frame stored, up to the capacity. -/
def SlotsAllocated (C : Int) (s : St) : Prop :=
  s.enc.queue_size = C ∧
    (stores_in_sequence s.log = true →
      (s.enc.queue.length : Int) = min (stored_count s.log : Int) C)

/-! ## `open_output` -/

/-- The media types `open_output` distinguishes (`enum AVMediaType`): the
constants `AVMEDIA_TYPE_VIDEO`, `AVMEDIA_TYPE_AUDIO`, `AVMEDIA_TYPE_SUBTITLE`,
and the remaining ones. -/
inductive AVMediaType
  | video
  | audio
  | subtitle
  | other (id : Nat)
  deriving DecidableEq, Repr

/-- The fields of `AVCodecParameters` that `open_output` sets for the video
track. -/
structure AVCodecParameters where
  codec_type : AVMediaType
  codec_id : AVCodecID
  format : AVPixelFormat
  width : Int
  height : Int
  deriving DecidableEq, Repr

/-- A stream of the output container: the input stream it was created for and
its codec parameters. -/
structure OutputStream where
  source : Nat
  codecpar : AVCodecParameters
  deriving DecidableEq, Repr

/-- The parameters `open_output` gives the video track (lines 830-835). -/
def cfhd_codecpar (b_rgb : Bool) (g_width g_height : Int) : AVCodecParameters :=
  { codec_type := .video, codec_id := .CFHD,
    format := if b_rgb then .GBRP12LE else .YUV422P10LE,
    width := g_width, height := g_height }

/-- The loop of `open_output` over the input streams (lines 809-863), from
stream `i` on; `v` is the position of `input` among the streams of the input
and `out` the streams of the output created so far. `avformat_new_stream`
appends the new stream to the output. -/
def open_output_streams (cliopt : CliOptions) (g_width g_height : Int) (v : Nat) :
    Nat → List AVCodecParameters → List OutputStream → List Bool →
      Except Nat (List OutputStream × List Bool)
  | _, [], out, errs => .ok (out, errs)
  | i, ist :: rest, out, errs =>
    if cliopt.b_video_only && i ≠ v then
      open_output_streams cliopt g_width g_height v (i + 1) rest out errs
    else
      let (e1, errs) := take_err errs  -- avformat_new_stream
      if e1 then .error 3 else
      if i = v then
        open_output_streams cliopt g_width g_height v (i + 1) rest
          (out ++ [{ source := i, codecpar := cfhd_codecpar cliopt.b_rgb g_width g_height }])
          errs
      else
        let (e2, errs) := take_err errs  -- avcodec_parameters_copy
        if e2 then .error 3 else
        open_output_streams cliopt g_width g_height v (i + 1) rest
          (out ++ [{ source := i, codecpar := ist }]) errs

/-- The function `CFHD_Transcoder::open_output` for an input with the streams
`streams`, of which the one at position `v` is `input`. The result is the list
of streams of the output, or the thrown status. -/
def open_output (cliopt : CliOptions) (g_width g_height : Int) (v : Nat)
    (streams : List AVCodecParameters) (errs : List Bool) :
    Except Nat (List OutputStream × List Bool) :=
  let (e1, errs) := take_err errs  -- avformat_alloc_output_context2
  if e1 then .error 3 else
  match open_output_streams cliopt g_width g_height v 0 streams [] errs with
  | .error code => .error code
  | .ok (out, errs) =>
    let (e2, errs) := take_err errs  -- avio_open
    if e2 then .error 3 else
    let (e3, errs) := take_err errs  -- avformat_write_header
    if e3 then .error 3 else
    .ok (out, errs)

/-! ## `CliOptions::parse` -/

/-- What one call of `getopt_long_only` returns: 0 for a flag option (it has
set `rgb` or `video_only`), the letter of an option together with `optarg`,
`'h'`, or `'?'` for an option it does not know or that lacks its argument. The
constructors are named after the long options. -/
inductive GetoptResult
  | rgb
  | vo
  | quality (optarg : String)
  | trc (optarg : String)
  | threads (optarg : String)
  | loglevel (optarg : String)
  | video_size (optarg : String)
  | framerate (optarg : String)
  | pix_fmt (optarg : String)
  | aspect (optarg : String)
  | input (optarg : String)
  | help
  | unknown
  deriving DecidableEq, Repr

/-- The members of `struct CliOptions`, the globals `g_width` and `g_height`,
the log level, and the locals of `parse`. A null pointer is `none`; so is
`r_frame_rate`, which the constructor leaves without a value. -/
structure ParseState where
  input : Option String
  output : Option String
  quality : String
  b_rgb : Bool
  trc : Int
  threads : Int
  video_size : Option String
  framerate : Option String
  r_frame_rate : Option (Int × Int)
  aspect : Int × Int
  pix_fmt_name : Option String
  b_video_only : Bool
  g_width : Int
  g_height : Int
  loglevel : String
  b_show_help : Bool
  raw_param : Int
  rgb : Int
  video_only : Int
  deriving DecidableEq, Repr

/-- The constructor `CliOptions::CliOptions` and the initial values of the
globals and of the locals of `parse`. The constructor does not set `input`
and `output`: `input0` is what the member `input` holds. -/
def ParseState.new (input0 : Option String) : ParseState :=
  { input := input0, output := none, quality := "fs1", b_rgb := false, trc := 0,
    threads := 0, video_size := none, framerate := none, r_frame_rate := none,
    aspect := (0, 0), pix_fmt_name := none, b_video_only := false, g_width := 0,
    g_height := 0, loglevel := "info", b_show_help := false, raw_param := 0, rgb := 0,
    video_only := 0 }

/-- The options that reach the pipeline. -/
def ParseState.cliopt (st : ParseState) : CliOptions :=
  { quality := st.quality, b_rgb := st.b_rgb, trc := st.trc, threads := st.threads,
    b_video_only := st.b_video_only }

/-- How `parse` ends when it does not return. -/
inductive ParseError
  /-- The function `show_usage` was called, then `throw 1`. -/
  | usage
  /-- Input and output are the same file: `throw 1` without the usage. -/
  | same_file
  /-- The function `stoi` threw `std::out_of_range`; `main` catches `int` only. -/
  | out_of_range
  deriving DecidableEq, Repr

/-- The groups of `std::regex_match(s, "([0-9]+)<sep>([0-9]+)")` for a separator
that is not a digit, `none` when the string does not match. -/
def regex_match_pair (sep : Char) (s : String) : Option (List Char × List Char) :=
  let a := s.toList.takeWhile Char.isDigit
  match s.toList.dropWhile Char.isDigit with
  | [] => none
  | c :: b =>
    if c = sep ∧ a ≠ [] ∧ b ≠ [] ∧ b.all Char.isDigit then some (a, b) else none

/-- The function `std::stoi` on a string of digits; `none` when the value does
not fit an `int` (`std::out_of_range` is thrown). -/
def stoi (digits : List Char) : Option Int :=
  let v : Nat := digits.foldl (fun acc c => acc * 10 + (c.toNat - 48)) 0
  if (v : Int) ≤ INT_MAX then some v else none

/-- The pair of numbers of an option of the form `<N><sep><D>`, as the cases
`'s'`, `'r'` and `'a'` read it: `.ok none` when the argument does not match
the pattern, otherwise the two values and whether one of them is below 1. -/
def parse_pair (sep : Char) (optarg : String) :
    Except ParseError (Option (Int × Int × Bool)) :=
  match regex_match_pair sep optarg with
  | none => .ok none
  | some (a, b) =>
    match stoi a, stoi b with
    | some n, some d => .ok (some (n, d, decide (n < 1 ∨ d < 1)))
    | _, _ => .error .out_of_range

/-- The `switch` of `parse` for one result of `getopt_long_only` (lines
161-281). `atoi` and `av_get_pix_fmt` are the library functions. -/
def parse_option (atoi : String → Int) (av_get_pix_fmt : String → AVPixelFormat)
    (st : ParseState) : GetoptResult → Except ParseError ParseState
  | .rgb => .ok { st with rgb := 1 }
  | .vo => .ok { st with video_only := 1 }
  | .quality optarg =>
    let st := { st with quality := optarg }
    if optarg ≠ "low" ∧ optarg ≠ "medium" ∧ optarg ≠ "high" ∧ optarg ≠ "fs1" ∧
        optarg ≠ "fs2" ∧ optarg ≠ "fs3" then
      .ok { st with b_show_help := true }
    else .ok st
  | .trc optarg =>
    let st := { st with trc := atoi optarg }
    if st.trc ≠ 601 ∧ st.trc ≠ 709 then .ok { st with b_show_help := true } else .ok st
  | .threads optarg =>
    let st := { st with threads := atoi optarg }
    if st.threads < 0 then .ok { st with b_show_help := true } else .ok st
  | .loglevel optarg =>
    if optarg = "quiet" ∨ optarg = "info" ∨ optarg = "debug" then
      .ok { st with loglevel := optarg }
    else .ok { st with b_show_help := true }
  | .video_size optarg =>
    let st := { st with video_size := some optarg }
    match parse_pair 'x' optarg with
    | .error e => .error e
    | .ok none => .ok { st with raw_param := st.raw_param + 1 }
    | .ok (some (w, h, bad)) =>
      .ok { st with g_width := w, g_height := h, b_show_help := st.b_show_help || bad,
                    raw_param := st.raw_param + 1 }
  | .framerate optarg =>
    let st := { st with framerate := some optarg }
    match parse_pair '/' optarg with
    | .error e => .error e
    | .ok none => .ok { st with raw_param := st.raw_param + 1 }
    | .ok (some (n, d, bad)) =>
      .ok { st with r_frame_rate := some (n, d), b_show_help := st.b_show_help || bad,
                    raw_param := st.raw_param + 1 }
  | .pix_fmt optarg =>
    let st := { st with pix_fmt_name := some optarg }
    let st := if av_get_pix_fmt optarg = .NONE then { st with b_show_help := true } else st
    .ok { st with raw_param := st.raw_param + 1 }
  | .aspect optarg =>
    match parse_pair ':' optarg with
    | .error e => .error e
    | .ok none => .ok st
    | .ok (some (n, d, bad)) =>
      .ok { st with aspect := (n, d), b_show_help := st.b_show_help || bad }
  | .input optarg => .ok { st with input := some optarg }
  | .help => .ok { st with b_show_help := true }
  | .unknown => .ok { st with b_show_help := true }

/-- The `while` loop of `parse` over the results of `getopt_long_only`, up to
the one that is -1. -/
def parse_options (atoi : String → Int) (av_get_pix_fmt : String → AVPixelFormat) :
    ParseState → List GetoptResult → Except ParseError ParseState
  | st, [] => .ok st
  | st, o :: os =>
    match parse_option atoi av_get_pix_fmt st o with
    | .error e => .error e
    | .ok st => parse_options atoi av_get_pix_fmt st os

/-- Lines 284-304 of `parse`: the flags, the output file and the final checks.
`rest` are the arguments from `argv[optind]` on. -/
def parse_finish (st : ParseState) (rest : List String) : Except ParseError ParseState :=
  let st := if st.rgb ≠ 0 then { st with b_rgb := true } else st
  let st := if st.video_only ≠ 0 then { st with b_video_only := true } else st
  let st :=
    match rest with
    | [output] => { st with output := some output }
    | _ => { st with b_show_help := true }
  let st :=
    if st.raw_param ≠ 0 ∧ st.raw_param ≠ 3 then { st with b_show_help := true } else st
  if st.b_show_help || st.input.isNone then .error .usage
  else if st.input = st.output then .error .same_file
  else .ok st

/-- The function `CliOptions::parse` for a command line on which
`getopt_long_only` finds the options `opts` and leaves the arguments `rest`. -/
def parse (atoi : String → Int) (av_get_pix_fmt : String → AVPixelFormat)
    (input0 : Option String) (opts : List GetoptResult) (rest : List String) :
    Except ParseError ParseState :=
  match parse_options atoi av_get_pix_fmt (ParseState.new input0) opts with
  | .error e => .error e
  | .ok st => parse_finish st rest

/-- An option that `parse` counts in `raw_param`. -/
def GetoptResult.is_raw_param : GetoptResult → Bool
  | .video_size _ => true
  | .framerate _ => true
  | .pix_fmt _ => true
  | _ => false

/-! ## The packet loop of `transcode` -/

/-- The `while` loop of `CFHD_Transcoder::transcode` over the packets
`av_read_frame` returns, without the flush of the decoder that follows it. The
result carries `dec_ctx->frame_number`. -/
def transcode_loop (tc : CFHD_Transcoder) : List Packet → Int → List PoolReply → St → Res × Int
  | [], frame_number, rs, s => (.ret true s rs, frame_number)
  | pkt :: pkts, frame_number, rs, s =>
    if pkt.stream_index = tc.input.index then
      match transcode_packet tc pkt.frames pkt.recv_err frame_number rs s with
      | (.ret true s rs, frame_number) => transcode_loop tc pkts frame_number rs s
      | (r, frame_number) => (r, frame_number)
    else if !tc.b_video_only then
      let (err, s) := s.next_err  -- av_write_frame
      let s := s.emit (.remux pkt.stream_index (!err))
      if err then (.ret false s rs, frame_number) else transcode_loop tc pkts frame_number rs s
    else transcode_loop tc pkts frame_number rs s

/-! ## A run of `process` that fails: the pool refuses the second frame -/

/-- The error codes of a run in which `start` and the push of frame 1 succeed
and `CFHD_EncodeAsyncSample` fails for frame 2. -/
def failing_errs : List Bool :=
  [false, false, false, false, false, false, false, false, false, false, true]

/-- Three video packets; the submission of the second frame fails. -/
def failing_run : Outcome :=
  process 4 8 (fun _ => { depth := 8, rgb := false }) demo_opts demo_tc
    [demo_packet 10, demo_packet 20, demo_packet 30] [] false [] failing_errs

/-- The state in which `failing_run` ends. -/
def failing_final : St := (failing_run.final).getD run0

/-! ## The layout of the buffers handed to `push` -/

/-- The layout of a frame buffer: that of a libavutil pixel format, or the
packing the v210 encoder of libavcodec produces. -/
inductive BufferLayout
  | av (format : AVPixelFormat)
  | v210
  deriving DecidableEq, Repr

/-- Modelled from the spec: the header of the CineForm SDK that defines the
pixel formats is not part of the program. The layout the encoder pool reads
for the pixel format it was prepared with: `CFHD_PIXEL_FORMAT_RG48` is RGB48LE,
`CFHD_PIXEL_FORMAT_YUY2` is YUYV422, `CFHD_PIXEL_FORMAT_V210` is the v210
packing. -/
def CFHD_PixelFormat.layout : CFHD_PixelFormat → BufferLayout
  | .RG48 => .av .RGB48LE
  | .YUY2 => .av .YUYV422
  | .V210 => .v210

/-- The layout of the buffer `encode` hands to `push` (line 1132): the packet of
the raw video stream, which holds a frame in the pixel format of the stream. -/
def encode_layout (tc : CFHD_Transcoder) : BufferLayout := .av tc.input.format

/-- The target format `init_scaler` was called with (the most recent call). -/
def scaler_target : List Event → Option AVPixelFormat
  | [] => none
  | .init_scaler f _ _ :: _ => some f
  | _ :: l => scaler_target l

/-- The pixel format of `out_frame` in `transcode_packet` (lines 1049-1059):
the target of the scaler when there is one, otherwise the format of the decoded
frame, which is the format of the stream (`av_frame_ref(out_frame, in_frame)`). -/
def out_frame_format (tc : CFHD_Transcoder) (log : List Event) : Option AVPixelFormat :=
  if tc.sws_ctx then scaler_target log else some tc.input.format

/-- The layout of the buffer `transcode_packet` hands to `push` (lines
1061-1068): the packet of the v210 encoder when there is one, otherwise
`out_frame->data[0]`. -/
def transcode_layout (tc : CFHD_Transcoder) (log : List Event) : Option BufferLayout :=
  if tc.v210_ctx then some .v210 else (out_frame_format tc log).map .av

/-- The layout of the buffers a run of `process` hands to `push` (lines
1167-1216), for the transcoder as `open_input` left it and the state after
`start`: `encode` pushes the packets, `transcode` what the set-up of the decode
path arranged; `none` when the set-up fails, so that `process` throws before
any frame is pushed. -/
def process_layout (cliopt : CliOptions) (tc : CFHD_Transcoder)
    (input_is_8_bit input_is_rgb : Bool) (s : St) : Option BufferLayout :=
  if tc.dec_codec_id = .NONE then some (encode_layout tc)
  else
    let set_up := process_setup cliopt tc input_is_8_bit input_is_rgb s
    if set_up.1 then transcode_layout set_up.2.2 set_up.2.1.log else none

/-! ## One frame through each path -/

/-- A decoded frame whose own bytes, scaled bytes and v210 packet differ. -/
def layout_frame : Frame :=
  { pts := 10, pkt_duration := 1, data := [5, 6], linesize := 1, scaled := [7, 8],
    scaled_linesize := 1, v210 := [.packet [9, 9]] }

/-- A video packet with bytes of its own that decodes to `layout_frame`. -/
def layout_packet : Packet :=
  { stream_index := 0, data := [1, 2], pts := 10, duration := 1, frames := [layout_frame],
    recv_err := false }

/-- The pixel format of the encoder and the bytes in its slots when a run of
`process` over `layout_packet` ends. -/
def layout_run (others : Nat → AVPixFmtDescriptor) (cliopt : CliOptions)
    (tc : CFHD_Transcoder) : Option (CFHD_PixelFormat × List (List Nat)) :=
  (process 4 8 others cliopt tc [layout_packet] [] false [.ready 1 7 (some (9, 100))]
    []).final.map (fun s => (s.enc.pix_fmt, s.enc.queue.map (fun slot => slot.data)))

/-! ## Runs of `process` in which the pool does not keep to its contract -/

/-- The state in which `process` returned, if it did. -/
def Outcome.returned_state : Outcome → Option St
  | .returned s => some s
  | _ => none

/-- One video packet; the pool completes frame 1 with a sample of size 0. -/
def empty_sample_run : Outcome :=
  process 4 8 (fun _ => { depth := 8, rgb := false }) demo_opts demo_tc [demo_packet 10] []
    false [.ready 1 7 (some (9, 0))] []

/-- Two video packets; the pool hands out the sample of frame 1 twice and never
that of frame 2. -/
def repeated_sample_run : Outcome :=
  process 4 8 (fun _ => { depth := 8, rgb := false }) demo_opts demo_tc
    [demo_packet 10, demo_packet 20] [] false
    [.ready 1 7 (some (9, 100)), .ready 1 8 (some (9, 100))] []

/-- What a run that returned shows of the frames: `queued`, the last event, and
the frames submitted, retrieved and written before it. -/
def Outcome.frames (o : Outcome) :
    Option (Int × Option Event × List Int × List Nat × List Nat) :=
  o.returned_state.map fun s =>
    (s.enc.queued, s.log.head?, submitted_frames s.log.tail, retrieved_frames s.log.tail,
      written_frames s.log.tail)

/-! ## Basic facts about the operations -/

theorem next_err_enc (s : St) : s.next_err.2.enc = s.enc := by
  unfold St.next_err; split <;> rfl

theorem next_err_log (s : St) : s.next_err.2.log = s.log := by
  unfold St.next_err; split <;> rfl

theorem next_err_eta (s : St) :
    s.next_err.2 = { enc := s.enc, errs := s.next_err.2.errs, log := s.log } := by
  unfold St.next_err; split <;> rfl

/-- What `pop` does, case by case. -/
theorem pop_spec {r : PoolReply} {s s' : St} {b : Bool} (h : pop r s = some (b, s')) :
    (r = .not_ready ∧ b = true ∧
      s' = { s with log := .poll s.enc.sample.size :: s.log }) ∨
    (∃ f buf, r = .ready f buf none ∧ b = false ∧
      s' = { enc := { s.enc with sample := { s.enc.sample with frame_num := f, buffer := buf } },
             errs := s.errs, log := .poll s.enc.sample.size :: s.log }) ∨
    (∃ f buf data size i slot, r = .ready f buf (some (data, size)) ∧ b = true ∧
      pop_index f s.enc.queue_size = some i ∧ slot_at s.enc.queue i = some slot ∧
      s' = { enc := { s.enc with
                sample := { buffer := buf, frame_num := f, data := data, size := size,
                            pts := slot.pts, duration := slot.duration }
                queued := s.enc.queued - 1 },
             errs := s.errs,
             log := .retrieve f slot.pts slot.duration :: .poll s.enc.sample.size :: s.log }) := by
  unfold pop at h
  cases r with
  | not_ready =>
    left
    simp only [St.emit, Option.some.injEq, Prod.mk.injEq] at h
    exact ⟨rfl, h.1.symm, h.2.symm⟩
  | ready f buf get =>
    right
    cases get with
    | none =>
      left
      simp only [St.emit, Option.some.injEq, Prod.mk.injEq] at h
      exact ⟨f, buf, rfl, h.1.symm, h.2.symm⟩
    | some ds =>
      right
      obtain ⟨data, size⟩ := ds
      simp only [St.emit] at h
      cases hi : pop_index f s.enc.queue_size with
      | none => simp [hi] at h
      | some i =>
        cases hs : slot_at s.enc.queue i with
        | none => simp [hi, hs] at h
        | some slot =>
          simp only [hi, hs, Option.some.injEq, Prod.mk.injEq] at h
          exact ⟨f, buf, data, size, i, slot, rfl, h.1.symm, hi, hs, h.2.symm⟩

/-- What the storing branch of `push` does, case by case. -/
theorem push_store_spec {g_height : Int} {data : List Nat} {pitch frame_num pts duration : Int}
    {s s' : St} {b : Bool}
    (h : push_store g_height data pitch frame_num pts duration s = some (b, s')) :
    (b = false ∧ s' = s.next_err.2) ∨
    (∃ i queue errs,
      store_frame s.enc.queue s.enc.queue_size g_height data pitch frame_num pts duration
        = some (i, queue) ∧
      ((b = false ∧
        s' = { enc := { s.enc with queue := queue }, errs := errs,
               log := .submit frame_num i false :: .store i frame_num pts duration :: s.log }) ∨
       (b = true ∧
        s' = { enc := { s.enc with queue := queue, queued := s.enc.queued + 1 }, errs := errs,
               log := .submit frame_num i true :: .store i frame_num pts duration :: s.log }))) := by
  unfold push_store at h
  rcases he : s.next_err with ⟨md_err, s1⟩
  have e1 : s1.enc = s.enc := by have := next_err_enc s; rw [he] at this; exact this
  have l1 : s1.log = s.log := by have := next_err_log s; rw [he] at this; exact this
  simp only [he] at h
  cases md_err with
  | true =>
    left
    simp only [↓reduceIte, Option.some.injEq, Prod.mk.injEq] at h
    exact ⟨h.1.symm, h.2.symm⟩
  | false =>
    right
    simp only [Bool.false_eq_true, ↓reduceIte, e1] at h
    cases hs : store_frame s.enc.queue s.enc.queue_size g_height data pitch frame_num pts
        duration with
    | none => simp [hs] at h
    | some iq =>
      obtain ⟨i, queue⟩ := iq
      simp only [hs, St.emit, next_err_enc, next_err_log, e1, l1] at h
      split_ifs at h with hc
      · simp only [Option.some.injEq, Prod.mk.injEq] at h
        exact ⟨i, queue, _, rfl, Or.inl ⟨h.1.symm, h.2.symm⟩⟩
      · simp only [Option.some.injEq, Prod.mk.injEq] at h
        exact ⟨i, queue, _, rfl, Or.inr ⟨h.1.symm, h.2.symm⟩⟩

/-- Induction over the polling loop of `push`. `P` holds while the loop polls,
`Q ok` when `push` returns `ok`, `T` when the replies run out; `R` is what is
known about the replies of the pool. The replies left over are a tail of the
replies given. -/
theorem push_induct (R : PoolReply → Prop) (P : St → Prop) (Q : Bool → St → Prop)
    (T : St → Prop) (g_height : Int) (data : List Nat) (pitch frame_num pts duration : Int)
    (hpop : ∀ r s b s', R r → P s → ¬ s.enc.queued < s.enc.queue_size →
      pop r s = some (b, s') → (b = true → P s') ∧ (b = false → Q false s'))
    (hstore : ∀ s b s', P s → s.enc.queued < s.enc.queue_size →
      push_store g_height data pitch frame_num pts duration s = some (b, s') → Q b s')
    (hstall : ∀ s, P s → T s) :
    ∀ (rs : List PoolReply) (s : St), (∀ x ∈ rs, R x) → P s →
      match push g_height data pitch frame_num pts duration rs s with
      | .ret ok s' rest => Q ok s' ∧ ∀ x ∈ rest, x ∈ rs
      | .stalled s' => T s'
      | .undefined => True := by
  intro rs
  induction rs with
  | nil =>
    intro s _ hP
    unfold push
    split_ifs with hq
    · cases hs : push_store g_height data pitch frame_num pts duration s with
      | none => trivial
      | some bs =>
        obtain ⟨b, s1⟩ := bs
        exact ⟨hstore s b s1 hP hq hs, fun x hx => hx⟩
    · exact hstall s hP
  | cons r rs ih =>
    intro s hR hP
    unfold push
    split_ifs with hq
    · cases hs : push_store g_height data pitch frame_num pts duration s with
      | none => trivial
      | some bs =>
        obtain ⟨b, s1⟩ := bs
        exact ⟨hstore s b s1 hP hq hs, fun x hx => hx⟩
    · cases hp : pop r s with
      | none => trivial
      | some bs =>
        obtain ⟨b, s1⟩ := bs
        have h1 := hpop r s b s1 (hR r (List.mem_cons_self _ _)) hP hq hp
        cases b with
        | false => exact ⟨h1.2 rfl, fun x hx => List.mem_cons_of_mem _ hx⟩
        | true =>
          have h2 := ih s1 (fun x hx => hR x (List.mem_cons_of_mem _ hx)) (h1.1 rfl)
          simp only
          cases hpu : push g_height data pitch frame_num pts duration rs s1 with
          | ret ok s2 rest =>
            rw [hpu] at h2
            exact ⟨h2.1, fun x hx => List.mem_cons_of_mem _ (h2.2 x hx)⟩
          | stalled s2 => rw [hpu] at h2; exact h2
          | undefined => trivial

/-- A property that survives every `pop` and every storing branch survives
`push`, however it ends. -/
theorem push_preserves (P : St → Prop) (g_height : Int) (data : List Nat)
    (pitch frame_num pts duration : Int)
    (hpop : ∀ r s b s', P s → pop r s = some (b, s') → P s')
    (hstore : ∀ s b s', P s → s.enc.queued < s.enc.queue_size →
      push_store g_height data pitch frame_num pts duration s = some (b, s') → P s')
    (rs : List PoolReply) (s : St) (hP : P s) :
    (∀ ok s' rest, push g_height data pitch frame_num pts duration rs s = .ret ok s' rest →
      P s') ∧
    (∀ s', push g_height data pitch frame_num pts duration rs s = .stalled s' → P s') := by
  have h := push_induct (fun _ => True) P (fun _ => P) P g_height data pitch frame_num pts
    duration (fun r s b s' _ hPs _ hp => ⟨fun _ => hpop r s b s' hPs hp,
      fun _ => hpop r s b s' hPs hp⟩) hstore (fun _ h => h) rs s (fun _ _ => trivial) hP
  constructor
  · intro ok s' rest hp
    rw [hp] at h
    exact h.1
  · intro s' hp
    rw [hp] at h
    exact h

/-- What `write_cfhd_sample` does, case by case. -/
theorem write_spec (tc : CFHD_Transcoder) (s : St) :
    (s.enc.sample.size = 0 ∧ write_cfhd_sample tc s = (true, s)) ∨
    (0 < s.enc.sample.size ∧ ∃ errs,
      (write_cfhd_sample tc s = (false,
        { enc := s.enc, errs := errs,
          log := .write (sample_stream_index tc) s.enc.sample.frame_num
            s.enc.sample.pts s.enc.sample.duration false :: s.log })) ∨
      (write_cfhd_sample tc s = (true,
        { enc := { s.enc with sample := { s.enc.sample with data := 0, size := 0 } },
          errs := errs,
          log := .release s.enc.sample.buffer ::
            .write (sample_stream_index tc) s.enc.sample.frame_num
              s.enc.sample.pts s.enc.sample.duration true :: s.log }))) := by
  unfold write_cfhd_sample
  by_cases hsz : s.enc.sample.size > 0
  · right
    refine ⟨hsz, s.next_err.2.errs, ?_⟩
    simp only [hsz, ↓reduceIte, St.emit, next_err_enc, next_err_log]
    cases hc : s.next_err.1 with
    | true => left; simp
    | false => right; simp
  · left
    refine ⟨by omega, ?_⟩
    simp only [hsz, ↓reduceIte]

/-! ## The in-flight bound -/

theorem Inv1_pop (C : Int) (r : PoolReply) (s s' : St) (b : Bool) (hI : Inv1 C s)
    (hp : pop r s = some (b, s')) : Inv1 C s' := by
  obtain ⟨h1, h2, h3, h4⟩ := hI
  rcases pop_spec hp with ⟨_, _, rfl⟩ | ⟨f, buf, _, _, rfl⟩ |
    ⟨f, buf, data, size, i, slot, _, _, _, _, rfl⟩
  · refine ⟨h1, ?_, h3, ?_⟩
    · (simp only [in_flight_count, Event.delta, h2]; omega)
    · simp only [Bounded, in_flight_count, Event.delta, Event.is_store_or_submit]
      exact ⟨h4, by omega, by simp⟩
  · refine ⟨h1, ?_, h3, ?_⟩
    · (simp only [in_flight_count, Event.delta, h2]; omega)
    · simp only [Bounded, in_flight_count, Event.delta, Event.is_store_or_submit]
      exact ⟨h4, by omega, by simp⟩
  · refine ⟨h1, ?_, ?_, ?_⟩
    · (simp only [in_flight_count, Event.delta, h2]; omega)
    · simp only; omega
    · simp only [Bounded, in_flight_count, Event.delta, Event.is_store_or_submit]
      exact ⟨⟨h4, by omega, by simp⟩, by omega, by simp⟩

theorem Inv1_push_store (C : Int) (g_height : Int) (data : List Nat)
    (pitch frame_num pts duration : Int) (s : St) (b : Bool) (s' : St) (hI : Inv1 C s)
    (hq : s.enc.queued < s.enc.queue_size)
    (hp : push_store g_height data pitch frame_num pts duration s = some (b, s')) :
    Inv1 C s' := by
  obtain ⟨h1, h2, h3, h4⟩ := hI
  rcases push_store_spec hp with ⟨_, rfl⟩ | ⟨i, queue, errs, _, ⟨_, rfl⟩ | ⟨_, rfl⟩⟩
  · rw [Inv1, next_err_enc, next_err_log]
    exact ⟨h1, h2, h3, h4⟩
  · refine ⟨h1, ?_, h3, ?_⟩
    · (simp only [in_flight_count, Event.delta, h2]; omega)
    · simp only [Bounded, in_flight_count, Event.delta, Event.is_store_or_submit]
      exact ⟨⟨h4, by omega, by intro; omega⟩, by omega, by intro; omega⟩
  · refine ⟨h1, ?_, ?_, ?_⟩
    · (simp only [in_flight_count, Event.delta, h2]; omega)
    · simp only; omega
    · simp only [Bounded, in_flight_count, Event.delta, Event.is_store_or_submit]
      exact ⟨⟨h4, by omega, by intro; omega⟩, by omega, by intro; omega⟩

theorem Inv1_write (C : Int) (tc : CFHD_Transcoder) (s : St) (hI : Inv1 C s) :
    Inv1 C (write_cfhd_sample tc s).2 := by
  obtain ⟨h1, h2, h3, h4⟩ := hI
  rcases write_spec tc s with ⟨_, h⟩ | ⟨_, errs, h | h⟩ <;> rw [h]
  · exact ⟨h1, h2, h3, h4⟩
  · refine ⟨h1, ?_, h3, ?_⟩
    · (simp only [in_flight_count, Event.delta, h2]; omega)
    · simp only [Bounded, in_flight_count, Event.delta, Event.is_store_or_submit]
      exact ⟨h4, by omega, by simp⟩
  · refine ⟨h1, ?_, h3, ?_⟩
    · (simp only [in_flight_count, Event.delta, h2]; omega)
    · simp only [Bounded, in_flight_count, Event.delta, Event.is_store_or_submit]
      exact ⟨⟨h4, by omega, by simp⟩, by omega, by simp⟩

theorem Inv1_reachable (C : Int) (hC : 1 ≤ C) (s : St) (h : Reachable C s) : Inv1 C s := by
  induction h with
  | init s hC hq hv hl =>
    refine ⟨hC, ?_, ?_, ?_⟩
    · rw [hq, hl]; rfl
    · omega
    · rw [hl]; trivial
  | pop r s s' b _ hp ih => exact Inv1_pop C r s s' b ih hp
  | push g_height data pitch frame_num pts duration rs rest s s' ok _ hp ih =>
    exact (push_preserves (Inv1 C) g_height data pitch frame_num pts duration
      (fun r s b s' hI hp => Inv1_pop C r s s' b hI hp)
      (fun s b s' hI hq hp => Inv1_push_store C g_height data pitch frame_num pts duration
        s b s' hI hq hp) rs s ih).1 ok s' rest hp
  | push_stalled g_height data pitch frame_num pts duration rs s s' _ hp ih =>
    exact (push_preserves (Inv1 C) g_height data pitch frame_num pts duration
      (fun r s b s' hI hp => Inv1_pop C r s s' b hI hp)
      (fun s b s' hI hq hp => Inv1_push_store C g_height data pitch frame_num pts duration
        s b s' hI hq hp) rs s ih).2 s' hp
  | write tc s _ ih => exact Inv1_write C tc s ih

theorem Bounded_suffix (C : Int) (hC : 0 ≤ C) :
    ∀ (log : List Event), Bounded C log →
      (∀ l, l <:+ log → in_flight_count l ≤ C) ∧
      (∀ ev l, ev :: l <:+ log → ev.is_store_or_submit = true → in_flight_count l < C) := by
  intro log
  induction log with
  | nil =>
    intro _
    constructor
    · intro l hl
      rw [List.suffix_nil] at hl
      subst hl
      exact hC
    · intro ev l hl
      rw [List.suffix_nil] at hl
      cases hl
  | cons e log ih =>
    intro hB
    obtain ⟨hB1, hB2, hB3⟩ := hB
    obtain ⟨ih1, ih2⟩ := ih hB1
    constructor
    · intro l hl
      rcases List.suffix_cons_iff.mp hl with rfl | hl
      · exact hB2
      · exact ih1 l hl
    · intro ev l hl hev
      rcases List.suffix_cons_iff.mp hl with heq | hl
      · injection heq with h1 h2
        subst h1 h2
        exact hB3 hev
      · exact ih2 ev l hl hev

theorem run3_reachable : Reachable 3 run3 := by
  have h0 : Reachable 3 run0 := Reachable.init run0 (by decide) rfl rfl rfl
  have h1 : Reachable 3 run1 :=
    Reachable.push 2 [1, 1, 1, 1] 2 1 10 1 [] [] run0 run1 true h0 (by decide)
  have h2 : Reachable 3 run2 :=
    Reachable.push 2 [2, 2, 2, 2] 2 2 20 1 [] [] run1 run2 true h1 (by decide)
  exact Reachable.push 2 [3, 3, 3, 3] 2 3 30 1 [] [] run2 run3 true h2 (by decide)

theorem run4_in_order_reachable : Reachable 3 run4_in_order :=
  Reachable.push 2 [4, 4, 4, 4] 2 4 40 1 [.not_ready, .ready 1 7 (some (9, 100))] []
    run3 run4_in_order true run3_reachable (by decide)

/-- C1 (in-flight bound). For every capacity `C ≥ 1`, in every state the
encoder reaches by any sequence of `push`, `pop` and `write_cfhd_sample` calls,
whatever the pool answers: `queue_size` is still `C`, `queued` is at most `C`
and equals the number of frames in flight according to the log; at every
moment of the run (every tail of the log) at most `C` frames are in flight;
and every store into a slot and every submission to the pool happens at a
moment when fewer than `C` frames are in flight, so a `push` that finds
`queued == C` stores and submits only after a `pop` has retrieved a sample. -/
theorem in_flight_bound (C : Int) (hC : 1 ≤ C) (s : St) (h : Reachable C s) :
    s.enc.queue_size = C ∧ s.enc.queued ≤ C ∧ s.enc.queued = in_flight_count s.log ∧
    (∀ l, l <:+ s.log → in_flight_count l ≤ C) ∧
    (∀ ev l, ev :: l <:+ s.log → ev.is_store_or_submit = true → in_flight_count l < C) := by
  obtain ⟨h1, h2, h3, h4⟩ := Inv1_reachable C hC s h
  obtain ⟨h5, h6⟩ := Bounded_suffix C (by omega) s.log h4
  exact ⟨h1, h3, h2, h5, h6⟩

/-- The scenario of the specification: capacity 3, frames 1, 2, 3 submitted,
frame 4 goes into slot `(4-1) mod 3 = 0` after the retrieval of frame 1. -/
theorem in_flight_bound_witness :
    run3.enc.queued = 3 ∧
    run4_in_order.log =
      [.submit 4 0 true, .store 0 4 40 1, .retrieve 1 10 1, .poll 0, .poll 0,
       .submit 3 2 true, .store 2 3 30 1, .submit 2 1 true, .store 1 2 20 1,
       .submit 1 0 true, .store 0 1 10 1] ∧
    (run4_in_order.enc.queue_size = 3 ∧ run4_in_order.enc.queued ≤ 3 ∧
      run4_in_order.enc.queued = in_flight_count run4_in_order.log ∧
      (∀ l, l <:+ run4_in_order.log → in_flight_count l ≤ 3) ∧
      (∀ ev l, ev :: l <:+ run4_in_order.log → ev.is_store_or_submit = true →
        in_flight_count l < 3)) :=
  ⟨by decide, by decide, in_flight_bound 3 (by decide) run4_in_order run4_in_order_reachable⟩

/-! ## Slot exclusivity and timestamp fidelity under in-order completion -/

theorem consecutive_concat (a : Int) (k : Nat) :
    consecutive a k ++ [a + k] = consecutive a (k + 1) := by
  induction k generalizing a with
  | zero => simp [consecutive]
  | succ k ih =>
    have := ih (a + 1)
    simp only [consecutive, List.cons_append, List.cons.injEq, true_and] at this ⊢
    rw [← this]
    congr 2
    push_cast
    ring

theorem mem_consecutive (a : Int) (k : Nat) (f : Int) :
    f ∈ consecutive a k ↔ a ≤ f ∧ f < a + k := by
  induction k generalizing a with
  | zero => simp [consecutive]
  | succ k ih =>
    simp only [consecutive, List.mem_cons, ih]
    push_cast
    omega

theorem mod_ne_of_close (C x y : Int) (hx : x < y) (hd : y - x < C) : x % C ≠ y % C := by
  intro h
  have h1 : (y - x) % C = 0 := Int.emod_eq_emod_iff_emod_sub_eq_zero.mp h.symm
  rw [Int.emod_eq_of_lt (by omega) hd] at h1
  omega

theorem push_index_eq (f C : Int) (hf : 1 ≤ f) (hC : 1 ≤ C) :
    push_index f C = some ((f - 1) % C) := by
  unfold push_index
  rw [if_neg (by omega), Int.tmod_eq_emod (by omega) (by omega)]

theorem pop_index_eq (f : Nat) (C : Int) (hf : 1 ≤ f) (hf2 : f ≤ 2147483647) (hC : 1 ≤ C)
    (hC2 : C ≤ 2147483647) : pop_index f C = some (((f : Int) - 1) % C) := by
  unfold pop_index
  have hm : to_uint32 C = C.toNat := by unfold to_uint32; omega
  have hn : to_uint32 ((f : Int) - 1) = f - 1 := by unfold to_uint32; omega
  rw [hm, hn]
  dsimp only
  rw [if_neg (by omega)]
  have hlt : (f - 1) % C.toNat < C.toNat := Nat.mod_lt _ (by omega)
  have hcast : (((f - 1) % C.toNat : Nat) : Int) = ((f : Int) - 1) % C := by
    rw [Int.natCast_mod]
    congr 1 <;> omega
  unfold to_int32
  have h2 : (f - 1) % C.toNat % 4294967296 = (f - 1) % C.toNat := Nat.mod_eq_of_lt (by omega)
  rw [h2, if_pos (by omega), hcast]



/-- What `store_frame` does for a frame number `f ≥ 1` and capacity `C ≥ 1`:
it uses slot `(f - 1) mod C`, leaves `pts` and `duration` there, and touches
no other slot. -/
theorem store_frame_spec {q q' : List CFHD_AVData} {C g : Int} {data : List Nat}
    {pitch f pts dur : Int} {i : Nat}
    (h : store_frame q C g data pitch f pts dur = some (i, q')) (hf : 1 ≤ f) (hC : 1 ≤ C) :
    (i : Int) = (f - 1) % C ∧
    (∃ dat, slot_at q' ((f - 1) % C) = some { data := dat, pts := pts, duration := dur }) ∧
    (∀ j : Int, j ≠ (f - 1) % C → slot_at q' j = slot_at q j) := by
  have hnn : 0 ≤ (f - 1) % C := Int.emod_nonneg _ (by omega)
  unfold store_frame at h
  rw [push_index_eq f C hf hC] at h
  simp only at h
  split_ifs at h with hc
  · simp only [Option.some.injEq, Prod.mk.injEq] at h
    obtain ⟨h1, h2⟩ := h
    subst h2
    refine ⟨by omega, ⟨memcpy [] data pitch g, ?_⟩, ?_⟩
    · unfold slot_at
      rw [if_pos hnn, hc.2]
      exact List.getElem?_concat_length _ _
    · intro j hj
      unfold slot_at
      split_ifs with hj0
      · rw [List.getElem?_append]
        split_ifs with hlt
        · rfl
        · have h3 : q.length < j.toNat := by omega
          have h4 : q[j.toNat]? = none := List.getElem?_eq_none (by omega)
          rw [h4]
          exact List.getElem?_eq_none (by simp; omega)
      · rfl
  · cases hs : slot_at q ((f - 1) % C) with
    | none => simp [hs] at h
    | some slot =>
      simp only [hs, Option.some.injEq, Prod.mk.injEq] at h
      obtain ⟨h1, h2⟩ := h
      subst h2
      have hlt : ((f - 1) % C).toNat < q.length := by
        unfold slot_at at hs
        rw [if_pos hnn] at hs
        by_contra hcon
        rw [List.getElem?_eq_none (by omega)] at hs
        cases hs
      refine ⟨by omega, ⟨memcpy slot.data data pitch g, ?_⟩, ?_⟩
      · unfold slot_at
        rw [if_pos hnn]
        exact List.getElem?_set_self hlt
      · intro j hj
        unfold slot_at
        split_ifs with hj0
        · exact List.getElem?_set_ne (by omega)
        · rfl

/-- A frame that was submitted is in flight or has been retrieved. -/
theorem submitted_in_flight_or_retrieved (f : Int) (i : Nat) :
    ∀ l : List Event, Event.submit f i true ∈ l →
      f ∈ in_flight l ∨ ∃ p d, Event.retrieve f.toNat p d ∈ l := by
  intro l
  induction l with
  | nil => intro h; cases h
  | cons ev l ih =>
    intro h
    rcases List.mem_cons.mp h with heq | hmem
    · left
      subst heq
      simp [in_flight, Event.apply]
    · rcases ih hmem with hin | ⟨p, d, hr⟩
      · cases ev with
        | retrieve g p d =>
          by_cases hg : f = (g : Int)
          · right
            refine ⟨p, d, ?_⟩
            subst hg
            simp
          · left
            simp only [in_flight, Event.apply]
            exact (List.mem_erase_of_ne hg).mpr hin
        | submit g j ok =>
          left
          cases ok <;> simp [in_flight, Event.apply, hin]
        | _ => left; simpa [in_flight, Event.apply] using hin
      · right
        exact ⟨p, d, List.mem_cons_of_mem _ hr⟩

theorem Exclusive_suffix (C : Int) :
    ∀ (log : List Event), Exclusive C log → SlotExclusive C log := by
  intro log
  induction log with
  | nil =>
    intro _ ev l f1 f2 i1 hl
    rw [List.suffix_nil] at hl
    cases hl
  | cons e log ih =>
    intro hE ev l f1 f2 i1 hl hput hsub hne hmod
    obtain ⟨hE1, hE2⟩ := hE
    rcases List.suffix_cons_iff.mp hl with heq | hl
    · injection heq with h1 h2
      subst h1 h2
      rcases submitted_in_flight_or_retrieved f1 i1 l hsub with hin | hr
      · exact absurd hmod (hE2 f2 hput f1 hin hne)
      · exact hr
    · exact ih hE1 ev l f1 f2 i1 hl hput hsub hne hmod

theorem Faithful_suffix :
    ∀ (log : List Event), Faithful log → TimestampFidelity log := by
  intro log
  induction log with
  | nil =>
    intro _ l f p d hl
    rw [List.suffix_nil] at hl
    cases hl
  | cons e log ih =>
    intro hF l f p d hl
    obtain ⟨hF1, hF2⟩ := hF
    rcases List.suffix_cons_iff.mp hl with heq | hl
    · injection heq with h1 h2
      subst h2
      exact hF2 f p d h1.symm
    · exact ih hF1 l f p d hl

theorem apply_neutral (ev : Event) (h1 : ev.delta = 0) (h2 : ev.puts = none) (fl : List Int) :
    ev.apply fl = fl := by
  cases ev <;> simp_all [Event.delta, Event.puts, Event.apply]

theorem stored_neutral (ev : Event) (h2 : ev.puts = none) (f : Int) : ev.stored f = none := by
  cases ev <;> simp_all [Event.puts, Event.stored]

theorem not_retrieve_neutral (ev : Event) (h1 : ev.delta = 0) (f : Nat) (p d : Int) :
    ev ≠ .retrieve f p d := by
  intro h
  subst h
  simp [Event.delta] at h1

/-- An event that neither changes the frames in flight nor stores anything
keeps the invariant, as long as the queue is left alone. -/
theorem Inv2_neutral (C : Int) (s s' : St) (ev : Event) (hI : Inv2 C s)
    (h1 : ev.delta = 0) (h2 : ev.puts = none) (hl : s'.log = ev :: s.log)
    (hq : s'.enc.queued = s.enc.queued) (hs : s'.enc.queue_size = s.enc.queue_size)
    (hv : s'.enc.queue = s.enc.queue) : Inv2 C s' := by
  obtain ⟨m, k, i1, i2, i3, i4, i5, i6, i7, i8, i9⟩ := hI
  have hfl : in_flight s'.log = in_flight s.log := by
    rw [hl]; simp only [in_flight]; exact apply_neutral ev h1 h2 _
  refine ⟨m, k, ?_, i2, i3, ?_, ?_, ?_, ?_, ?_, ?_⟩
  · rw [hl]; simp only [submitted_count, h1]; simpa using i1
  · rw [hq]; exact i4
  · rw [hs]; exact i5
  · rw [hfl]; exact i6
  · intro f hf
    rw [hfl] at hf
    obtain ⟨slot, hs1, hs2⟩ := i7 f hf
    refine ⟨slot, by rw [hv]; exact hs1, ?_⟩
    rw [hl]
    simp only [last_store, stored_neutral ev h2 f]
    exact hs2
  · rw [hl]
    exact ⟨i8, fun f2 hp => by rw [h2] at hp; cases hp⟩
  · rw [hl]
    exact ⟨i9, fun f p d he => absurd he (not_retrieve_neutral ev h1 f p d)⟩

theorem fifo_tail (ev : Event) (l : List Event) (h : pool_fifo (ev :: l) = true) :
    pool_fifo l = true ∧ ev.fifo_ok (in_flight l) = true := by
  simpa [pool_fifo] using h

theorem numbered_tail (ev : Event) (l : List Event) (h : numbered (ev :: l) = true) :
    numbered l = true ∧ ev.numbered_ok (submitted_count l) = true := by
  simpa [numbered] using h

theorem P2_pop (C : Int) (hC : 1 ≤ C) (hC2 : C ≤ 2147483647) (r : PoolReply) (s s' : St)
    (b : Bool) (hP : P2 C s) (hp : pop r s = some (b, s')) : P2 C s' := by
  intro hF hN
  rcases pop_spec hp with ⟨_, _, rfl⟩ | ⟨f, buf, _, _, rfl⟩ |
    ⟨f, buf, data, size, i, slot, _, _, hi, hsl, rfl⟩
  · have hI := hP (fifo_tail _ _ hF).1 (numbered_tail _ _ hN).1
    exact Inv2_neutral C s _ (.poll s.enc.sample.size) hI rfl rfl rfl rfl rfl rfl
  · have hI := hP (fifo_tail _ _ hF).1 (numbered_tail _ _ hN).1
    exact Inv2_neutral C s _ (.poll s.enc.sample.size) hI rfl rfl rfl rfl rfl rfl
  · simp only at hF hN
    obtain ⟨hF1, hF2⟩ := fifo_tail _ _ hF
    obtain ⟨hN1, -⟩ := numbered_tail _ _ hN
    have hI := hP (fifo_tail _ _ hF1).1 (numbered_tail _ _ hN1).1
    obtain ⟨m, k, i1, i2, i3, i4, i5, i6, i7, i8, i9⟩ := hI
    have hfl : in_flight (Event.poll s.enc.sample.size :: s.log) = in_flight s.log := by
      simp [in_flight, Event.apply]
    simp only [Event.fifo_ok, hfl, decide_eq_true_eq] at hF2
    -- the retrieved frame is the oldest in flight
    cases k with
    | zero => rw [i6] at hF2; simp [consecutive] at hF2
    | succ k =>
      rw [i6] at hF2
      simp only [consecutive, List.head?_cons, Option.some.injEq] at hF2
      have hfin : (f : Int) ∈ in_flight s.log := by
        rw [i6, ← hF2]; simp [consecutive]
      obtain ⟨slot1, hs1, hs2⟩ := i7 _ hfin
      have hidx : pop_index f s.enc.queue_size = some (((f : Int) - 1) % C) := by
        rw [i5]; exact pop_index_eq f C (by omega) (by omega) hC hC2
      rw [hidx] at hi
      injection hi with hi
      subst hi
      rw [hs1] at hsl
      injection hsl with hsl
      subst hsl
      have hfl2 : in_flight (Event.retrieve f slot1.pts slot1.duration ::
          Event.poll s.enc.sample.size :: s.log) = consecutive ((m : Int) - k + 1) k := by
        simp only [in_flight, Event.apply]
        rw [i6]
        simp only [consecutive]
        rw [hF2, List.erase_cons_head]
        congr 1
        omega
      refine ⟨m, k, ?_, by omega, i3, ?_, i5, hfl2, ?_, ?_, ?_⟩
      · simp only [submitted_count, Event.delta]; simpa using i1
      · simp only [i4]; push_cast; omega
      · intro g hg
        have hg' : g ∈ in_flight s.log := by
          rw [hfl2] at hg
          rw [i6]
          rw [mem_consecutive] at hg ⊢
          push_cast at hg ⊢
          omega
        obtain ⟨slot2, ht1, ht2⟩ := i7 g hg'
        refine ⟨slot2, ht1, ?_⟩
        simp only [last_store, Event.stored]
        exact ht2
      · exact ⟨⟨i8, fun f2 hput => by simp [Event.puts] at hput⟩,
          fun f2 hput => by simp [Event.puts] at hput⟩
      · refine ⟨⟨i9, fun f' p d he => by cases he⟩, fun f' p d he => ?_⟩
        injection he with h1 h2 h3
        subst h1 h2 h3
        simp only [last_store, Event.stored]
        exact hs2

theorem P2_push_store (C : Int) (hC : 1 ≤ C) (g_height : Int) (data : List Nat)
    (pitch frame_num pts duration : Int) (s : St) (b : Bool) (s' : St) (hP : P2 C s)
    (hq : s.enc.queued < s.enc.queue_size)
    (hp : push_store g_height data pitch frame_num pts duration s = some (b, s')) :
    P2 C s' := by
  intro hF hN
  rcases push_store_spec hp with ⟨_, rfl⟩ | ⟨i, queue, errs, hst, hcase⟩
  · rw [next_err_log] at hF hN
    obtain ⟨m, k, i1, i2, i3, i4, i5, i6, i7, i8, i9⟩ := hP hF hN
    refine ⟨m, k, ?_, i2, i3, ?_, ?_, ?_, ?_, ?_, ?_⟩ <;>
      simp only [next_err_log, next_err_enc] <;> assumption
  · -- the facts shared by the two outcomes of the submission
    have hlog : ∃ ok, s'.log = .submit frame_num i ok ::
        .store i frame_num pts duration :: s.log := by
      rcases hcase with ⟨_, rfl⟩ | ⟨_, rfl⟩
      · exact ⟨false, rfl⟩
      · exact ⟨true, rfl⟩
    obtain ⟨ok, hlog⟩ := hlog
    rw [hlog] at hF hN
    obtain ⟨hF1, -⟩ := fifo_tail _ _ hF
    obtain ⟨hF2, -⟩ := fifo_tail _ _ hF1
    obtain ⟨hN1, -⟩ := numbered_tail _ _ hN
    obtain ⟨hN2, hN3⟩ := numbered_tail _ _ hN1
    obtain ⟨m, k, i1, i2, i3, i4, i5, i6, i7, i8, i9⟩ := hP hF2 hN2
    simp only [Event.numbered_ok, i1, decide_eq_true_eq] at hN3
    obtain ⟨hfn, hfmax⟩ := hN3
    have hk : (k : Int) < C := by rw [← i4, ← i5]; exact hq
    obtain ⟨hi, ⟨dat, hnew⟩, hold⟩ :=
      store_frame_spec (by rw [i5] at hst; exact hst) (by omega) hC
    -- a frame in flight sits in another slot than the new frame
    have hslot : ∀ g ∈ in_flight s.log, (g - 1) % C ≠ (frame_num - 1) % C := by
      intro g hg
      rw [i6, mem_consecutive] at hg
      exact mod_ne_of_close C (g - 1) (frame_num - 1) (by omega) (by omega)
    have hne : ∀ g ∈ in_flight s.log, g ≠ frame_num := by
      intro g hg
      rw [i6, mem_consecutive] at hg
      omega
    have hE : Exclusive C (.store i frame_num pts duration :: s.log) :=
      ⟨i8, fun f2 hput f1 hf1 _ => by
        simp only [Event.puts, Option.some.injEq] at hput
        subst hput
        exact hslot f1 hf1⟩
    have hFa : Faithful (.store i frame_num pts duration :: s.log) :=
      ⟨i9, fun f' p d he => by cases he⟩
    have hkeep : ∀ g ∈ in_flight s.log, ∃ slot, slot_at queue ((g - 1) % C) = some slot ∧
        last_store (.store i frame_num pts duration :: s.log) g
          = some (slot.pts, slot.duration) := by
      intro g hg
      obtain ⟨slot, hs1, hs2⟩ := i7 g hg
      refine ⟨slot, by rw [hold _ (hslot g hg)]; exact hs1, ?_⟩
      simp only [last_store, Event.stored, if_neg (hne g hg).symm]
      exact hs2
    rcases hcase with ⟨_, rfl⟩ | ⟨_, rfl⟩
    · refine ⟨m, k, ?_, i2, i3, i4, i5, ?_, ?_, ?_, ?_⟩
      · simp only [submitted_count, Event.delta]; simpa using i1
      · simp only [in_flight, Event.apply]; exact i6
      · intro g hg
        simp only [in_flight, Event.apply] at hg
        obtain ⟨slot, hs1, hs2⟩ := hkeep g hg
        refine ⟨slot, hs1, ?_⟩
        simp only [last_store, Event.stored] at hs2 ⊢
        exact hs2
      · refine ⟨hE, fun f2 hput f1 hf1 _ => ?_⟩
        simp only [Event.puts, Option.some.injEq] at hput
        subst hput
        simp only [in_flight, Event.apply] at hf1
        exact hslot f1 hf1
      · exact ⟨hFa, fun f' p d he => by cases he⟩
    · have hfl : in_flight (Event.submit frame_num i true ::
          Event.store i frame_num pts duration :: s.log)
          = consecutive ((m : Int) - k + 1) (k + 1) := by
        simp only [in_flight, Event.apply]
        rw [i6, ← consecutive_concat]
        congr 2
        omega
      refine ⟨m + 1, k + 1, ?_, by omega, by omega, ?_, i5, ?_, ?_, ?_, ?_⟩
      · simp only [submitted_count, Event.delta]; simpa using i1
      · simp only [i4]; push_cast; omega
      · rw [hfl]; congr 1; push_cast; omega
      · intro g hg
        simp only [in_flight, Event.apply, List.mem_append, List.mem_singleton] at hg
        rcases hg with hg | hg
        · obtain ⟨slot, hs1, hs2⟩ := hkeep g hg
          refine ⟨slot, hs1, ?_⟩
          simp only [last_store, Event.stored] at hs2 ⊢
          exact hs2
        · subst hg
          refine ⟨_, hnew, ?_⟩
          simp [last_store, Event.stored]
      · refine ⟨hE, fun f2 hput f1 hf1 _ => ?_⟩
        simp only [Event.puts, Option.some.injEq] at hput
        subst hput
        simp only [in_flight, Event.apply] at hf1
        exact hslot f1 hf1
      · exact ⟨hFa, fun f' p d he => by cases he⟩

theorem P2_write (C : Int) (tc : CFHD_Transcoder) (s : St) (hP : P2 C s) :
    P2 C (write_cfhd_sample tc s).2 := by
  rcases write_spec tc s with ⟨_, h⟩ | ⟨_, errs, h | h⟩ <;> rw [h] <;> simp only
  · exact hP
  · intro hF hN
    have hI := hP (fifo_tail _ _ hF).1 (numbered_tail _ _ hN).1
    exact Inv2_neutral C s ⟨s.enc, errs, _ :: s.log⟩
      (Event.write (sample_stream_index tc) s.enc.sample.frame_num
        s.enc.sample.pts s.enc.sample.duration false) hI rfl rfl rfl rfl rfl rfl
  · intro hF hN
    have hF1 := (fifo_tail _ _ hF).1
    have hN1 := (numbered_tail _ _ hN).1
    have hI := hP (fifo_tail _ _ hF1).1 (numbered_tail _ _ hN1).1
    have hI1 := Inv2_neutral C s ⟨s.enc, errs, _ :: s.log⟩
      (Event.write (sample_stream_index tc) s.enc.sample.frame_num
        s.enc.sample.pts s.enc.sample.duration true) hI rfl rfl rfl rfl rfl rfl
    exact Inv2_neutral C _ ⟨_, errs, _ :: _⟩ (Event.release s.enc.sample.buffer) hI1
      rfl rfl rfl rfl rfl rfl

theorem P2_reachable (C : Int) (hC : 1 ≤ C) (hC2 : C ≤ 2147483647) (s : St)
    (h : Reachable C s) : P2 C s := by
  induction h with
  | init s hC hq hv hl =>
    intro _ _
    refine ⟨0, 0, ?_, le_refl _, by decide, ?_, hC, ?_, ?_, ?_, ?_⟩
    · rw [hl]; rfl
    · rw [hq]; rfl
    · rw [hl]; rfl
    · rw [hl]; intro f hf; cases hf
    · rw [hl]; trivial
    · rw [hl]; trivial
  | pop r s s' b _ hp ih => exact P2_pop C hC hC2 r s s' b ih hp
  | push g_height data pitch frame_num pts duration rs rest s s' ok _ hp ih =>
    exact (push_preserves (P2 C) g_height data pitch frame_num pts duration
      (fun r s b s' hI hp => P2_pop C hC hC2 r s s' b hI hp)
      (fun s b s' hI hq hp => P2_push_store C hC g_height data pitch frame_num pts duration
        s b s' hI hq hp) rs s ih).1 ok s' rest hp
  | push_stalled g_height data pitch frame_num pts duration rs s s' _ hp ih =>
    exact (push_preserves (P2 C) g_height data pitch frame_num pts duration
      (fun r s b s' hI hp => P2_pop C hC hC2 r s s' b hI hp)
      (fun s b s' hI hq hp => P2_push_store C hC g_height data pitch frame_num pts duration
        s b s' hI hq hp) rs s ih).2 s' hp
  | write tc s _ ih => exact P2_write C tc s ih

theorem run4_reordered_log :
    run4_reordered.log =
      [.submit 4 0 true, .store 0 4 40 1, .retrieve 2 20 1, .poll 0,
       .submit 3 2 true, .store 2 3 30 1, .submit 2 1 true, .store 1 2 20 1,
       .submit 1 0 true, .store 0 1 10 1] := by decide

theorem run5_reordered_log :
    run5_reordered.log =
      [.retrieve 1 40 1, .poll 0, .release 7, .write 0 2 20 1 true,
       .submit 4 0 true, .store 0 4 40 1, .retrieve 2 20 1, .poll 0,
       .submit 3 2 true, .store 2 3 30 1, .submit 2 1 true, .store 1 2 20 1,
       .submit 1 0 true, .store 0 1 10 1] := by decide

/-- C2 as stated fails when the pool completes frames out of order. Capacity 3,
frames 1, 2, 3 in flight; the pool completes frame 2 first (it only hands out a
frame that is in flight), and `push` of frame 4 stores into slot 0 and submits
while frame 1, the occupant of slot 0, has not been retrieved. -/
theorem slot_exclusive_counterexample :
    run4_reordered.enc.queue_size = 3 ∧ pool_any_order run4_reordered.log = true ∧
    numbered run4_reordered.log = true ∧ ¬ SlotExclusive 3 run4_reordered.log := by
  refine ⟨by decide, by decide, by decide, ?_⟩
  intro h
  rw [run4_reordered_log] at h
  obtain ⟨p, d, hm⟩ := h (.store 0 4 40 1) _ 1 4 0 ⟨[.submit 4 0 true], rfl⟩ rfl
    (by simp) (by decide) (by decide)
  simp at hm

/-- C2, amended. For every capacity `1 ≤ C ≤ INT_MAX` and every state the
encoder reaches by `push`, `pop` and `write_cfhd_sample` calls in which the
frames were pushed with the numbers 1, 2, 3, ... and the pool handed out the
completed samples in submission order: whenever `push` stored or submitted a
frame `f2`, every other frame `f1` of the same slot that had been submitted
before had already been retrieved by `pop`. -/
theorem slot_exclusive_in_order (C : Int) (hC : 1 ≤ C) (hC2 : C ≤ 2147483647) (s : St)
    (h : Reachable C s) (hF : pool_fifo s.log = true) (hN : numbered s.log = true) :
    SlotExclusive C s.log := by
  obtain ⟨m, k, -, -, -, -, -, -, -, hE, -⟩ := P2_reachable C hC hC2 s h hF hN
  exact Exclusive_suffix C s.log hE

/-- The scenario of the specification with in-order completion: frame 4 takes
slot 0 after frame 1 has been retrieved. -/
theorem slot_exclusive_in_order_witness :
    pool_fifo run4_in_order.log = true ∧ numbered run4_in_order.log = true ∧
    SlotExclusive 3 run4_in_order.log :=
  ⟨by decide, by decide,
    slot_exclusive_in_order 3 (by decide) (by decide) run4_in_order run4_in_order_reachable
      (by decide) (by decide)⟩

/-- C3 as stated fails when the pool completes frames out of order. In the run
above frame 4 (pushed with `pts` 40) has overwritten slot 0 while frame 1
(pushed with `pts` 10) was in flight; when `pop` then retrieves frame 1 it
attaches `pts` 40 to the sample. -/
theorem timestamp_fidelity_counterexample :
    pool_any_order run5_reordered.log = true ∧ numbered run5_reordered.log = true ∧
    run5_reordered.enc.sample.frame_num = 1 ∧ run5_reordered.enc.sample.pts = 40 ∧
    last_store run5_reordered.log 1 = some (10, 1) ∧
    ¬ TimestampFidelity run5_reordered.log := by
  refine ⟨by decide, by decide, by decide, by decide, by decide, ?_⟩
  intro h
  rw [run5_reordered_log] at h
  have := h _ 1 40 1 ⟨[], rfl⟩
  revert this
  decide

/-- C3, amended. For every capacity `1 ≤ C ≤ INT_MAX` and every state the
encoder reaches by `push`, `pop` and `write_cfhd_sample` calls in which the
frames were pushed with the numbers 1, 2, 3, ... and the pool handed out the
completed samples in submission order: the `pts` and `duration` that `pop`
attached to the sample of frame `f` are those given to `push` for frame `f`;
and `write_cfhd_sample` puts the sample's `pts` and `duration` on the packet
unchanged. -/
theorem timestamp_fidelity_in_order (C : Int) (hC : 1 ≤ C) (hC2 : C ≤ 2147483647) (s : St)
    (h : Reachable C s) (hF : pool_fifo s.log = true) (hN : numbered s.log = true) :
    TimestampFidelity s.log ∧
    ∀ tc : CFHD_Transcoder, 0 < s.enc.sample.size →
      ∃ ok, (Event.write (sample_stream_index tc)
        s.enc.sample.frame_num s.enc.sample.pts s.enc.sample.duration ok)
          ∈ (write_cfhd_sample tc s).2.log := by
  obtain ⟨m, k, -, -, -, -, -, -, -, -, hFa⟩ := P2_reachable C hC hC2 s h hF hN
  refine ⟨Faithful_suffix s.log hFa, fun tc hsz => ?_⟩
  rcases write_spec tc s with ⟨h0, _⟩ | ⟨_, errs, hw | hw⟩
  · omega
  · exact ⟨false, by rw [hw]; simp⟩
  · exact ⟨true, by rw [hw]; simp⟩

/-- In the in-order scenario the sample of frame 1 carries the `pts` 10 and the
duration 1 that were pushed with frame 1. -/
theorem timestamp_fidelity_in_order_witness :
    run4_in_order.enc.sample.frame_num = 1 ∧ run4_in_order.enc.sample.pts = 10 ∧
    run4_in_order.enc.sample.duration = 1 ∧
    (TimestampFidelity run4_in_order.log ∧
      ∀ tc : CFHD_Transcoder, 0 < run4_in_order.enc.sample.size →
        ∃ ok, (Event.write (sample_stream_index tc)
          run4_in_order.enc.sample.frame_num run4_in_order.enc.sample.pts
          run4_in_order.enc.sample.duration ok) ∈ (write_cfhd_sample tc run4_in_order).2.log) :=
  ⟨by decide, by decide, by decide,
    timestamp_fidelity_in_order 3 (by decide) (by decide) run4_in_order
      run4_in_order_reachable (by decide) (by decide)⟩

/-! ## Induction over a run of `process` -/

theorem push_rest_mem (g_height : Int) (data : List Nat) (pitch frame_num pts duration : Int)
    (rs rest : List PoolReply) (s s' : St) (ok : Bool)
    (h : push g_height data pitch frame_num pts duration rs s = .ret ok s' rest) :
    ∀ x ∈ rest, x ∈ rs := by
  have := push_induct (fun _ => True) (fun _ => True) (fun _ _ => True) (fun _ => True)
    g_height data pitch frame_num pts duration
    (fun _ _ _ _ _ _ _ _ => ⟨fun _ => trivial, fun _ => trivial⟩)
    (fun _ _ _ _ _ _ => trivial) (fun _ _ => trivial) rs s (fun _ _ => trivial) trivial
  rw [h] at this
  exact this.2

/-- What a `push` from an `A n` state gives, with the replies left over. -/
theorem run_push {R : PoolReply → Prop} {A B : Int → St → Prop} {W : St → Prop}
    (I : RunInvariant R A B W) (n g_height : Int) (data : List Nat) (pitch pts duration : Int)
    (rs : List PoolReply) (s : St) (hA : A n s) (hR : ∀ x ∈ rs, R x) :
    ResPost R W (B (n + 1)) (push g_height data pitch (n + 1) pts duration rs s) := by
  have h := I.push n g_height data pitch pts duration rs s hA hR
  cases hp : push g_height data pitch (n + 1) pts duration rs s with
  | ret ok s' rest =>
    rw [hp] at h
    cases ok with
    | true => exact ⟨h.1, fun x hx => hR x (push_rest_mem _ _ _ _ _ _ _ _ _ _ _ hp x hx)⟩
    | false => exact h
  | stalled s' => rw [hp] at h; exact h
  | undefined => trivial

/-- After a `push` that returned true, `write_cfhd_sample` and the rest of the
loop. -/
theorem run_write_then {R : PoolReply → Prop} {A B : Int → St → Prop} {W : St → Prop}
    (I : RunInvariant R A B W) (Q : St → Prop) (n : Int) (tc : CFHD_Transcoder) (s : St)
    (rs : List PoolReply) (hB : B n s) (rest : St → Res)
    (hrest : ∀ s', A n s' → ResPost R W Q (rest s')) :
    ResPost R W Q
      (if (write_cfhd_sample tc s).1 = true then rest (write_cfhd_sample tc s).2
       else .ret false (write_cfhd_sample tc s).2 rs) := by
  have hw := I.write n tc s hB
  split_ifs with hc
  · rw [if_pos hc] at hw
    exact hrest _ hw
  · rw [if_neg hc] at hw
    exact hw

theorem encode_post {R : PoolReply → Prop} {A B : Int → St → Prop} {W : St → Prop}
    (I : RunInvariant R A B W) (tc : CFHD_Transcoder) :
    ∀ (pkts : List Packet) (n : Int) (rs : List PoolReply) (s : St), A n s →
      (∀ x ∈ rs, R x) → ResPost R W (fun s' => ∃ m, A m s') (encode tc pkts n rs s) := by
  intro pkts
  induction pkts with
  | nil =>
    intro n rs s hA hR
    exact ⟨⟨n, hA⟩, hR⟩
  | cons pkt pkts ih =>
    intro n rs s hA hR
    unfold encode
    simp only [St.emit]
    split_ifs with h1 h2 h3 h4
    · trivial
    · have hp := run_push I n tc.input.height pkt.data
        (Int.tdiv (pkt.data.length : Int) tc.input.height) pkt.pts pkt.duration rs s hA hR
      cases hpu : push tc.input.height pkt.data
          (Int.tdiv (pkt.data.length : Int) tc.input.height) (n + 1) pkt.pts pkt.duration rs s with
      | ret ok s1 rest =>
        rw [hpu] at hp
        cases ok with
        | true =>
          exact run_write_then I _ (n + 1) tc s1 rest hp.1 _
            (fun s' hA' => ih (n + 1) rest s' hA' hp.2)
        | false => exact hp
      | stalled s1 => rw [hpu] at hp; exact hp
      | undefined => trivial
    · exact I.weaken n _ (I.emit n _ (.remux pkt.stream_index (!s.next_err.1)) (I.err n s hA) rfl)
    · exact ih n rs _ (I.emit n _ (.remux pkt.stream_index (!s.next_err.1)) (I.err n s hA) rfl)
        hR
    · exact ih n rs s hA hR

theorem encode_v210_recv_post {R : PoolReply → Prop} {A B : Int → St → Prop} {W : St → Prop}
    (I : RunInvariant R A B W) (tc : CFHD_Transcoder) (n pts pkt_duration : Int) :
    ∀ (vs : List V210Reply) (rs : List PoolReply) (s : St), A n s → (∀ x ∈ rs, R x) →
      ResPost R W (B (n + 1)) (encode_v210_recv tc (n + 1) pts pkt_duration vs rs s) := by
  intro vs
  induction vs with
  | nil =>
    intro rs s hA _
    exact I.weaken n s hA
  | cons v vs ih =>
    intro rs s hA hR
    cases v with
    | eagain =>
      unfold encode_v210_recv
      exact ih rs s hA hR
    | error =>
      unfold encode_v210_recv
      exact I.weaken n s hA
    | packet data =>
      unfold encode_v210_recv
      split_ifs with h0
      · trivial
      · exact run_push I n tc.input.height data _ pts pkt_duration rs s hA hR

theorem encode_v210_post {R : PoolReply → Prop} {A B : Int → St → Prop} {W : St → Prop}
    (I : RunInvariant R A B W) (tc : CFHD_Transcoder) (n : Int) (fr : Frame)
    (rs : List PoolReply) (s : St) (hA : A n s) (hR : ∀ x ∈ rs, R x) :
    ResPost R W (B (n + 1)) (encode_v210 tc (n + 1) fr rs s) := by
  unfold encode_v210
  simp only
  split_ifs with h0
  · exact I.weaken n _ (I.err n s hA)
  · exact encode_v210_recv_post I tc n fr.pts fr.pkt_duration fr.v210 rs _ (I.err n s hA) hR

theorem transcode_frames_post {R : PoolReply → Prop} {A B : Int → St → Prop} {W : St → Prop}
    (I : RunInvariant R A B W) (tc : CFHD_Transcoder) (recv_err : Bool) :
    ∀ (frs : List Frame) (n : Int) (rs : List PoolReply) (s : St), A n s →
      (∀ x ∈ rs, R x) →
      ResPost R W (A (transcode_frames tc recv_err frs n rs s).2)
        (transcode_frames tc recv_err frs n rs s).1 := by
  intro frs
  induction frs with
  | nil =>
    intro n rs s hA hR
    unfold transcode_frames
    cases recv_err with
    | true => exact I.weaken n s hA
    | false => exact ⟨hA, hR⟩
  | cons fr frs ih =>
    intro n rs s hA hR
    -- the state after the scaler has run (or has not been needed)
    have hA1 : A n (if tc.sws_ctx = true then s.next_err else (false, s)).2 := by
      split_ifs
      · exact I.err n s hA
      · exact hA
    generalize hsc : (if tc.sws_ctx = true then s.next_err else (false, s)) = sc at hA1
    have hpush : ResPost R W (B (n + 1))
        (if tc.v210_ctx = true then encode_v210 tc (n + 1) fr rs sc.2
         else if tc.sws_ctx = true then
           push tc.input.height fr.scaled fr.scaled_linesize (n + 1) fr.pts fr.pkt_duration
             rs sc.2
         else push tc.input.height fr.data fr.linesize (n + 1) fr.pts fr.pkt_duration rs sc.2) := by
      split_ifs
      · exact encode_v210_post I tc n fr rs sc.2 hA1 hR
      · exact run_push I n _ _ _ _ _ rs sc.2 hA1 hR
      · exact run_push I n _ _ _ _ _ rs sc.2 hA1 hR
    unfold transcode_frames
    simp only [hsc]
    generalize (if tc.v210_ctx = true then encode_v210 tc (n + 1) fr rs sc.2
         else if tc.sws_ctx = true then
           push tc.input.height fr.scaled fr.scaled_linesize (n + 1) fr.pts fr.pkt_duration
             rs sc.2
         else push tc.input.height fr.data fr.linesize (n + 1) fr.pts fr.pkt_duration rs sc.2)
      = pushed at hpush ⊢
    split_ifs with h0
    · exact I.weaken n _ hA1
    · cases pushed with
      | ret ok s1 rest =>
        cases ok with
        | true =>
          simp only
          have hw := I.write (n + 1) tc s1 hpush.1
          split_ifs with hc
          · rw [if_pos hc] at hw
            exact ih (n + 1) rest _ hw hpush.2
          · rw [if_neg hc] at hw
            exact hw
        | false => exact hpush
      | stalled s1 => exact hpush
      | undefined => trivial

theorem transcode_packet_post {R : PoolReply → Prop} {A B : Int → St → Prop} {W : St → Prop}
    (I : RunInvariant R A B W) (tc : CFHD_Transcoder) (frs : List Frame) (recv_err : Bool)
    (n : Int) (rs : List PoolReply) (s : St) (hA : A n s) (hR : ∀ x ∈ rs, R x) :
    ResPost R W (A (transcode_packet tc frs recv_err n rs s).2)
      (transcode_packet tc frs recv_err n rs s).1 := by
  unfold transcode_packet
  simp only
  split_ifs with h0
  · exact I.weaken n _ (I.err n s hA)
  · exact transcode_frames_post I tc recv_err frs n rs _ (I.err n s hA) hR

theorem transcode_post {R : PoolReply → Prop} {A B : Int → St → Prop} {W : St → Prop}
    (I : RunInvariant R A B W) (tc : CFHD_Transcoder) (flush : List Frame) (flush_err : Bool) :
    ∀ (pkts : List Packet) (n : Int) (rs : List PoolReply) (s : St), A n s →
      (∀ x ∈ rs, R x) →
      ResPost R W (fun s' => ∃ m, A m s') (transcode tc flush flush_err pkts n rs s) := by
  intro pkts
  induction pkts with
  | nil =>
    intro n rs s hA hR
    unfold transcode
    have h := transcode_packet_post I tc flush flush_err n rs s hA hR
    cases hr : (transcode_packet tc flush flush_err n rs s).1 with
    | ret ok s1 rest =>
      rw [hr] at h
      cases ok with
      | true => exact ⟨⟨_, h.1⟩, h.2⟩
      | false => exact h
    | stalled s1 => rw [hr] at h; exact h
    | undefined => trivial
  | cons pkt pkts ih =>
    intro n rs s hA hR
    unfold transcode
    simp only [St.emit]
    split_ifs with h1 h2 h3
    · have h := transcode_packet_post I tc pkt.frames pkt.recv_err n rs s hA hR
      rcases hr : transcode_packet tc pkt.frames pkt.recv_err n rs s with ⟨r, m⟩
      rw [hr] at h
      simp only at h
      cases r with
      | ret ok s1 rest =>
        cases ok with
        | true => exact ih m rest s1 h.1 h.2
        | false => exact h
      | stalled s1 => exact h
      | undefined => trivial
    · exact I.weaken n _ (I.emit n _ (.remux pkt.stream_index (!s.next_err.1)) (I.err n s hA) rfl)
    · exact ih n rs _ (I.emit n _ (.remux pkt.stream_index (!s.next_err.1)) (I.err n s hA) rfl)
        hR
    · exact ih n rs s hA hR

theorem drain_post {R : PoolReply → Prop} {A B : Int → St → Prop} {W : St → Prop}
    (I : RunInvariant R A B W) (tc : CFHD_Transcoder) (n : Int) :
    ∀ (rs : List PoolReply) (s : St), A n s → (∀ x ∈ rs, R x) →
      ResPost R W (fun s' => A n s' ∧ s'.enc.queued = 0) (drain tc rs s) := by
  intro rs
  induction rs with
  | nil =>
    intro s hA hR
    unfold drain
    split_ifs with h0
    · exact I.weaken n s hA
    · exact ⟨⟨hA, by simpa using h0⟩, hR⟩
  | cons r rs ih =>
    intro s hA hR
    unfold drain
    split_ifs with h0
    · cases hp : pop r s with
      | none => trivial
      | some bs =>
        obtain ⟨b, s1⟩ := bs
        have h := I.pop n r s b s1 hA (hR r (List.mem_cons_self _ _)) h0 hp
        cases b with
        | false => exact h
        | true =>
          simp only
          have hw := I.write n tc s1 h
          split_ifs with hc
          · rw [if_pos hc] at hw
            exact ih _ hw (fun x hx => hR x (List.mem_cons_of_mem _ hx))
          · rw [if_neg hc] at hw
            exact hw
    · exact ⟨⟨hA, by simpa using h0⟩, hR⟩

theorem or_throw_post {R : PoolReply → Prop} {W Q Q' : St → Prop} (r : Res)
    (rest : St → List PoolReply → Outcome) (hr : ResPost R W Q r)
    (hrest : ∀ s rs, Q s → (∀ x ∈ rs, R x) → OutcomePost W Q' (rest s rs)) :
    OutcomePost W Q' (or_throw r rest) := by
  cases r with
  | ret ok s rs =>
    cases ok with
    | true => exact hrest s rs hr.1 hr.2
    | false => exact ⟨rfl, hr⟩
  | stalled s => exact hr
  | undefined => trivial

theorem start_post {R : PoolReply → Prop} {A B : Int → St → Prop} {W : St → Prop}
    (I : RunInvariant R A B W) (n : Int) (s : St) (hA : A n s) : A n (start s).2 := by
  unfold start
  dsimp only
  split_ifs <;> dsimp only <;>
    repeat (first | exact hA | apply I.err | (refine I.emit _ _ _ ?_ rfl))

theorem init_v210_encoder_post {R : PoolReply → Prop} {A B : Int → St → Prop} {W : St → Prop}
    (I : RunInvariant R A B W) (n : Int) (s : St) (hA : A n s) :
    A n (init_v210_encoder s).2 := by
  unfold init_v210_encoder
  dsimp only
  split_ifs <;> dsimp only <;>
    repeat (first | exact hA | apply I.err | (refine I.emit _ _ _ ?_ rfl))

theorem init_scaler_post {R : PoolReply → Prop} {A B : Int → St → Prop} {W : St → Prop}
    (I : RunInvariant R A B W) (n : Int) (tc : CFHD_Transcoder) (f : AVPixelFormat)
    (accurate : Bool) (trc : Int) (s : St) (hA : A n s) :
    A n (init_scaler tc f accurate trc s).2 := by
  unfold init_scaler
  dsimp only
  split_ifs <;> dsimp only <;>
    repeat (first | exact hA | apply I.err | (refine I.emit _ _ _ ?_ rfl))

theorem ResPost_mono {R : PoolReply → Prop} {W W' Q : St → Prop} (r : Res)
    (h : ResPost R W Q r) (hW : ∀ s, W s → W' s) : ResPost R W' Q r := by
  cases r with
  | ret ok s rs =>
    cases ok with
    | true => exact h
    | false => exact hW s h
  | stalled s => exact hW s h
  | undefined => trivial

theorem process_flush_post {R : PoolReply → Prop} {A B : Int → St → Prop} {W : St → Prop}
    (I : RunInvariant R A B W) (tc : CFHD_Transcoder) (rs : List PoolReply) (s : St)
    (hA : ∃ n, A n s) (hR : ∀ x ∈ rs, R x) :
    ProcessPost A W (process_flush tc rs s) := by
  obtain ⟨n, hA⟩ := hA
  unfold process_flush ProcessPost
  refine or_throw_post (drain tc rs s) _
    (ResPost_mono _ (drain_post I tc n rs s hA hR) (fun _ h => Or.inl h)) ?_
  intro s1 rs1 hQ _
  dsimp only [St.emit]
  split_ifs with h0
  · refine ⟨rfl, Or.inr ⟨n, s1.next_err.2, I.err n s1 hQ.1, ?_, rfl, ?_⟩⟩
    · rw [next_err_enc]; exact hQ.2
    · simp [h0]
  · refine ⟨n, s1.next_err.2, I.err n s1 hQ.1, ?_, rfl, ?_⟩
    · rw [next_err_enc]; exact hQ.2
    · simp at h0
      simp [h0]

theorem process_direct_post {R : PoolReply → Prop} {A B : Int → St → Prop} {W : St → Prop}
    (I : RunInvariant R A B W) (tc : CFHD_Transcoder) (pkts : List Packet)
    (rs : List PoolReply) (s : St) (hA : A 0 s) (hR : ∀ x ∈ rs, R x) :
    ProcessPost A W (process_direct tc pkts rs s) := by
  unfold process_direct
  exact or_throw_post _ _
    (ResPost_mono _ (encode_post I tc pkts 0 rs s hA hR) (fun _ h => Or.inl h))
    (fun s1 rs1 hQ hR1 => process_flush_post I tc rs1 s1 hQ hR1)

theorem process_adapt_post {R : PoolReply → Prop} {A B : Int → St → Prop} {W : St → Prop}
    (I : RunInvariant R A B W) (cliopt : CliOptions) (tc : CFHD_Transcoder) (b8 brgb : Bool)
    (pkts : List Packet) (flush : List Frame) (flush_err : Bool)
    (rs : List PoolReply) (s : St) (hA : A 0 s) (hR : ∀ x ∈ rs, R x) :
    ProcessPost A W (process_adapt cliopt tc b8 brgb pkts flush flush_err rs s) := by
  unfold process_adapt
  dsimp only
  have h2 : A 0 s.next_err.2.next_err.2 := I.err 0 _ (I.err 0 s hA)
  generalize s.next_err.2.next_err.2 = s2 at h2
  have h3 : A 0 (if (!cliopt.b_rgb && !b8) = true then init_v210_encoder s2 else (true, s2)).2 := by
    split_ifs
    · exact init_v210_encoder_post I 0 s2 h2
    · exact h2
  generalize (if (!cliopt.b_rgb && !b8) = true then init_v210_encoder s2 else (true, s2)) = v
    at h3
  split_ifs with c1 c2 c3 c4 c5 c6 <;> (try dsimp only at *) <;>
    first
    | (exfalso; simp_all; done)
    | exact ⟨rfl, Or.inl (I.weaken 0 _ h2)⟩
    | exact ⟨rfl, Or.inl (I.weaken 0 _ h3)⟩
    | exact ⟨rfl, Or.inl (I.weaken 0 _ (I.err 0 _ h3))⟩
    | exact ⟨rfl, Or.inl (I.weaken 0 _ (init_scaler_post I 0 _ _ _ _ _ (I.err 0 _ h3)))⟩
    | exact or_throw_post _ _
        (ResPost_mono _ (transcode_post I _ flush flush_err pkts 0 rs _
          (init_scaler_post I 0 _ _ _ _ _ (I.err 0 _ h3)) hR) (fun _ h => Or.inl h))
        (fun s1 rs1 hQ hR1 => process_flush_post I _ rs1 s1 hQ hR1)
    | exact or_throw_post _ _
        (ResPost_mono _ (transcode_post I _ flush flush_err pkts 0 rs _ h3 hR)
          (fun _ h => Or.inl h))
        (fun s1 rs1 hQ hR1 => process_flush_post I _ rs1 s1 hQ hR1)

/-- Induction over a run of `process`: if the freshly constructed encoder
satisfies `A 0`, the state in which `process` ends is described by
`ProcessPost`. -/
theorem process_post {R : PoolReply → Prop} {A B : Int → St → Prop} {W : St → Prop}
    (I : RunInvariant R A B W) (YUV_601 hw : Nat) (others : Nat → AVPixFmtDescriptor)
    (cliopt : CliOptions) (tc : CFHD_Transcoder) (pkts : List Packet) (flush : List Frame)
    (flush_err : Bool) (rs : List PoolReply) (errs : List Bool)
    (hA : ∀ d, A 0 { enc := process_encoder YUV_601 hw cliopt tc d, errs := errs, log := [] })
    (hR : ∀ x ∈ rs, R x) :
    ProcessPost A W (process YUV_601 hw others cliopt tc pkts flush flush_err rs errs) := by
  unfold process
  cases hd : av_pix_fmt_desc_get others tc.input.format with
  | none => trivial
  | some d =>
    dsimp only
    have h1 := start_post I 0 _ (hA d)
    split_ifs with h0
    · exact ⟨rfl, Or.inl (I.weaken 0 _ h1)⟩
    · unfold process_body
      split_ifs
      · exact process_direct_post I tc pkts rs _ h1 hR
      · exact process_adapt_post I cliopt tc _ _ pkts flush flush_err rs _ h1 hR

/-- Two invariants of a run hold together. -/
theorem run_invariant_and {R1 R2 : PoolReply → Prop} {A1 B1 A2 B2 : Int → St → Prop}
    {W1 W2 : St → Prop} (I1 : RunInvariant R1 A1 B1 W1) (I2 : RunInvariant R2 A2 B2 W2) :
    RunInvariant (fun r => R1 r ∧ R2 r) (fun n s => A1 n s ∧ A2 n s)
      (fun n s => B1 n s ∧ B2 n s) (fun s => W1 s ∧ W2 s) where
  weaken := fun n s h => ⟨I1.weaken n s h.1, I2.weaken n s h.2⟩
  err := fun n s h => ⟨I1.err n s h.1, I2.err n s h.2⟩
  emit := fun n s ev h hc => ⟨I1.emit n s ev h.1 hc, I2.emit n s ev h.2 hc⟩
  push := by
    intro n g_height data pitch pts duration rs s hA hR
    have h1 := I1.push n g_height data pitch pts duration rs s hA.1 (fun x hx => (hR x hx).1)
    have h2 := I2.push n g_height data pitch pts duration rs s hA.2 (fun x hx => (hR x hx).2)
    cases hp : push g_height data pitch (n + 1) pts duration rs s with
    | ret ok s' rest =>
      rw [hp] at h1 h2
      cases ok with
      | true => exact ⟨⟨h1.1, h2.1⟩, fun _ _ => trivial⟩
      | false => exact ⟨h1, h2⟩
    | stalled s' => rw [hp] at h1 h2; exact ⟨h1, h2⟩
    | undefined => trivial
  write := by
    intro n tc s hB
    have h1 := I1.write n tc s hB.1
    have h2 := I2.write n tc s hB.2
    split_ifs with hc
    · rw [if_pos hc] at h1 h2; exact ⟨h1, h2⟩
    · rw [if_neg hc] at h1 h2; exact ⟨h1, h2⟩
  pop := by
    intro n r s b s' hA hR hq hp
    have h1 := I1.pop n r s b s' hA.1 hR.1 hq hp
    have h2 := I2.pop n r s b s' hA.2 hR.2 hq hp
    split_ifs with hc
    · rw [if_pos hc] at h1 h2; exact ⟨h1, h2⟩
    · rw [if_neg hc] at h1 h2; exact ⟨h1, h2⟩

theorem NoTrailer_pop (r : PoolReply) (s s' : St) (b : Bool) (h : NoTrailer s)
    (hp : pop r s = some (b, s')) : NoTrailer s' := by
  intro ok
  have := h ok
  rcases pop_spec hp with ⟨_, _, rfl⟩ | ⟨f, buf, _, _, rfl⟩ |
    ⟨f, buf, data, size, i, slot, _, _, _, _, rfl⟩ <;> simp [this]

theorem NoTrailer_push_store (g_height : Int) (data : List Nat)
    (pitch frame_num pts duration : Int) (s : St) (b : Bool) (s' : St) (h : NoTrailer s)
    (hp : push_store g_height data pitch frame_num pts duration s = some (b, s')) :
    NoTrailer s' := by
  intro ok
  have := h ok
  rcases push_store_spec hp with ⟨_, rfl⟩ | ⟨i, queue, errs, _, ⟨_, rfl⟩ | ⟨_, rfl⟩⟩
  · rw [next_err_log]; exact this
  · simp [this]
  · simp [this]

theorem NoTrailer_write (tc : CFHD_Transcoder) (s : St) (h : NoTrailer s) :
    NoTrailer (write_cfhd_sample tc s).2 := by
  intro ok
  have := h ok
  rcases write_spec tc s with ⟨_, hw⟩ | ⟨_, errs, hw | hw⟩ <;> rw [hw] <;> simp [this]

/-- No step of the pipeline before the flush writes the trailer. -/
theorem no_trailer_invariant :
    RunInvariant (fun _ => True) (fun _ => NoTrailer) (fun _ => NoTrailer) NoTrailer where
  weaken := fun _ _ h => h
  err := fun _ s h ok => by rw [next_err_log]; exact h ok
  emit := by
    intro _ s ev h hc ok
    have := h ok
    cases ev <;> simp_all [St.emit, Event.is_control]
  push := by
    intro n g_height data pitch pts duration rs s hA _
    have h := push_preserves NoTrailer g_height data pitch (n + 1) pts duration
      (fun r s b s' hN hp => NoTrailer_pop r s s' b hN hp)
      (fun s b s' hN _ hp => NoTrailer_push_store g_height data pitch (n + 1) pts duration
        s b s' hN hp) rs s hA
    cases hp : push g_height data pitch (n + 1) pts duration rs s with
    | ret ok s' rest =>
      cases ok with
      | true => exact ⟨h.1 _ _ _ hp, fun _ _ => trivial⟩
      | false => exact h.1 _ _ _ hp
    | stalled s' => exact h.2 _ hp
    | undefined => trivial
  write := by
    intro n tc s hB
    have := NoTrailer_write tc s hB
    split_ifs <;> exact this
  pop := by
    intro n r s b s' hA _ _ hp
    have := NoTrailer_pop r s s' b hA hp
    split_ifs <;> exact this

/-! ## Every poll finds the previous sample written -/

theorem Inv1_next_err (C : Int) (s : St) (h : Inv1 C s) : Inv1 C s.next_err.2 := by
  unfold Inv1
  rw [next_err_enc, next_err_log]
  exact h

theorem Inv1_emit (C : Int) (s : St) (ev : Event) (h : Inv1 C s) (hc : ev.is_control = true) :
    Inv1 C (s.emit ev) := by
  obtain ⟨h1, h2, h3, h4⟩ := h
  have hd : ev.delta = 0 := by cases ev <;> simp_all [Event.is_control, Event.delta]
  have hs : ev.is_store_or_submit = false := by
    cases ev <;> simp_all [Event.is_control, Event.is_store_or_submit]
  refine ⟨h1, ?_, h3, ?_⟩
  · simp only [St.emit, in_flight_count, hd]; omega
  · simp only [St.emit, Bounded, in_flight_count, hd, hs]
    exact ⟨h4, by omega, by simp⟩

theorem Holding_orderly (C n : Int) (s : St) (h : Holding C n s) : Orderly s := by
  obtain ⟨-, -, h1, -, ⟨-, h2, h3⟩ | ⟨-, h2, h3⟩⟩ := h
  · exact ⟨h1, by rw [h2, h3]; simp⟩
  · exact ⟨h1, by rw [h2, h3]; simp⟩

theorem Settled_holding (C n : Int) (s : St) (h : Settled C n s) : Holding C n s :=
  ⟨h.1, h.2.1, h.2.2.1, h.2.2.2.1, Or.inl h.2.2.2.2⟩

/-- What a pop does to a state with no sample pending, when completed samples
are never empty. -/
theorem pop_from_settled (C n : Int) (r : PoolReply) (s s' : St) (b : Bool)
    (hA : Settled C n s) (hr : r.nonempty) (hp : pop r s = some (b, s')) :
    (b = true → Polling C n s' ∧ Holding C n s') ∧ (b = false → Orderly s') := by
  obtain ⟨hI, hn, h1, h2, h3, h4, h5⟩ := hA
  have hI' := Inv1_pop C r s s' b hI hp
  have hq' : s.enc.queued ≤ s.enc.queue_size := by rw [hI.1]; exact hI.2.2.1
  rcases pop_spec hp with ⟨_, hb, rfl⟩ | ⟨f, buf, _, hb, rfl⟩ |
    ⟨f, buf, data, size, i, slot, hr', hb, _, _, rfl⟩ <;> subst hb
  · have e1 : one_at_a_time (Event.poll s.enc.sample.size :: s.log) = true := by
      simp [one_at_a_time, Event.turn_ok, h1]
    have e2 : pending (Event.poll s.enc.sample.size :: s.log) = none := by
      simp [pending, Event.pend, h4]
    have e3 : retrieved_frames (Event.poll s.enc.sample.size :: s.log)
        = written_frames (Event.poll s.enc.sample.size :: s.log) := by
      simp [retrieved_frames, written_frames, Event.retrieved_frame, Event.written_frame, h5]
    have e4 : submitted_frames (Event.poll s.enc.sample.size :: s.log)
        = consecutive 1 n.toNat := by
      simp [submitted_frames, Event.submitted_frame, h2]
    exact ⟨fun _ => ⟨⟨hI', hn, e1, e4, Or.inl ⟨h3, e2, e3⟩⟩,
      ⟨hI', hn, e1, e4, Or.inl ⟨h3, e2, e3⟩⟩⟩, fun hf => by cases hf⟩
  · refine ⟨fun hf => (by cases hf), fun _ => ⟨?_, ?_⟩⟩
    · simp [one_at_a_time, Event.turn_ok, h1]
    · simp [retrieved_frames, written_frames, Event.retrieved_frame, Event.written_frame,
        pending, Event.pend, h4, h5]
  · subst hr'
    have hsz : 0 < size := hr
    have e1 : one_at_a_time (Event.retrieve f slot.pts slot.duration ::
        Event.poll s.enc.sample.size :: s.log) = true := by
      simp [one_at_a_time, Event.turn_ok, pending, Event.pend, h1, h4]
    have e2 : pending (Event.retrieve f slot.pts slot.duration ::
        Event.poll s.enc.sample.size :: s.log) = some f := by
      simp [pending, Event.pend]
    have e3 : retrieved_frames (Event.retrieve f slot.pts slot.duration ::
        Event.poll s.enc.sample.size :: s.log)
        = written_frames (Event.retrieve f slot.pts slot.duration ::
          Event.poll s.enc.sample.size :: s.log) ++ [f] := by
      simp [retrieved_frames, written_frames, Event.retrieved_frame, Event.written_frame, h5]
    have e4 : submitted_frames (Event.retrieve f slot.pts slot.duration ::
        Event.poll s.enc.sample.size :: s.log) = consecutive 1 n.toNat := by
      simp [submitted_frames, Event.submitted_frame, h2]
    refine ⟨fun _ => ⟨⟨hI', hn, e1, e4, Or.inr ⟨?_, hsz, e2, e3⟩⟩,
      ⟨hI', hn, e1, e4, Or.inr ⟨hsz, e2, e3⟩⟩⟩, fun hf => by cases hf⟩
    show s.enc.queued - 1 < s.enc.queue_size
    omega

theorem Orderly_of_polling (C n : Int) (s : St) (h : Polling C n s) : Orderly s := by
  obtain ⟨-, -, h1, -, ⟨-, h2, h3⟩ | ⟨-, -, h2, h3⟩⟩ := h
  · exact ⟨h1, by rw [h2, h3]; simp⟩
  · exact ⟨h1, by rw [h2, h3]; simp⟩

theorem store_from_polling (C n g_height : Int) (data : List Nat) (pitch pts duration : Int)
    (s s' : St) (b : Bool) (hP : Polling C n s) (hq : s.enc.queued < s.enc.queue_size)
    (hp : push_store g_height data pitch (n + 1) pts duration s = some (b, s')) :
    if b = true then Holding C (n + 1) s' else Orderly s' := by
  have hO := Orderly_of_polling C n s hP
  obtain ⟨hI, hn, h1, h2, hcase⟩ := hP
  have hI' := Inv1_push_store C g_height data pitch (n + 1) pts duration s b s' hI hq hp
  rcases push_store_spec hp with ⟨hb, rfl⟩ | ⟨i, queue, errs, _, ⟨hb, rfl⟩ | ⟨hb, rfl⟩⟩ <;>
    subst hb
  · simp only [Bool.false_eq_true, ↓reduceIte]
    unfold Orderly
    rw [next_err_log]
    exact hO
  · simp only [Bool.false_eq_true, ↓reduceIte]
    obtain ⟨o1, o2⟩ := hO
    constructor
    · simp [one_at_a_time, Event.turn_ok, o1]
    · simpa [retrieved_frames, written_frames, Event.retrieved_frame, Event.written_frame,
        pending, Event.pend] using o2
  · simp only [↓reduceIte]
    have e1 : one_at_a_time (Event.submit (n + 1) i true ::
        Event.store i (n + 1) pts duration :: s.log) = true := by
      simp [one_at_a_time, Event.turn_ok, h1]
    have e4 : submitted_frames (Event.submit (n + 1) i true ::
        Event.store i (n + 1) pts duration :: s.log) = consecutive 1 (n + 1).toNat := by
      have hk : (n + 1).toNat = n.toNat + 1 := by omega
      rw [hk, ← consecutive_concat]
      simp only [submitted_frames, Event.submitted_frame, List.append_nil, h2]
      congr 2
      omega
    refine ⟨hI', by omega, e1, e4, ?_⟩
    rcases hcase with ⟨c1, c2, c3⟩ | ⟨-, c1, c2, c3⟩
    · left
      refine ⟨c1, ?_, ?_⟩
      · simpa [pending, Event.pend] using c2
      · simpa [retrieved_frames, written_frames, Event.retrieved_frame, Event.written_frame]
          using c3
    · right
      refine ⟨c1, ?_, ?_⟩
      · simpa [pending, Event.pend] using c2
      · simpa [retrieved_frames, written_frames, Event.retrieved_frame, Event.written_frame]
          using c3

theorem control_log_facts (ev : Event) (hc : ev.is_control = true) :
    ev.delta = 0 ∧ (∀ p, ev.pend p = p) ∧ (∀ p, ev.turn_ok p = true) ∧
    ev.retrieved_frame = [] ∧ ev.written_frame = [] ∧ ev.submitted_frame = [] := by
  cases ev <;>
    simp_all [Event.is_control, Event.delta, Event.pend, Event.turn_ok, Event.retrieved_frame,
      Event.written_frame, Event.submitted_frame]

theorem orderly_invariant (C : Int) :
    RunInvariant PoolReply.nonempty (Settled C) (Holding C) Orderly where
  weaken := fun n s h => Holding_orderly C n s (Settled_holding C n s h)
  err := by
    intro n s h
    unfold Settled
    rw [next_err_enc, next_err_log]
    exact ⟨Inv1_next_err C s h.1, h.2⟩
  emit := by
    intro n s ev h hc
    obtain ⟨hI, hn, h1, h2, h3, h4, h5⟩ := h
    obtain ⟨-, c1, c2, c3, c4, c5⟩ := control_log_facts ev hc
    refine ⟨Inv1_emit C s ev hI hc, hn, ?_, ?_, h3, ?_, ?_⟩
    · simp [St.emit, one_at_a_time, c2, h1]
    · simp [St.emit, submitted_frames, c5, h2]
    · simp [St.emit, pending, c1, h4]
    · simp [St.emit, retrieved_frames, written_frames, c3, c4, h5]
  push := by
    intro n g_height data pitch pts duration rs s hA hR
    have h := push_induct PoolReply.nonempty (Polling C n)
      (fun b s => if b = true then Holding C (n + 1) s else Orderly s) Orderly
      g_height data pitch (n + 1) pts duration
      (by
        intro r s b s' hr hP hq hp
        obtain ⟨hI, hn, h1, h2, hcase⟩ := hP
        rcases hcase with ⟨c1, c2, c3⟩ | ⟨c0, -⟩
        · have := pop_from_settled C n r s s' b ⟨hI, hn, h1, h2, c1, c2, c3⟩ hr hp
          exact ⟨fun hb => (this.1 hb).1, fun hb => by simpa using this.2 hb⟩
        · exact absurd c0 hq)
      (fun s b s' hP hq hp => store_from_polling C n g_height data pitch pts duration s s' b
        hP hq hp)
      (fun s hP => Orderly_of_polling C n s hP) rs s hR
      ⟨hA.1, hA.2.1, hA.2.2.1, hA.2.2.2.1, Or.inl hA.2.2.2.2⟩
    cases hp : push g_height data pitch (n + 1) pts duration rs s with
    | ret ok s' rest =>
      rw [hp] at h
      cases ok with
      | true => exact ⟨by simpa using h.1, fun _ _ => trivial⟩
      | false => simpa using h.1
    | stalled s' => rw [hp] at h; exact h
    | undefined => trivial
  write := by
    intro n tc s hB
    have hO := Holding_orderly C n s hB
    obtain ⟨hI, hn, h1, h2, hcase⟩ := hB
    have hI' := Inv1_write C tc s hI
    rcases write_spec tc s with ⟨hz, h⟩ | ⟨hsz, errs, h | h⟩ <;> rw [h] at hI' ⊢
    · simp only [↓reduceIte]
      rcases hcase with c | ⟨c1, -⟩
      · exact ⟨hI, hn, h1, h2, c⟩
      · omega
    · simp only [Bool.false_eq_true, ↓reduceIte]
      rcases hcase with ⟨c1, -⟩ | ⟨-, c2, c3⟩
      · omega
      · constructor
        · simp [one_at_a_time, Event.turn_ok, h1, c2]
        · simp [retrieved_frames, written_frames, Event.retrieved_frame, Event.written_frame,
            pending, Event.pend, c2, c3]
    · simp only [↓reduceIte]
      rcases hcase with ⟨c1, -⟩ | ⟨-, c2, c3⟩
      · omega
      · refine ⟨hI', hn, ?_, ?_, rfl, ?_, ?_⟩
        · simp [one_at_a_time, Event.turn_ok, pending, Event.pend, h1, c2]
        · simp [submitted_frames, Event.submitted_frame, h2]
        · simp [pending, Event.pend]
        · simp [retrieved_frames, written_frames, Event.retrieved_frame, Event.written_frame,
            c3]
  pop := by
    intro n r s b s' hA hr _ hp
    have := pop_from_settled C n r s s' b hA hr hp
    cases b with
    | true => simpa using (this.1 rfl).2
    | false => simpa using this.2 rfl

theorem initial_Inv1 (YUV_601 hw : Nat) (cliopt : CliOptions) (tc : CFHD_Transcoder)
    (d : AVPixFmtDescriptor) (errs : List Bool)
    (hq : 1 ≤ compute_queue_size (resolve_threads hw cliopt.threads)) :
    Inv1 (compute_queue_size (resolve_threads hw cliopt.threads))
      { enc := process_encoder YUV_601 hw cliopt tc d, errs := errs, log := [] } := by
  refine ⟨rfl, rfl, ?_, trivial⟩
  show (0 : Int) ≤ _
  omega

theorem consecutive_nodup (a : Int) (k : Nat) : (consecutive a k).Nodup := by
  induction k generalizing a with
  | zero => simp [consecutive]
  | succ k ih =>
    simp only [consecutive, List.nodup_cons, mem_consecutive]
    exact ⟨by omega, ih (a + 1)⟩

/-- A pool that only hands out frames in flight: the frames retrieved together
with those in flight are the frames submitted, and the in-flight count is the
number of frames in flight. -/
theorem pool_any_order_perm :
    ∀ l : List Event, pool_any_order l = true →
      in_flight_count l = (in_flight l).length ∧
      List.Perm ((retrieved_frames l).map Int.ofNat ++ in_flight l)
        (submitted_frames l) := by
  intro l
  induction l with
  | nil => intro _; exact ⟨rfl, List.Perm.refl _⟩
  | cons ev l ih =>
    intro h
    simp only [pool_any_order, Bool.and_eq_true] at h
    obtain ⟨ih1, ih2⟩ := ih h.1
    cases ev with
    | submit f i ok =>
      cases ok with
      | true =>
        constructor
        · simp [in_flight_count, Event.delta, in_flight, Event.apply, ih1]
        · simp only [retrieved_frames, Event.retrieved_frame, List.append_nil, in_flight,
            Event.apply, submitted_frames, Event.submitted_frame]
          rw [← List.append_assoc]
          exact List.Perm.append_right _ ih2
      | false =>
        constructor
        · simp [in_flight_count, Event.delta, in_flight, Event.apply, ih1]
        · simpa [retrieved_frames, Event.retrieved_frame, in_flight, Event.apply,
            submitted_frames, Event.submitted_frame] using ih2
    | retrieve f p d =>
      have hm : (f : Int) ∈ in_flight l := by
        simpa [Event.any_order_ok] using h.2
      constructor
      · simp only [in_flight_count, Event.delta, in_flight, Event.apply,
          List.length_erase_of_mem hm, ih1]
        have : 0 < (in_flight l).length := List.length_pos_of_mem hm
        omega
      · simp only [retrieved_frames, Event.retrieved_frame, in_flight, Event.apply,
          submitted_frames, Event.submitted_frame, List.append_nil, List.map_append,
          List.map_cons, List.map_nil, List.append_assoc, List.singleton_append]
        exact (List.Perm.append_left _ (List.perm_cons_erase hm).symm).trans ih2
    | _ =>
      constructor
      · simp [in_flight_count, Event.delta, in_flight, Event.apply, ih1]
      · simpa [retrieved_frames, Event.retrieved_frame, in_flight, Event.apply,
          submitted_frames, Event.submitted_frame] using ih2

/-- C4 (exactly-once output). For every run of `process` with a capacity of at
least 1 in which completed samples are non-empty and the pool only hands out
samples of frames that are in flight: if the run reaches `av_write_trailer`
(whether that call then succeeds or not), then at that point `queued` is 0, no
frame is in flight, the frames submitted are 1, ..., n for some n, and the
samples written by `write_cfhd_sample` are those frames, each exactly once:
the written frame numbers are a rearrangement of 1, ..., n without
repetition, and they are the retrieved ones in retrieval order. -/
theorem exactly_once_output (YUV_601 hw : Nat) (others : Nat → AVPixFmtDescriptor)
    (cliopt : CliOptions) (tc : CFHD_Transcoder) (pkts : List Packet) (flush : List Frame)
    (flush_err : Bool) (rs : List PoolReply) (errs : List Bool) (s : St) (ok : Bool)
    (l : List Event)
    (hq : 1 ≤ compute_queue_size (resolve_threads hw cliopt.threads))
    (hne : ∀ r ∈ rs, r.nonempty)
    (hend : (process YUV_601 hw others cliopt tc pkts flush flush_err rs errs).final = some s)
    (htr : s.log = .trailer ok :: l) (hpool : pool_any_order l = true) :
    s.enc.queued = 0 ∧ in_flight l = [] ∧
    ∃ n : Nat, submitted_frames l = consecutive 1 n ∧
      List.Perm ((written_frames l).map Int.ofNat) (consecutive 1 n) ∧
      (written_frames l).Nodup ∧ (written_frames l).length = n ∧
      retrieved_frames l = written_frames l := by
  have h := process_post (run_invariant_and (orderly_invariant _) no_trailer_invariant)
    YUV_601 hw others cliopt tc pkts flush flush_err rs errs
    (fun d => ⟨⟨initial_Inv1 YUV_601 hw cliopt tc d errs hq, le_refl _, rfl, rfl, rfl, rfl,
      rfl⟩, fun _ hm => by cases hm⟩) (fun x hx => ⟨hne x hx, trivial⟩)
  have hnt : ∀ s' : St, s' = s → NoTrailer s' → False := by
    intro s' he hn
    subst he
    exact hn ok (by rw [htr]; exact List.mem_cons_self _ _)
  have hfin : ∀ ok', Finished (fun n s => Settled (compute_queue_size
      (resolve_threads hw cliopt.threads)) n s ∧ NoTrailer s) ok' s →
      s.enc.queued = 0 ∧ in_flight l = [] ∧
      ∃ n : Nat, submitted_frames l = consecutive 1 n ∧
        List.Perm ((written_frames l).map Int.ofNat) (consecutive 1 n) ∧
        (written_frames l).Nodup ∧ (written_frames l).length = n ∧
        retrieved_frames l = written_frames l := by
    rintro ok' ⟨m, s1, ⟨hA, -⟩, hq0, henc, hl⟩
    rw [htr] at hl
    injection hl with _ hl
    subst hl
    obtain ⟨hI, hm, h1, h2, h3, h4, h5⟩ := hA
    obtain ⟨p1, p2⟩ := pool_any_order_perm s1.log hpool
    have hempty : in_flight s1.log = [] := by
      have : (in_flight s1.log).length = 0 := by
        have := hI.2.1
        omega
      exact List.length_eq_zero.mp this
    rw [hempty, List.append_nil, h5, h2] at p2
    have hnd : (written_frames s1.log).Nodup :=
      List.Nodup.of_map _ (p2.nodup_iff.mpr (consecutive_nodup 1 m.toNat))
    have hlen : (written_frames s1.log).length = m.toNat := by
      have := p2.length_eq
      rw [List.length_map] at this
      rw [this]
      clear * -
      generalize (1 : Int) = a
      induction m.toNat generalizing a with
      | zero => rfl
      | succ k ih => simp [consecutive, ih]
    exact ⟨by rw [henc]; exact hq0, hempty, m.toNat, h2, p2, hnd, hlen, h5⟩
  cases ho : process YUV_601 hw others cliopt tc pkts flush flush_err rs errs with
  | returned s' =>
    rw [ho] at h hend
    injection hend with hend
    subst hend
    exact hfin true h
  | thrown code s' =>
    rw [ho] at h hend
    injection hend with hend
    rcases h.2 with h | h
    · exact absurd h.2 (fun hn => hnt s' hend hn)
    · subst hend
      exact hfin false h
  | stalled s' =>
    rw [ho] at h hend
    injection hend with hend
    rcases h with h | h
    · exact absurd h.2 (fun hn => hnt s' hend hn)
    · subst hend
      exact hfin false h
  | undefined => rw [ho] at hend; cases hend

theorem demo_run_final : demo_run.final = some demo_final := by decide

theorem demo_final_log : demo_final.log = .trailer true :: demo_log := by decide

/-- The run of the specification's scenario: two frames are in flight at the
end of the stream; the drain retrieves and writes both, in completion order
(frame 2, then frame 1), before the trailer. -/
theorem exactly_once_output_witness :
    demo_log =
      [.release 8, .write 0 1 10 1 true, .retrieve 1 10 1, .poll 0, .poll 0,
       .release 7, .write 0 2 20 1 true, .retrieve 2 20 1, .poll 0,
       .submit 2 1 true, .store 1 2 20 1, .remux 1 true, .submit 1 0 true, .store 0 1 10 1,
       .prepare .YUY2 .YUV_422 4 .FILMSCAN1, .create_pool 2 3] ∧
    written_frames demo_log = [2, 1] ∧
    (demo_final.enc.queued = 0 ∧ in_flight demo_log = [] ∧
      ∃ n : Nat, submitted_frames demo_log = consecutive 1 n ∧
        List.Perm ((written_frames demo_log).map Int.ofNat) (consecutive 1 n) ∧
        (written_frames demo_log).Nodup ∧ (written_frames demo_log).length = n ∧
        retrieved_frames demo_log = written_frames demo_log) :=
  ⟨by decide, by decide,
    exactly_once_output 4 8 (fun _ => { depth := 8, rgb := false }) demo_opts demo_tc
      [demo_packet 10, { demo_packet 15 with stream_index := 1 }, demo_packet 20] [] false
      [.ready 2 7 (some (9, 100)), .not_ready, .ready 1 8 (some (9, 100))] [] demo_final true
      demo_log (by decide) (by simp [PoolReply.nonempty]) demo_run_final demo_final_log
      (by decide)⟩

/-- C6 (direct-path rule). Whenever `open_input` returns, for every input video
stream and RGB flag: `dec_ctx->codec_id` is `AV_CODEC_ID_NONE`, no decoder has
been opened, and `process` runs `encode` (the direct path) if and only if the
stream is raw video whose pixel format is exactly RGB48LE when the RGB flag is
set, or exactly YUYV422 when it is not; in every other case the decoder of the
stream's codec has been opened and `process` runs the decode path. -/
theorem direct_path_rule (cliopt : CliOptions) (stream : InputStream) (errs errs' : List Bool)
    (tc : CFHD_Transcoder) (log : List Event)
    (h : open_input cliopt stream errs = .ok (tc, errs', log)) :
    (tc.dec_codec_id = .NONE ↔
      (stream.codec_id = .RAWVIDEO ∧
        stream.format = (if cliopt.b_rgb then AVPixelFormat.RGB48LE else .YUYV422))) ∧
    (log = if stream.codec_id = .RAWVIDEO ∧
        stream.format = (if cliopt.b_rgb then AVPixelFormat.RGB48LE else .YUYV422)
      then [] else [.open_decoder stream.codec_id]) ∧
    (∀ (b8 brgb : Bool) (packets : List Packet) (flush : List Frame) (flush_err : Bool)
        (rs : List PoolReply) (s : St),
      process_body cliopt tc b8 brgb packets flush flush_err rs s =
        if stream.codec_id = .RAWVIDEO ∧
            stream.format = (if cliopt.b_rgb then AVPixelFormat.RGB48LE else .YUYV422)
        then process_direct tc packets rs s
        else process_adapt cliopt tc b8 brgb packets flush flush_err rs s) := by
  have hd : is_direct_format cliopt.b_rgb stream = true ↔
      (stream.codec_id = .RAWVIDEO ∧
        stream.format = (if cliopt.b_rgb then AVPixelFormat.RGB48LE else .YUYV422)) := by
    unfold is_direct_format
    cases cliopt.b_rgb <;> simp
  unfold open_input at h
  simp only at h
  split_ifs at h with h1 h2 h3 h4 h5 h6
  · simp only [Except.ok.injEq, Prod.mk.injEq] at h
    obtain ⟨htc, -, hlog⟩ := h
    have hc := hd.mp h3
    subst htc
    refine ⟨⟨fun _ => hc, fun _ => rfl⟩, ?_, ?_⟩
    · rw [if_pos hc]; exact hlog.symm
    · intro b8 brgb packets flush flush_err rs s
      rw [if_pos hc]
      simp [process_body]
  · simp only [Except.ok.injEq, Prod.mk.injEq] at h
    obtain ⟨htc, -, hlog⟩ := h
    have hc : ¬ (stream.codec_id = .RAWVIDEO ∧
        stream.format = (if cliopt.b_rgb then AVPixelFormat.RGB48LE else .YUYV422)) :=
      fun hc => h3 (hd.mpr hc)
    have hnone : stream.codec_id ≠ .NONE := by
      intro hn
      simp [hn] at h2
    subst htc
    refine ⟨⟨fun hn => absurd hn hnone, fun hx => absurd hx hc⟩, ?_, ?_⟩
    · rw [if_neg hc]; exact hlog.symm
    · intro b8 brgb packets flush flush_err rs s
      rw [if_neg hc]
      simp [process_body, hnone]

/-- A raw YUYV422 stream without the RGB flag takes the direct path. -/
theorem direct_path_rule_witness :
    ((⟨false, ⟨0, .RAWVIDEO, .YUYV422, 720, 480⟩, .NONE, false, false⟩ :
        CFHD_Transcoder).dec_codec_id = .NONE ↔
      ((⟨0, .RAWVIDEO, .YUYV422, 720, 480⟩ : InputStream).codec_id = .RAWVIDEO ∧
        (⟨0, .RAWVIDEO, .YUYV422, 720, 480⟩ : InputStream).format =
          (if (⟨"fs1", false, 0, 0, false⟩ : CliOptions).b_rgb
            then AVPixelFormat.RGB48LE else .YUYV422))) :=
  (direct_path_rule ⟨"fs1", false, 0, 0, false⟩ ⟨0, .RAWVIDEO, .YUYV422, 720, 480⟩ [] []
    ⟨false, ⟨0, .RAWVIDEO, .YUYV422, 720, 480⟩, .NONE, false, false⟩ [] rfl).1

/-- C7 (working-format policy). For every input and every option set, the
encoder `process` constructs has the working format RG48 with encoded format
RGB_444 when the RGB flag is set; otherwise YUY2 when the first component of
the source format is 8 bits deep and V210 when it is deeper than 8 bits, both
with encoded format YUV_422. -/
theorem working_format_policy (YUV_601 hw : Nat) (cliopt : CliOptions) (tc : CFHD_Transcoder)
    (input_desc : AVPixFmtDescriptor) :
    (cliopt.b_rgb = true →
      (process_encoder YUV_601 hw cliopt tc input_desc).pix_fmt = .RG48 ∧
      (process_encoder YUV_601 hw cliopt tc input_desc).enc_fmt = .RGB_444) ∧
    (cliopt.b_rgb = false → input_desc.depth = 8 →
      (process_encoder YUV_601 hw cliopt tc input_desc).pix_fmt = .YUY2 ∧
      (process_encoder YUV_601 hw cliopt tc input_desc).enc_fmt = .YUV_422) ∧
    (cliopt.b_rgb = false → 8 < input_desc.depth →
      (process_encoder YUV_601 hw cliopt tc input_desc).pix_fmt = .V210 ∧
      (process_encoder YUV_601 hw cliopt tc input_desc).enc_fmt = .YUV_422) := by
  unfold process_encoder CFHD_Encoder.new select_format
  refine ⟨fun h => ?_, fun h h8 => ?_, fun h h8 => ?_⟩
  · simp [h]
  · simp [h, h8]
  · have : input_desc.depth ≠ 8 := by omega
    simp [h, this]

/-- The three cases at concrete inputs: RGB flag with a 10-bit source, 8-bit
YUV source, 10-bit YUV source. -/
theorem working_format_policy_witness :
    (process_encoder 4 8 ⟨"fs1", true, 0, 0, false⟩
      ⟨false, ⟨0, .other 1, .YUV422P10LE, 1920, 1080⟩, .other 1, false, false⟩
      ⟨10, false⟩).pix_fmt = .RG48 ∧
    (process_encoder 4 8 ⟨"fs1", false, 0, 0, false⟩
      ⟨false, ⟨0, .RAWVIDEO, .YUYV422, 720, 480⟩, .NONE, false, false⟩
      ⟨8, false⟩).pix_fmt = .YUY2 ∧
    (process_encoder 4 8 ⟨"fs1", false, 0, 0, false⟩
      ⟨false, ⟨0, .other 1, .YUV422P10LE, 1920, 1080⟩, .other 1, false, false⟩
      ⟨10, false⟩).pix_fmt = .V210 :=
  ⟨((working_format_policy 4 8 ⟨"fs1", true, 0, 0, false⟩
      ⟨false, ⟨0, .other 1, .YUV422P10LE, 1920, 1080⟩, .other 1, false, false⟩
      ⟨10, false⟩).1 rfl).1,
   ((working_format_policy 4 8 ⟨"fs1", false, 0, 0, false⟩
      ⟨false, ⟨0, .RAWVIDEO, .YUYV422, 720, 480⟩, .NONE, false, false⟩
      ⟨8, false⟩).2.1 rfl rfl).1,
   ((working_format_policy 4 8 ⟨"fs1", false, 0, 0, false⟩
      ⟨false, ⟨0, .other 1, .YUV422P10LE, 1920, 1080⟩, .other 1, false, false⟩
      ⟨10, false⟩).2.2 rfl (by decide)).1⟩

theorem select_format_flags (Y : Nat) (w : Int) (b : Bool) (trc : Int) :
    (select_format Y w b 0 trc).2.2 = if trc = 601 ∨ (trc = 0 ∧ w ≤ 720) then Y else 0 := by
  unfold select_format CFHD_ENCODING_FLAGS_NONE
  simp only [ne_eq, not_true_eq_false, ↓reduceIte, Nat.zero_or]
  split_ifs <;> first | rfl | omega

/-- C8 (transfer characteristic in YUV mode). For every value of the SDK
constant `CFHD_ENCODING_FLAGS_YUV_601` other than zero, every `trc` (in
particular 0, 601 and 709), every frame width and every other constructor
argument, with the RGB flag clear: the BT.601 flag is set in the encoder's flags
if and only if `trc` is 601, or `trc` is 0 and the width is at most 720; with
`trc` 709 it is clear and with `trc` 601 it is set, whatever the width. -/
theorem trc_flag_selection (YUV_601 : Nat) (hY : YUV_601 ≠ 0) (g_width : Int) (hw : Nat)
    (input_is_8_bit : Bool) (quality : String) (trc threads : Int) :
    (has_flag (CFHD_Encoder.new YUV_601 g_width hw input_is_8_bit 0 quality trc threads).flags
        YUV_601 = true ↔ (trc = 601 ∨ (trc = 0 ∧ g_width ≤ 720))) ∧
    has_flag (CFHD_Encoder.new YUV_601 g_width hw input_is_8_bit 0 quality 709 threads).flags
        YUV_601 = false ∧
    has_flag (CFHD_Encoder.new YUV_601 g_width hw input_is_8_bit 0 quality 601 threads).flags
        YUV_601 = true := by
  have key : ∀ t : Int,
      (CFHD_Encoder.new YUV_601 g_width hw input_is_8_bit 0 quality t threads).flags
        = if t = 601 ∨ (t = 0 ∧ g_width ≤ 720) then YUV_601 else 0 :=
    fun t => select_format_flags YUV_601 g_width input_is_8_bit t
  refine ⟨?_, ?_, ?_⟩
  · rw [key]
    unfold has_flag
    split_ifs with hc
    · simp [hc, hY]
    · simp [hc]
  · rw [key]
    unfold has_flag
    simp
  · rw [key]
    unfold has_flag
    simp [hY]

/-- With the flag value 4: a 720 wide frame without override gets the flag, a
1920 wide one does not. -/
theorem trc_flag_selection_witness :
    (has_flag (CFHD_Encoder.new 4 720 8 true 0 "fs1" 0 0).flags 4 = true ↔
      ((0 : Int) = 601 ∨ ((0 : Int) = 0 ∧ (720 : Int) ≤ 720))) ∧
    has_flag (CFHD_Encoder.new 4 1920 8 true 0 "fs1" 0 0).flags 4 = false :=
  ⟨(trc_flag_selection 4 (by decide) 720 8 true "fs1" 0 0).1, by decide⟩

theorem to_float_small (n : Nat) (h : n ≤ 16777216) : to_float n = n := by
  rcases Nat.lt_or_ge n 16777216 with h1 | h1
  · simp [to_float, h1]
  · have : n = 16777216 := by omega
    subst this
    decide

theorem compute_queue_size_small (t : Int) (h1 : 1 ≤ t) (h2 : t ≤ 16777216) :
    compute_queue_size t = (3 * t + 1) / 2 ∧ 1 ≤ compute_queue_size t := by
  have hn : to_float t.toNat = t.toNat := to_float_small _ (by omega)
  unfold compute_queue_size
  rw [hn]
  unfold round_times_1_5 double_to_int
  constructor
  · split_ifs <;> omega
  · split_ifs <;> omega

theorem start_enc (s : St) : (start s).2.enc = s.enc := by
  unfold start
  simp only [St.emit]
  repeat' split
  all_goals simp only [next_err_enc]

theorem pop_queue_size (r : PoolReply) (s s' : St) (b : Bool) (hp : pop r s = some (b, s')) :
    s'.enc.queue_size = s.enc.queue_size := by
  rcases pop_spec hp with ⟨_, _, rfl⟩ | ⟨f, buf, _, _, rfl⟩ |
    ⟨f, buf, data, size, i, slot, _, _, _, _, rfl⟩ <;> rfl

theorem push_store_queue_size (g_height : Int) (data : List Nat)
    (pitch frame_num pts duration : Int) (s : St) (b : Bool) (s' : St)
    (hp : push_store g_height data pitch frame_num pts duration s = some (b, s')) :
    s'.enc.queue_size = s.enc.queue_size := by
  rcases push_store_spec hp with ⟨_, rfl⟩ | ⟨i, queue, errs, _, ⟨_, rfl⟩ | ⟨_, rfl⟩⟩
  · rw [next_err_enc]
  · rfl
  · rfl

/-- C9 as stated fails for thread counts that a `float` cannot hold: with
`-t 16777217` the conversion `(float)threads` yields 16777216, and
`queue_size` becomes 25165824 instead of 1.5 * 16777217 rounded, 25165826. -/
theorem queue_size_counterexample :
    (CFHD_Encoder.new 4 1920 8 true 0 "fs1" 0 16777217).threads = 16777217 ∧
    (CFHD_Encoder.new 4 1920 8 true 0 "fs1" 0 16777217).queue_size = 25165824 ∧
    (3 * (16777217 : Int) + 1) / 2 = 25165826 ∧
    ¬ ((CFHD_Encoder.new 4 1920 8 true 0 "fs1" 0 16777217).queue_size
        = (3 * (CFHD_Encoder.new 4 1920 8 true 0 "fs1" 0 16777217).threads + 1) / 2) := by
  decide

/-- C9, amended. For every encoder whose resolved thread count `t` is at most
`2^24 = 16777216` (it is always at least 1), `queue_size` equals 1.5 * t
rounded to the nearest integer with halves rounded up, `(3t + 1) / 2`, and is
at least 1; and neither `start` nor `pop` nor `push` changes `queue_size`,
however they end. -/
theorem queue_size_value (YUV_601 : Nat) (g_width : Int) (hw : Nat) (input_is_8_bit : Bool)
    (rgb : Int) (quality : String) (trc threads : Int)
    (ht : (CFHD_Encoder.new YUV_601 g_width hw input_is_8_bit rgb quality trc threads).threads
      ≤ 16777216) :
    (CFHD_Encoder.new YUV_601 g_width hw input_is_8_bit rgb quality trc threads).queue_size
      = (3 * (CFHD_Encoder.new YUV_601 g_width hw input_is_8_bit rgb quality trc
          threads).threads + 1) / 2 ∧
    1 ≤ (CFHD_Encoder.new YUV_601 g_width hw input_is_8_bit rgb quality trc threads).queue_size ∧
    (∀ s : St, (start s).2.enc.queue_size = s.enc.queue_size) ∧
    (∀ (r : PoolReply) (s s' : St) (b : Bool), pop r s = some (b, s') →
      s'.enc.queue_size = s.enc.queue_size) ∧
    (∀ (g_height : Int) (data : List Nat) (pitch frame_num pts duration : Int)
      (rs rest : List PoolReply) (s s' : St) (ok : Bool),
      (push g_height data pitch frame_num pts duration rs s = .ret ok s' rest ∨
        push g_height data pitch frame_num pts duration rs s = .stalled s') →
      s'.enc.queue_size = s.enc.queue_size) := by
  have h1 : 1 ≤ resolve_threads hw threads := by
    unfold resolve_threads to_int32 to_uint32
    dsimp only
    split_ifs <;> omega
  have h2 := compute_queue_size_small (resolve_threads hw threads) h1 ht
  refine ⟨h2.1, h2.2, fun s => by rw [start_enc], pop_queue_size, ?_⟩
  intro g_height data pitch frame_num pts duration rs rest s s' ok h
  have hp := push_preserves (fun x => x.enc.queue_size = s.enc.queue_size) g_height data pitch
    frame_num pts duration
    (fun r a b a' ha hp => (pop_queue_size r a a' b hp).trans ha)
    (fun a b a' ha _ hp =>
      (push_store_queue_size g_height data pitch frame_num pts duration a b a' hp).trans ha)
    rs s rfl
  rcases h with h | h
  · exact hp.1 ok s' rest h
  · exact hp.2 s' h

/-- Two threads give capacity 3, three threads give capacity 5. -/
theorem queue_size_value_witness :
    (CFHD_Encoder.new 4 1920 8 true 0 "fs1" 0 2).queue_size = 3 ∧
    (CFHD_Encoder.new 4 1920 8 true 0 "fs1" 0 3).queue_size = 5 ∧
    (CFHD_Encoder.new 4 1920 8 true 0 "fs1" 0 1).queue_size
      = (3 * (CFHD_Encoder.new 4 1920 8 true 0 "fs1" 0 1).threads + 1) / 2 :=
  ⟨by decide, by decide,
    (queue_size_value 4 1920 8 true 0 "fs1" 0 1 (by decide)).1⟩

/-- C10 as stated fails for values of `hardware_concurrency()` above `2^31`:
for 2147483649 the unsigned difference 2147483648 converts to a negative `int`,
so the thread count becomes 1, not max(h - 1, 1) = 2147483648. -/
theorem thread_count_counterexample :
    (CFHD_Encoder.new 4 1920 2147483649 true 0 "fs1" 0 0).threads = 1 ∧
    max ((2147483649 : Int) - 1) 1 = 2147483648 ∧
    ¬ ((CFHD_Encoder.new 4 1920 2147483649 true 0 "fs1" 0 0).threads
        = max ((2147483649 : Int) - 1) 1) := by
  decide

/-- C10, amended. For every requested thread option `t` (option validation
accepts `t ≥ 0`) and every value `h` of `hardware_concurrency()` below `2^32`: the encoder's thread count is `t`
when `t > 0`; otherwise it is max(h - 1, 1) when `h ≤ 2^31`, and 1 when
`h > 2^31` (the unsigned difference then converts to a negative `int`); in
every case it is at least 1. -/
theorem thread_count (YUV_601 : Nat) (g_width : Int) (hw : Nat) (input_is_8_bit : Bool)
    (rgb : Int) (quality : String) (trc threads : Int) (hhw : hw < 4294967296) :
    (CFHD_Encoder.new YUV_601 g_width hw input_is_8_bit rgb quality trc threads).threads =
      (if threads > 0 then threads
       else if hw ≤ 2147483648 then max ((hw : Int) - 1) 1 else 1) ∧
    1 ≤ (CFHD_Encoder.new YUV_601 g_width hw input_is_8_bit rgb quality trc threads).threads := by
  show resolve_threads hw threads = _ ∧ 1 ≤ resolve_threads hw threads
  unfold resolve_threads to_int32 to_uint32
  dsimp only
  constructor
  · split_ifs <;> omega
  · split_ifs <;> omega

/-- Eight hardware threads and no option give 7; zero and one hardware thread
give 1; an explicit option wins. -/
theorem thread_count_witness :
    (CFHD_Encoder.new 4 1920 8 true 0 "fs1" 0 0).threads = 7 ∧
    (CFHD_Encoder.new 4 1920 0 true 0 "fs1" 0 0).threads = 1 ∧
    (CFHD_Encoder.new 4 1920 1 true 0 "fs1" 0 0).threads = 1 ∧
    (CFHD_Encoder.new 4 1920 8 true 0 "fs1" 0 5).threads =
      (if (5 : Int) > 0 then 5 else if 8 ≤ 2147483648 then max (((8 : Nat) : Int) - 1) 1 else 1) :=
  ⟨by decide, by decide, by decide,
    (thread_count 4 1920 8 true 0 "fs1" 0 5 (by decide)).1⟩

/-! ## The slot index -/

/-- C11 (slot index mapping). For every capacity `C` and frame number `f` that
are `int` values with `C ≥ 1` and `f ≥ 1`: the index `push` computes with
signed arithmetic and the index `pop` computes with unsigned arithmetic for the
same frame number are defined and equal, both are `(f - 1) mod C`, and they lie
in the range `0 ≤ index < C`. -/
theorem slot_index_mapping (C f : Int) (hC : 1 ≤ C) (hC2 : C ≤ INT_MAX) (hf : 1 ≤ f)
    (hf2 : f ≤ INT_MAX) :
    push_index f C = some ((f - 1) % C) ∧ pop_index f.toNat C = some ((f - 1) % C) ∧
    push_index f C = pop_index f.toNat C ∧ 0 ≤ (f - 1) % C ∧ (f - 1) % C < C := by
  have h1 := push_index_eq f C hf hC
  have h2 := pop_index_eq f.toNat C (by omega) (by unfold INT_MAX at hf2; omega) hC
    (by unfold INT_MAX at hC2; omega)
  have h3 : ((f.toNat : Nat) : Int) = f := by omega
  rw [h3] at h2
  exact ⟨h1, h2, by rw [h1, h2], Int.emod_nonneg _ (by omega), Int.emod_lt_of_pos _ (by omega)⟩

/-- Capacity 3: frames 1, 4 and 7 share slot 0, frame 6 has slot 2. -/
theorem slot_index_mapping_witness :
    push_index 4 3 = some 0 ∧ pop_index 4 3 = some 0 ∧ push_index 6 3 = some 2 ∧
    (push_index 7 3 = some ((7 - 1) % 3) ∧ pop_index (7 : Int).toNat 3 = some ((7 - 1) % 3) ∧
      push_index 7 3 = pop_index (7 : Int).toNat 3 ∧ (0 : Int) ≤ (7 - 1) % 3 ∧
      ((7 : Int) - 1) % 3 < 3) :=
  ⟨by decide, by decide, by decide,
    slot_index_mapping 3 7 (by decide) (by decide) (by decide) (by decide)⟩

/-! ## The two transfer-characteristic decisions -/

/-- C20 (the two transfer-characteristic decisions agree). For every value of
the SDK constant `CFHD_ENCODING_FLAGS_YUV_601` other than zero, every `trc`
among 0, 601 and 709 (the values option validation lets through), every frame
width and every other constructor argument, with the RGB flag clear: the
constructor sets the BT.601 flag if and only if `init_scaler` selects the
BT.601 table (`AVCOL_SPC_BT470BG`), and leaves it clear if and only if
`init_scaler` selects BT.709. -/
theorem trc_decisions_agree (YUV_601 : Nat) (hY : YUV_601 ≠ 0) (g_width : Int) (hw : Nat)
    (input_is_8_bit : Bool) (quality : String) (trc threads : Int)
    (htrc : trc = 0 ∨ trc = 601 ∨ trc = 709) :
    (has_flag (CFHD_Encoder.new YUV_601 g_width hw input_is_8_bit 0 quality trc threads).flags
        YUV_601 = true ↔ scaler_colorspace trc g_width = .BT470BG) ∧
    (has_flag (CFHD_Encoder.new YUV_601 g_width hw input_is_8_bit 0 quality trc threads).flags
        YUV_601 = false ↔ scaler_colorspace trc g_width = .BT709) := by
  have key : (CFHD_Encoder.new YUV_601 g_width hw input_is_8_bit 0 quality trc threads).flags
      = if trc = 601 ∨ (trc = 0 ∧ g_width ≤ 720) then YUV_601 else 0 :=
    select_format_flags YUV_601 g_width input_is_8_bit trc
  rw [key]
  unfold has_flag scaler_colorspace
  rcases htrc with h | h | h <;> subst h <;> by_cases hw7 : g_width ≤ 720 <;> simp [hw7, hY]

/-- Without override a 720 wide frame gets BT.601 on both sides, a 1920 wide
one BT.709 on both sides. -/
theorem trc_decisions_agree_witness :
    scaler_colorspace 0 720 = .BT470BG ∧ scaler_colorspace 0 1920 = .BT709 ∧
    has_flag (CFHD_Encoder.new 4 1920 8 true 0 "fs1" 0 0).flags 4 = false ∧
    (has_flag (CFHD_Encoder.new 4 720 8 true 0 "fs1" 0 0).flags 4 = true ↔
      scaler_colorspace 0 720 = .BT470BG) :=
  ⟨by decide, by decide, by decide,
    (trc_decisions_agree 4 (by decide) 720 8 true "fs1" 0 0 (Or.inl rfl)).1⟩

/-! ## The scenarios of the specification -/

theorem is_direct_format_iff (b_rgb : Bool) (stream : InputStream) :
    is_direct_format b_rgb stream = true ↔
      (stream.codec_id = .RAWVIDEO ∧
        stream.format = (if b_rgb then AVPixelFormat.RGB48LE else .YUYV422)) := by
  unfold is_direct_format
  cases b_rgb <;> simp

/-- What `open_input` leaves behind when it returns. -/
theorem open_input_ok (cliopt : CliOptions) (stream : InputStream) (errs errs' : List Bool)
    (tc : CFHD_Transcoder) (log : List Event)
    (h : open_input cliopt stream errs = .ok (tc, errs', log)) :
    tc.input = stream ∧ tc.b_video_only = cliopt.b_video_only ∧ tc.sws_ctx = false ∧
    tc.v210_ctx = false ∧ stream.codec_id ≠ .NONE ∧
    tc.dec_codec_id = (if is_direct_format cliopt.b_rgb stream then .NONE else stream.codec_id) ∧
    log = (if is_direct_format cliopt.b_rgb stream then []
      else [.open_decoder stream.codec_id]) := by
  unfold open_input at h
  simp only at h
  have hnone : ∀ e : Bool, ¬ ((e || decide (stream.codec_id = .NONE)) = true) →
      stream.codec_id ≠ .NONE := by
    intro e he hn
    simp [hn] at he
  split_ifs at h with h1 h2 h3 h4 h5 h6
  · simp only [Except.ok.injEq, Prod.mk.injEq] at h
    obtain ⟨htc, -, hlog⟩ := h
    subst htc
    exact ⟨rfl, rfl, rfl, rfl, hnone _ h2, by rw [if_pos h3], by rw [if_pos h3]; exact hlog.symm⟩
  · simp only [Except.ok.injEq, Prod.mk.injEq] at h
    obtain ⟨htc, -, hlog⟩ := h
    subst htc
    exact ⟨rfl, rfl, rfl, rfl, hnone _ h2, by rw [if_neg h3], by rw [if_neg h3]; exact hlog.symm⟩

/-- An 8-bit YUV stream that is not raw video (codec 27, planar format 0),
720x480, no RGB flag, no forced `trc`: the working format is YUY2 and the
BT.601 flag is set, but `open_input` opens the decoder and `process` decodes,
scales to YUYV422 and only then pushes: the run is not in direct mode. -/
theorem sd_yuv_scenario_counterexample :
    av_pix_fmt_desc_get (fun _ => { depth := 8, rgb := false }) (.other 0)
      = some { depth := 8, rgb := false } ∧
    open_input ⟨"fs1", false, 0, 0, false⟩ ⟨0, .other 27, .other 0, 720, 480⟩ []
      = .ok (⟨false, ⟨0, .other 27, .other 0, 720, 480⟩, .other 27, false, false⟩, [],
          [.open_decoder (.other 27)]) ∧
    (process_encoder 4 8 ⟨"fs1", false, 0, 0, false⟩
      ⟨false, ⟨0, .other 27, .other 0, 720, 480⟩, .other 27, false, false⟩
      { depth := 8, rgb := false }).pix_fmt = .YUY2 ∧
    (process 4 8 (fun _ => { depth := 8, rgb := false }) ⟨"fs1", false, 0, 0, false⟩
      ⟨false, ⟨0, .other 27, .other 0, 720, 480⟩, .other 27, false, false⟩
      [⟨0, [1, 2], 10, 1, [⟨10, 1, [5, 6], 1, [7, 8], 1, []⟩], false⟩] [] false
      [.ready 1 7 (some (9, 100))] []).final.map (fun s => s.log)
      = some [.trailer true, .release 7, .write 0 1 10 1 true, .retrieve 1 10 1, .poll 0,
          .submit 1 0 true, .store 0 1 10 1, .init_scaler .YUYV422 false .BT470BG,
          .prepare .YUY2 .YUV_422 4 .FILMSCAN1, .create_pool 7 11] ∧
    (⟨false, ⟨0, .other 27, .other 0, 720, 480⟩, .other 27, false, false⟩ :
      CFHD_Transcoder).dec_codec_id ≠ .NONE ∧
    (∀ (packets : List Packet) (flush : List Frame) (flush_err : Bool) (rs : List PoolReply)
        (s : St),
      process_body ⟨"fs1", false, 0, 0, false⟩
          ⟨false, ⟨0, .other 27, .other 0, 720, 480⟩, .other 27, false, false⟩ true false
          packets flush flush_err rs s
        = process_adapt ⟨"fs1", false, 0, 0, false⟩
            ⟨false, ⟨0, .other 27, .other 0, 720, 480⟩, .other 27, false, false⟩ true false
            packets flush flush_err rs s) := by
  refine ⟨rfl, rfl, by decide, by decide, by decide, fun _ _ _ _ _ => rfl⟩

theorem process_eq (YUV_601 hw : Nat) (others : Nat → AVPixFmtDescriptor) (cliopt : CliOptions)
    (tc : CFHD_Transcoder) (d : AVPixFmtDescriptor) (packets : List Packet)
    (flush : List Frame) (flush_err : Bool) (rs : List PoolReply) (errs : List Bool)
    (hd : av_pix_fmt_desc_get others tc.input.format = some d) :
    process YUV_601 hw others cliopt tc packets flush flush_err rs errs =
      if (start ⟨process_encoder YUV_601 hw cliopt tc d, errs, []⟩).1 = true then
        process_body cliopt tc (d.depth == 8) d.rgb packets flush flush_err rs
          (start ⟨process_encoder YUV_601 hw cliopt tc d, errs, []⟩).2
      else .thrown 4 (start ⟨process_encoder YUV_601 hw cliopt tc d, errs, []⟩).2 := by
  unfold process
  rw [hd]
  simp only
  cases (start ⟨process_encoder YUV_601 hw cliopt tc d, errs, []⟩).1 <;> simp

/-- C12 (scenario: 8-bit YUV input of width at most 720, no RGB flag, no forced
`trc`). For every input video stream whose pixel format is 8 bits deep and not
RGB, of width at most 720, with the RGB flag clear and `trc` 0, whenever
`open_input` returns: the encoder `process` constructs has the working format
YUY2 and the BT.601 flag set; the run is in direct mode (no decoder is opened
and `process` runs `encode`) if and only if the stream is raw video in the
format YUYV422, and in every other case the decoder is opened and `process`
runs the decode path, which scales to YUYV422. -/
theorem sd_yuv_scenario (YUV_601 hw : Nat) (others : Nat → AVPixFmtDescriptor)
    (cliopt : CliOptions) (stream : InputStream) (errs errs' : List Bool)
    (tc : CFHD_Transcoder) (log : List Event) (d : AVPixFmtDescriptor)
    (hY : YUV_601 ≠ 0) (hrgb : cliopt.b_rgb = false) (htrc : cliopt.trc = 0)
    (hd : av_pix_fmt_desc_get others stream.format = some d) (h8 : d.depth = 8)
    (hyuv : d.rgb = false) (hw720 : stream.width ≤ 720)
    (h : open_input cliopt stream errs = .ok (tc, errs', log)) :
    (process_encoder YUV_601 hw cliopt tc d).pix_fmt = .YUY2 ∧
    has_flag (process_encoder YUV_601 hw cliopt tc d).flags YUV_601 = true ∧
    (tc.dec_codec_id = .NONE ↔ (stream.codec_id = .RAWVIDEO ∧ stream.format = .YUYV422)) ∧
    (log = if stream.codec_id = .RAWVIDEO ∧ stream.format = .YUYV422 then []
      else [.open_decoder stream.codec_id]) ∧
    select_new_pix_fmt cliopt.b_rgb (d.depth == 8) stream.format = .YUYV422 ∧
    (∀ (packets : List Packet) (flush : List Frame) (flush_err : Bool) (rs : List PoolReply)
        (errs2 : List Bool),
      process YUV_601 hw others cliopt tc packets flush flush_err rs errs2 =
        if (start ⟨process_encoder YUV_601 hw cliopt tc d, errs2, []⟩).1 = true then
          if stream.codec_id = .RAWVIDEO ∧ stream.format = .YUYV422 then
            process_direct tc packets rs
              (start ⟨process_encoder YUV_601 hw cliopt tc d, errs2, []⟩).2
          else
            process_adapt cliopt tc true false packets flush flush_err rs
              (start ⟨process_encoder YUV_601 hw cliopt tc d, errs2, []⟩).2
        else .thrown 4 (start ⟨process_encoder YUV_601 hw cliopt tc d, errs2, []⟩).2) := by
  obtain ⟨hin, -, -, -, hnone, hdec, hlog⟩ := open_input_ok cliopt stream errs errs' tc log h
  have hdir := is_direct_format_iff cliopt.b_rgb stream
  rw [hrgb] at hdir
  simp only [Bool.false_eq_true, ↓reduceIte] at hdir
  rw [hrgb] at hdec hlog
  have hflags : (process_encoder YUV_601 hw cliopt tc d).flags = YUV_601 := by
    have := select_format_flags YUV_601 tc.input.width (d.depth == 8) cliopt.trc
    unfold process_encoder CFHD_Encoder.new
    rw [hrgb]
    simp only [Bool.false_eq_true, ↓reduceIte]
    rw [this, htrc, hin]
    simp [hw720]
  refine ⟨?_, ?_, ?_, ?_, ?_, ?_⟩
  · unfold process_encoder CFHD_Encoder.new select_format
    simp [hrgb, h8]
  · rw [hflags]
    unfold has_flag
    simp [hY]
  · rw [hdec, ← hdir]
    by_cases hx : is_direct_format false stream = true
    · simp [hx]
    · simp [hx, hnone]
  · rw [hlog]
    by_cases hx : is_direct_format false stream = true
    · rw [if_pos hx, if_pos (hdir.mp hx)]
    · rw [if_neg hx, if_neg (fun hc => hx (hdir.mpr hc))]
  · unfold select_new_pix_fmt
    simp [hrgb, h8]
  · intro packets flush flush_err rs errs2
    rw [process_eq YUV_601 hw others cliopt tc d packets flush flush_err rs errs2
      (by rw [hin]; exact hd)]
    have h8b : (d.depth == 8) = true := by simp [h8]
    rw [h8b, hyuv]
    unfold process_body
    rw [hdec]
    by_cases hx : is_direct_format false stream = true
    · simp [hx, hdir.mp hx]
    · have hc : ¬ (stream.codec_id = .RAWVIDEO ∧ stream.format = .YUYV422) :=
        fun hc => hx (hdir.mpr hc)
      simp only [hx, hc]
      simp [hnone]

/-- Raw YUYV422 video, 720x480: direct mode, YUY2, BT.601. -/
theorem sd_yuv_scenario_witness :
    (process_encoder 4 8 ⟨"fs1", false, 0, 0, false⟩
      ⟨false, ⟨0, .RAWVIDEO, .YUYV422, 720, 480⟩, .NONE, false, false⟩
      { depth := 8, rgb := false }).pix_fmt = .YUY2 ∧
    has_flag (process_encoder 4 8 ⟨"fs1", false, 0, 0, false⟩
      ⟨false, ⟨0, .RAWVIDEO, .YUYV422, 720, 480⟩, .NONE, false, false⟩
      { depth := 8, rgb := false }).flags 4 = true ∧
    ((⟨false, ⟨0, .RAWVIDEO, .YUYV422, 720, 480⟩, .NONE, false, false⟩ :
        CFHD_Transcoder).dec_codec_id = .NONE ↔
      ((⟨0, .RAWVIDEO, .YUYV422, 720, 480⟩ : InputStream).codec_id = .RAWVIDEO ∧
        (⟨0, .RAWVIDEO, .YUYV422, 720, 480⟩ : InputStream).format = .YUYV422)) :=
  have h := sd_yuv_scenario 4 8 (fun _ => { depth := 8, rgb := false })
    ⟨"fs1", false, 0, 0, false⟩ ⟨0, .RAWVIDEO, .YUYV422, 720, 480⟩ [] []
    ⟨false, ⟨0, .RAWVIDEO, .YUYV422, 720, 480⟩, .NONE, false, false⟩ []
    { depth := 8, rgb := false } (by decide) rfl rfl rfl rfl rfl (by decide) rfl
  ⟨h.1, h.2.1, h.2.2.1⟩

theorem init_v210_encoder_log (s : St) :
    (init_v210_encoder s).2.log = s.log ∨ (init_v210_encoder s).2.log = .init_v210 :: s.log := by
  unfold init_v210_encoder
  dsimp only
  split_ifs <;> simp [St.emit, next_err_log]

theorem init_scaler_log (tc : CFHD_Transcoder) (f : AVPixelFormat) (accurate : Bool) (trc : Int)
    (s : St) :
    (init_scaler tc f accurate trc s).2.log =
      if (init_scaler tc f accurate trc s).1 = true then
        .init_scaler f accurate (scaler_colorspace trc tc.input.width) :: s.log
      else s.log := by
  unfold init_scaler
  dsimp only
  split_ifs <;> simp_all [St.emit, next_err_log]

/-- The decode path of `process` is the set-up followed by `transcode` and the
flush (`v210_ctx` is null when `process` starts). -/
theorem process_adapt_eq (cliopt : CliOptions) (tc : CFHD_Transcoder)
    (input_is_8_bit input_is_rgb : Bool) (packets : List Packet) (flush : List Frame)
    (flush_err : Bool) (rs : List PoolReply) (s : St) (hv : tc.v210_ctx = false) :
    process_adapt cliopt tc input_is_8_bit input_is_rgb packets flush flush_err rs s =
      if (process_setup cliopt tc input_is_8_bit input_is_rgb s).1 = true then
        or_throw (transcode (process_setup cliopt tc input_is_8_bit input_is_rgb s).2.2 flush
            flush_err packets 0 rs (process_setup cliopt tc input_is_8_bit input_is_rgb s).2.1)
          fun s2 rs2 =>
            process_flush (process_setup cliopt tc input_is_8_bit input_is_rgb s).2.2 rs2 s2
      else .thrown 4 (process_setup cliopt tc input_is_8_bit input_is_rgb s).2.1 := by
  obtain ⟨vo, inp, dc, sw, v2⟩ := tc
  simp only at hv
  subst hv
  unfold process_adapt process_setup select_new_pix_fmt
  dsimp only
  generalize s.next_err = p1
  obtain ⟨e1, s1⟩ := p1
  dsimp only
  generalize s1.next_err = p2
  obtain ⟨e2, s2⟩ := p2
  dsimp only
  by_cases he : (e1 || e2) = true
  · simp only [he, ↓reduceIte, Bool.false_eq_true]
  · simp only [he, ↓reduceIte, Bool.false_eq_true]
    cases hb : cliopt.b_rgb <;> cases input_is_8_bit
    · simp only [Bool.false_eq_true, ↓reduceIte, Bool.not_false, Bool.and_self]
      generalize init_v210_encoder s2 = p3
      obtain ⟨ok, s3⟩ := p3
      cases ok
      · simp
      · simp only [Bool.not_true, Bool.false_eq_true, ↓reduceIte]
        by_cases hf : inp.format = .YUV422P10LE
        · simp [hf]
        · simp only [ne_eq, hf, not_false_eq_true, ↓reduceIte, reduceCtorEq]
          generalize s3.next_err = p4
          obtain ⟨e3, s4⟩ := p4
          cases e3
          · simp only [Bool.false_eq_true, ↓reduceIte]
            generalize init_scaler _ _ _ _ s4 = p5
            obtain ⟨ok, s5⟩ := p5
            cases ok <;> simp
          · simp
    · simp only [Bool.false_eq_true, ↓reduceIte, Bool.not_false, Bool.not_true, Bool.and_false,
        ne_eq, reduceCtorEq, not_false_eq_true]
      generalize s2.next_err = p4
      obtain ⟨e3, s4⟩ := p4
      cases e3
      · simp only [Bool.false_eq_true, ↓reduceIte]
        generalize init_scaler _ _ _ _ s4 = p5
        obtain ⟨ok, s5⟩ := p5
        cases ok <;> simp
      · simp
    · simp only [Bool.false_eq_true, ↓reduceIte, Bool.not_false, Bool.not_true, Bool.false_and,
        ne_eq, reduceCtorEq, not_false_eq_true]
      generalize s2.next_err = p4
      obtain ⟨e3, s4⟩ := p4
      cases e3
      · simp only [Bool.false_eq_true, ↓reduceIte]
        generalize init_scaler _ _ _ _ s4 = p5
        obtain ⟨ok, s5⟩ := p5
        cases ok <;> simp
      · simp
    · simp only [Bool.false_eq_true, ↓reduceIte, Bool.not_false, Bool.not_true, Bool.false_and,
        ne_eq, reduceCtorEq, not_false_eq_true]
      generalize s2.next_err = p4
      obtain ⟨e3, s4⟩ := p4
      cases e3
      · simp only [Bool.false_eq_true, ↓reduceIte]
        generalize init_scaler _ _ _ _ s4 = p5
        obtain ⟨ok, s5⟩ := p5
        cases ok <;> simp
      · simp

/-- The repack encoder is set up only without the RGB flag and for a source
that is not 8 bits deep. -/
theorem process_setup_v210 (cliopt : CliOptions) (tc : CFHD_Transcoder)
    (input_is_8_bit input_is_rgb : Bool) (s : St) (hv : tc.v210_ctx = false)
    (h : cliopt.b_rgb = true ∨ input_is_8_bit = true) :
    (process_setup cliopt tc input_is_8_bit input_is_rgb s).2.2.v210_ctx = false ∧
    (Event.init_v210 ∈ (process_setup cliopt tc input_is_8_bit input_is_rgb s).2.1.log →
      Event.init_v210 ∈ s.log) ∧
    ((process_setup cliopt tc input_is_8_bit input_is_rgb s).1 = true →
      (process_setup cliopt tc input_is_8_bit input_is_rgb s).2.2.sws_ctx = true ∧
      (process_setup cliopt tc input_is_8_bit input_is_rgb s).2.1.log =
        .init_scaler (if cliopt.b_rgb then .RGB48LE else .YUYV422) (input_is_rgb != cliopt.b_rgb)
          (scaler_colorspace cliopt.trc tc.input.width) :: s.log) := by
  have hch : (if cliopt.b_rgb = true then
        ((true, s.next_err.2.next_err.2, tc, AVPixelFormat.RGB48LE) :
          Bool × St × CFHD_Transcoder × AVPixelFormat)
      else if input_is_8_bit = true then (true, s.next_err.2.next_err.2, tc, .YUYV422)
      else
        ((init_v210_encoder s.next_err.2.next_err.2).1,
          (init_v210_encoder s.next_err.2.next_err.2).2,
          { tc with v210_ctx := (init_v210_encoder s.next_err.2.next_err.2).1 },
          if tc.input.format ≠ .YUV422P10LE then .YUV422P10LE else .NONE))
      = (true, s.next_err.2.next_err.2, tc,
          if cliopt.b_rgb then AVPixelFormat.RGB48LE else .YUYV422) := by
    rcases h with h | h
    · simp [h]
    · cases cliopt.b_rgb <;> simp [h]
  have hne : (if cliopt.b_rgb then AVPixelFormat.RGB48LE else .YUYV422) ≠ .NONE := by
    cases cliopt.b_rgb <;> simp
  have hl := init_scaler_log tc (if cliopt.b_rgb then AVPixelFormat.RGB48LE else .YUYV422)
    (input_is_rgb != cliopt.b_rgb) cliopt.trc s.next_err.2.next_err.2.next_err.2
  unfold process_setup
  dsimp only
  rw [hch]
  generalize (if cliopt.b_rgb then AVPixelFormat.RGB48LE else .YUYV422) = fm at hne hl ⊢
  simp only [Bool.not_true, Bool.false_eq_true, ↓reduceIte, hne, ne_eq, not_false_eq_true]
  split_ifs with h1 h2
  · simp [hv, next_err_log]
  · simp [hv, next_err_log]
  · refine ⟨hv, ?_, ?_⟩
    · dsimp only
      rw [hl]
      split_ifs <;> simp [next_err_log]
    · dsimp only
      intro hok
      rw [hl, if_pos hok]
      simp [next_err_log, hok]

/-- C13 (scenario: 10-bit input with the RGB flag). For every input video stream
whose pixel format has a first component 10 bits deep, with the RGB flag set,
for every `trc` and every width, whenever `open_input` returns: the encoder has
the working format RG48 (encoded as RGB 4:4:4) and its flags are
`CFHD_ENCODING_FLAGS_NONE`, so the BT.601 flag is clear; the decoder has been
opened and `process` runs the decode path; the set-up of that path leaves
`v210_ctx` null, does not initialise the repack encoder, and, when it gets
through, has initialised the scaler with the target RGB48LE. More generally,
for every input and every option set, the set-up initialises the repack encoder
or sets `v210_ctx` only when the RGB flag is clear and the source is not 8 bits
deep. -/
theorem rgb_scenario (YUV_601 hw : Nat) (others : Nat → AVPixFmtDescriptor)
    (cliopt : CliOptions) (stream : InputStream) (errs errs' : List Bool)
    (tc : CFHD_Transcoder) (log : List Event) (d : AVPixFmtDescriptor)
    (hrgb : cliopt.b_rgb = true)
    (hd : av_pix_fmt_desc_get others stream.format = some d) (h10 : d.depth = 10)
    (h : open_input cliopt stream errs = .ok (tc, errs', log)) :
    ((process_encoder YUV_601 hw cliopt tc d).pix_fmt = .RG48 ∧
      (process_encoder YUV_601 hw cliopt tc d).enc_fmt = .RGB_444 ∧
      (process_encoder YUV_601 hw cliopt tc d).flags = CFHD_ENCODING_FLAGS_NONE ∧
      has_flag (process_encoder YUV_601 hw cliopt tc d).flags YUV_601 = false ∧
      select_new_pix_fmt cliopt.b_rgb (d.depth == 8) stream.format = .RGB48LE) ∧
    (tc.dec_codec_id = stream.codec_id ∧ tc.dec_codec_id ≠ .NONE ∧
      log = [.open_decoder stream.codec_id] ∧
      ∀ (packets : List Packet) (flush : List Frame) (flush_err : Bool) (rs : List PoolReply)
          (s : St),
        process_body cliopt tc (d.depth == 8) d.rgb packets flush flush_err rs s =
          if (process_setup cliopt tc false d.rgb s).1 = true then
            or_throw (transcode (process_setup cliopt tc false d.rgb s).2.2 flush flush_err
                packets 0 rs (process_setup cliopt tc false d.rgb s).2.1)
              fun s2 rs2 => process_flush (process_setup cliopt tc false d.rgb s).2.2 rs2 s2
          else .thrown 4 (process_setup cliopt tc false d.rgb s).2.1) ∧
    (∀ s : St,
      (process_setup cliopt tc false d.rgb s).2.2.v210_ctx = false ∧
      (Event.init_v210 ∈ (process_setup cliopt tc false d.rgb s).2.1.log →
        Event.init_v210 ∈ s.log) ∧
      ((process_setup cliopt tc false d.rgb s).1 = true →
        (process_setup cliopt tc false d.rgb s).2.2.sws_ctx = true ∧
        (process_setup cliopt tc false d.rgb s).2.1.log =
          .init_scaler .RGB48LE (!d.rgb) (scaler_colorspace cliopt.trc stream.width)
            :: s.log)) ∧
    (∀ (c : CliOptions) (t : CFHD_Transcoder) (b8 brgb : Bool) (s : St), t.v210_ctx = false →
      ((process_setup c t b8 brgb s).2.2.v210_ctx = true ∨
        (Event.init_v210 ∈ (process_setup c t b8 brgb s).2.1.log ∧ Event.init_v210 ∉ s.log)) →
      c.b_rgb = false ∧ b8 = false) := by
  obtain ⟨hin, -, -, hv, hnone, hdec, hlog⟩ := open_input_ok cliopt stream errs errs' tc log h
  have hfmt : stream.format ≠ .RGB48LE := by
    intro hf
    rw [hf] at hd
    simp only [av_pix_fmt_desc_get, Option.some.injEq] at hd
    rw [← hd] at h10
    simp at h10
  have hdir : is_direct_format cliopt.b_rgb stream = false := by
    unfold is_direct_format
    simp [hrgb, hfmt]
  have h8 : (d.depth == 8) = false := by simp [h10]
  rw [hdir] at hdec hlog
  simp only [Bool.false_eq_true, ↓reduceIte] at hdec hlog
  refine ⟨⟨?_, ?_, ?_, ?_, ?_⟩, ⟨hdec, by rw [hdec]; exact hnone, hlog, ?_⟩, ?_, ?_⟩
  · unfold process_encoder CFHD_Encoder.new select_format
    simp [hrgb]
  · unfold process_encoder CFHD_Encoder.new select_format
    simp [hrgb]
  · unfold process_encoder CFHD_Encoder.new select_format
    simp [hrgb]
  · unfold process_encoder CFHD_Encoder.new select_format has_flag CFHD_ENCODING_FLAGS_NONE
    simp [hrgb]
  · unfold select_new_pix_fmt
    simp [hrgb]
  · intro packets flush flush_err rs s
    unfold process_body
    rw [hdec, if_neg hnone, h8]
    exact process_adapt_eq cliopt tc false d.rgb packets flush flush_err rs s hv
  · intro s
    have := process_setup_v210 cliopt tc false d.rgb s hv (Or.inl hrgb)
    rw [hrgb, hin] at this
    simpa using this
  · intro c t b8 brgb s ht hor
    by_contra hcon
    have hc : c.b_rgb = true ∨ b8 = true := by
      cases hb : c.b_rgb <;> cases hb8 : b8 <;> simp_all
    obtain ⟨h1, h2, -⟩ := process_setup_v210 c t b8 brgb s ht hc
    rcases hor with hor | ⟨hor, hnot⟩
    · rw [h1] at hor
      exact Bool.false_ne_true hor
    · exact hnot (h2 hor)

/-- A 10-bit 1920x1080 stream (codec 147, format YUV422P10LE) with the RGB flag:
RG48, no flags, the set-up initialises only the scaler, with the target
RGB48LE; `v210_ctx` stays null. -/
theorem rgb_scenario_witness :
    process_setup ⟨"fs1", true, 0, 0, false⟩
      ⟨false, ⟨0, .other 147, .YUV422P10LE, 1920, 1080⟩, .other 147, false, false⟩ false false
      ⟨CFHD_Encoder.new 4 1920 8 false 1 "fs1" 0 0, [], []⟩
      = (true, ⟨CFHD_Encoder.new 4 1920 8 false 1 "fs1" 0 0, [],
          [.init_scaler .RGB48LE true .BT709]⟩,
        ⟨false, ⟨0, .other 147, .YUV422P10LE, 1920, 1080⟩, .other 147, true, false⟩) ∧
    ((process_encoder 4 8 ⟨"fs1", true, 0, 0, false⟩
        ⟨false, ⟨0, .other 147, .YUV422P10LE, 1920, 1080⟩, .other 147, false, false⟩
        { depth := 10, rgb := false }).pix_fmt = .RG48 ∧
      (process_encoder 4 8 ⟨"fs1", true, 0, 0, false⟩
        ⟨false, ⟨0, .other 147, .YUV422P10LE, 1920, 1080⟩, .other 147, false, false⟩
        { depth := 10, rgb := false }).enc_fmt = .RGB_444 ∧
      (process_encoder 4 8 ⟨"fs1", true, 0, 0, false⟩
        ⟨false, ⟨0, .other 147, .YUV422P10LE, 1920, 1080⟩, .other 147, false, false⟩
        { depth := 10, rgb := false }).flags = CFHD_ENCODING_FLAGS_NONE ∧
      has_flag (process_encoder 4 8 ⟨"fs1", true, 0, 0, false⟩
        ⟨false, ⟨0, .other 147, .YUV422P10LE, 1920, 1080⟩, .other 147, false, false⟩
        { depth := 10, rgb := false }).flags 4 = false ∧
      select_new_pix_fmt (⟨"fs1", true, 0, 0, false⟩ : CliOptions).b_rgb
        ((⟨10, false⟩ : AVPixFmtDescriptor).depth == 8)
        (⟨0, .other 147, .YUV422P10LE, 1920, 1080⟩ : InputStream).format = .RGB48LE) :=
  ⟨by decide,
    (rgb_scenario 4 8 (fun _ => { depth := 8, rgb := false }) ⟨"fs1", true, 0, 0, false⟩
      ⟨0, .other 147, .YUV422P10LE, 1920, 1080⟩ [] []
      ⟨false, ⟨0, .other 147, .YUV422P10LE, 1920, 1080⟩, .other 147, false, false⟩
      [.open_decoder (.other 147)] { depth := 10, rgb := false } rfl rfl rfl rfl).1⟩

/-- Two inputs with the same pixel format (YUYV422), the same depth (8 bits),
the same RGB flag (clear) and the same width (720): the raw video stream goes
to the encoder directly, the stream of codec 25 is decoded. -/
theorem direct_path_purity_counterexample :
    (⟨0, .RAWVIDEO, .YUYV422, 720, 480⟩ : InputStream).format
      = (⟨0, .other 25, .YUYV422, 720, 480⟩ : InputStream).format ∧
    (⟨0, .RAWVIDEO, .YUYV422, 720, 480⟩ : InputStream).width
      = (⟨0, .other 25, .YUYV422, 720, 480⟩ : InputStream).width ∧
    av_pix_fmt_desc_get (fun _ => { depth := 8, rgb := false }) .YUYV422
      = some { depth := 8, rgb := false } ∧
    open_input ⟨"fs1", false, 0, 0, false⟩ ⟨0, .RAWVIDEO, .YUYV422, 720, 480⟩ []
      = .ok (⟨false, ⟨0, .RAWVIDEO, .YUYV422, 720, 480⟩, .NONE, false, false⟩, [], []) ∧
    open_input ⟨"fs1", false, 0, 0, false⟩ ⟨0, .other 25, .YUYV422, 720, 480⟩ []
      = .ok (⟨false, ⟨0, .other 25, .YUYV422, 720, 480⟩, .other 25, false, false⟩, [],
          [.open_decoder (.other 25)]) ∧
    (∀ (b8 brgb : Bool) (packets : List Packet) (flush : List Frame) (flush_err : Bool)
        (rs : List PoolReply) (s : St),
      process_body ⟨"fs1", false, 0, 0, false⟩
          ⟨false, ⟨0, .RAWVIDEO, .YUYV422, 720, 480⟩, .NONE, false, false⟩ b8 brgb packets flush
          flush_err rs s
        = process_direct ⟨false, ⟨0, .RAWVIDEO, .YUYV422, 720, 480⟩, .NONE, false, false⟩
            packets rs s ∧
      process_body ⟨"fs1", false, 0, 0, false⟩
          ⟨false, ⟨0, .other 25, .YUYV422, 720, 480⟩, .other 25, false, false⟩ b8 brgb packets
          flush flush_err rs s
        = process_adapt ⟨"fs1", false, 0, 0, false⟩
            ⟨false, ⟨0, .other 25, .YUYV422, 720, 480⟩, .other 25, false, false⟩ b8 brgb packets
            flush flush_err rs s) :=
  ⟨rfl, rfl, rfl, rfl, rfl, fun _ _ _ _ _ _ _ => ⟨rfl, rfl⟩⟩

/-- C14 (direct-path selection is a function of codec, pixel format and RGB
flag). For any two inputs that agree on the codec of the video stream, on its
pixel format and on the RGB flag, whenever `open_input` returns for both: the
test of `open_input` has the same result, `dec_ctx->codec_id` is the same, the
same decoder (or none) has been opened, and `process` takes the direct path
for both or the decode path for both. Width, height, stream index, the other
options and the error codes of the calls have no influence. -/
theorem direct_path_purity (c1 c2 : CliOptions) (s1 s2 : InputStream)
    (errs1 errs2 errs1' errs2' : List Bool) (tc1 tc2 : CFHD_Transcoder) (log1 log2 : List Event)
    (hcodec : s1.codec_id = s2.codec_id) (hformat : s1.format = s2.format)
    (hrgb : c1.b_rgb = c2.b_rgb)
    (h1 : open_input c1 s1 errs1 = .ok (tc1, errs1', log1))
    (h2 : open_input c2 s2 errs2 = .ok (tc2, errs2', log2)) :
    is_direct_format c1.b_rgb s1 = is_direct_format c2.b_rgb s2 ∧
    tc1.dec_codec_id = tc2.dec_codec_id ∧ log1 = log2 ∧
    (tc1.dec_codec_id = .NONE ↔ tc2.dec_codec_id = .NONE) ∧
    (∀ (b8 brgb : Bool) (packets : List Packet) (flush : List Frame) (flush_err : Bool)
        (rs : List PoolReply) (s : St),
      (process_body c1 tc1 b8 brgb packets flush flush_err rs s
          = process_direct tc1 packets rs s ∧
        process_body c2 tc2 b8 brgb packets flush flush_err rs s
          = process_direct tc2 packets rs s) ∨
      (process_body c1 tc1 b8 brgb packets flush flush_err rs s
          = process_adapt c1 tc1 b8 brgb packets flush flush_err rs s ∧
        process_body c2 tc2 b8 brgb packets flush flush_err rs s
          = process_adapt c2 tc2 b8 brgb packets flush flush_err rs s)) := by
  obtain ⟨-, -, -, -, -, hd1, hl1⟩ := open_input_ok c1 s1 errs1 errs1' tc1 log1 h1
  obtain ⟨-, -, -, -, -, hd2, hl2⟩ := open_input_ok c2 s2 errs2 errs2' tc2 log2 h2
  have hdir : is_direct_format c1.b_rgb s1 = is_direct_format c2.b_rgb s2 := by
    unfold is_direct_format
    rw [hcodec, hformat, hrgb]
  rw [hdir, hcodec] at hd1 hl1
  have hdec : tc1.dec_codec_id = tc2.dec_codec_id := by rw [hd1, hd2]
  refine ⟨hdir, hdec, by rw [hl1, hl2], by rw [hdec], ?_⟩
  intro b8 brgb packets flush flush_err rs s
  unfold process_body
  by_cases hn : tc2.dec_codec_id = .NONE
  · left
    rw [hdec, if_pos hn, if_pos hn]
    exact ⟨rfl, rfl⟩
  · right
    rw [hdec, if_neg hn, if_neg hn]
    exact ⟨rfl, rfl⟩

/-- Two raw YUYV422 streams of different size and index, different options
apart from the RGB flag, different error lists: the same decision. -/
theorem direct_path_purity_witness :
    is_direct_format (⟨"fs1", false, 0, 0, false⟩ : CliOptions).b_rgb
        ⟨0, .RAWVIDEO, .YUYV422, 720, 480⟩
      = is_direct_format (⟨"low", false, 709, 4, true⟩ : CliOptions).b_rgb
        ⟨1, .RAWVIDEO, .YUYV422, 1920, 1080⟩ ∧
    (⟨false, ⟨0, .RAWVIDEO, .YUYV422, 720, 480⟩, .NONE, false, false⟩ :
        CFHD_Transcoder).dec_codec_id
      = (⟨true, ⟨1, .RAWVIDEO, .YUYV422, 1920, 1080⟩, .NONE, false, false⟩ :
        CFHD_Transcoder).dec_codec_id :=
  have h := direct_path_purity ⟨"fs1", false, 0, 0, false⟩ ⟨"low", false, 709, 4, true⟩
    ⟨0, .RAWVIDEO, .YUYV422, 720, 480⟩ ⟨1, .RAWVIDEO, .YUYV422, 1920, 1080⟩ [] [false, false, true]
    [] [true] ⟨false, ⟨0, .RAWVIDEO, .YUYV422, 720, 480⟩, .NONE, false, false⟩
    ⟨true, ⟨1, .RAWVIDEO, .YUYV422, 1920, 1080⟩, .NONE, false, false⟩ [] [] rfl rfl rfl rfl rfl
  ⟨h.1, h.2.1⟩

/-! ## The failure policy of `process` -/

/-- A failure of `encode` at a packet does not depend on the packets after
it: they are not read. -/
theorem encode_append (tc : CFHD_Transcoder) (post : List Packet) :
    ∀ (pre : List Packet) (n : Int) (rs : List PoolReply) (s s' : St) (rs' : List PoolReply),
      encode tc pre n rs s = .ret false s' rs' →
      encode tc (pre ++ post) n rs s = .ret false s' rs' := by
  intro pre
  induction pre with
  | nil => intro n rs s s' rs' h; simp [encode] at h
  | cons pkt pkts ih =>
    intro n rs s s' rs' h
    rw [List.cons_append]
    unfold encode at h ⊢
    by_cases h1 : pkt.stream_index = tc.input.index
    · rw [if_pos h1] at h ⊢
      by_cases h2 : tc.input.height = 0
      · rw [if_pos h2] at h
        simp at h
      · rw [if_neg h2] at h ⊢
        dsimp only at h ⊢
        cases hp : push tc.input.height pkt.data
            (Int.tdiv (↑pkt.data.length) tc.input.height) (n + 1) pkt.pts pkt.duration rs s with
        | ret ok s1 rs1 =>
          rw [hp] at h
          cases ok with
          | true =>
            dsimp only at h ⊢
            split_ifs at h ⊢ with h4
            · exact ih _ _ _ _ _ h
            · exact h
          | false => exact h
        | stalled s1 => rw [hp] at h; simp at h
        | undefined => rw [hp] at h; simp at h
    · rw [if_neg h1] at h ⊢
      by_cases h3 : (!tc.b_video_only) = true
      · rw [if_pos h3] at h ⊢
        dsimp only at h ⊢
        split_ifs at h ⊢ with h4
        · exact h
        · exact ih _ _ _ _ _ h
      · rw [if_neg h3] at h ⊢
        exact ih _ _ _ _ _ h

/-- The function `transcode` is the packet loop followed by the flush of the
decoder. -/
theorem transcode_eq (tc : CFHD_Transcoder) (flush : List Frame) (flush_err : Bool) :
    ∀ (pkts : List Packet) (n : Int) (rs : List PoolReply) (s : St),
      transcode tc flush flush_err pkts n rs s =
        match transcode_loop tc pkts n rs s with
        | (.ret true s1 rs1, n1) => (transcode_packet tc flush flush_err n1 rs1 s1).1
        | (r, _) => r := by
  intro pkts
  induction pkts with
  | nil => intro n rs s; simp [transcode, transcode_loop]
  | cons pkt pkts ih =>
    intro n rs s
    unfold transcode transcode_loop
    split_ifs with h1 h2
    · rcases hp : transcode_packet tc pkt.frames pkt.recv_err n rs s with ⟨r, n1⟩
      cases r with
      | ret ok s1 rs1 =>
        cases ok with
        | true => simp only; exact ih _ _ _
        | false => simp
      | stalled s1 => simp
      | undefined => simp
    · dsimp only
      split_ifs with h3
      · simp
      · exact ih _ _ _
    · exact ih _ _ _

/-- A failure of the packet loop of `transcode` at a packet does not depend on
the packets after it. -/
theorem transcode_loop_append (tc : CFHD_Transcoder) (post : List Packet) :
    ∀ (pre : List Packet) (n n' : Int) (rs : List PoolReply) (s s' : St)
      (rs' : List PoolReply),
      transcode_loop tc pre n rs s = (.ret false s' rs', n') →
      transcode_loop tc (pre ++ post) n rs s = (.ret false s' rs', n') := by
  intro pre
  induction pre with
  | nil => intro n n' rs s s' rs' h; simp [transcode_loop] at h
  | cons pkt pkts ih =>
    intro n n' rs s s' rs' h
    rw [List.cons_append]
    unfold transcode_loop at h ⊢
    split_ifs at h ⊢ with h1 h2
    · rcases hp : transcode_packet tc pkt.frames pkt.recv_err n rs s with ⟨r, n1⟩
      rw [hp] at h
      cases r with
      | ret ok s1 rs1 =>
        cases ok with
        | true => simp only at h ⊢; exact ih _ _ _ _ _ _ h
        | false => simpa using h
      | stalled s1 => simp at h
      | undefined => simp at h
    · dsimp only at h ⊢
      split_ifs at h ⊢ with h3
      · exact h
      · exact ih _ _ _ _ _ _ h
    · exact ih _ _ _ _ _ _ h

theorem process_setup_post {R : PoolReply → Prop} {A B : Int → St → Prop} {W : St → Prop}
    (I : RunInvariant R A B W) (cliopt : CliOptions) (tc : CFHD_Transcoder) (b8 brgb : Bool)
    (s : St) (hA : A 0 s) : A 0 (process_setup cliopt tc b8 brgb s).2.1 := by
  unfold process_setup
  dsimp only
  have h2 : A 0 s.next_err.2.next_err.2 := I.err 0 _ (I.err 0 s hA)
  generalize s.next_err.2.next_err.2 = s2 at h2
  have h3 := init_v210_encoder_post I 0 s2 h2
  split_ifs <;> (try dsimp only) <;>
    first
    | exact h2
    | exact h3
    | exact I.err 0 _ h2
    | exact I.err 0 _ h3
    | exact init_scaler_post I 0 _ _ _ _ _ (I.err 0 _ h2)
    | exact init_scaler_post I 0 _ _ _ _ _ (I.err 0 _ h3)

theorem or_throw_false (s' : St) (rs' : List PoolReply) (rest : St → List PoolReply → Outcome) :
    or_throw (.ret false s' rs') rest = .thrown 4 s' := rfl

/-- The flush of `process` when the drain loop fails, and when it ends. -/
theorem process_flush_cases (tc : CFHD_Transcoder) (rs : List PoolReply) (s s' : St)
    (rs' : List PoolReply) :
    (drain tc rs s = .ret false s' rs' → process_flush tc rs s = .thrown 4 s') ∧
    (drain tc rs s = .ret true s' rs' →
      process_flush tc rs s =
        if s'.next_err.1 = true then .thrown 4 (s'.next_err.2.emit (.trailer false))
        else .returned (s'.next_err.2.emit (.trailer true))) := by
  unfold process_flush
  refine ⟨fun h => by rw [h]; rfl, fun h => ?_⟩
  rw [h]
  simp only [or_throw]
  split_ifs with h1 <;> simp [h1]

/-- C15 (failure policy). For every run of `process`: when it throws, the status
is 4, and either `av_write_trailer` was not called or it was the call that
failed, made after the drain loop ended with `queued == 0`; when it returns, the
trailer is the last thing written, after a run without any other trailer that
ended with `queued == 0`. Step by step: if `encode` returns false, `process`
throws 4 in the state in which `encode` failed, whatever packets follow the
failing one, and no trailer has been written; the same holds when the set-up of
the decode path fails, when `transcode` returns false (a failure in the packet
loop does not depend on the packets that follow or on the flush), and when
`pop` or `write_cfhd_sample` returns false in the drain loop; the trailer is
written only when the drain loop has returned true, and then `queued` is 0. -/
theorem failure_policy (YUV_601 hw : Nat) (others : Nat → AVPixFmtDescriptor)
    (cliopt : CliOptions) (tc : CFHD_Transcoder) (packets : List Packet) (flush : List Frame)
    (flush_err : Bool) (rs : List PoolReply) (errs : List Bool) :
    (∀ code s, process YUV_601 hw others cliopt tc packets flush flush_err rs errs
        = .thrown code s →
      code = 4 ∧ (NoTrailer s ∨
        ∃ s1, s.log = .trailer false :: s1.log ∧ NoTrailer s1 ∧ s1.enc.queued = 0)) ∧
    (∀ s, process YUV_601 hw others cliopt tc packets flush flush_err rs errs = .returned s →
      ∃ s1, s.log = .trailer true :: s1.log ∧ NoTrailer s1 ∧ s1.enc.queued = 0) ∧
    (∀ (s s' : St) (rs' : List PoolReply) (more : List Packet), NoTrailer s →
      encode tc packets 0 rs s = .ret false s' rs' →
      process_direct tc (packets ++ more) rs s = .thrown 4 s' ∧ NoTrailer s') ∧
    (∀ (b8 brgb : Bool) (s : St), NoTrailer s → tc.v210_ctx = false →
      (process_setup cliopt tc b8 brgb s).1 = false →
      process_adapt cliopt tc b8 brgb packets flush flush_err rs s
        = .thrown 4 (process_setup cliopt tc b8 brgb s).2.1 ∧
      NoTrailer (process_setup cliopt tc b8 brgb s).2.1) ∧
    (∀ (b8 brgb : Bool) (s s' : St) (rs' : List PoolReply), NoTrailer s →
      tc.v210_ctx = false → (process_setup cliopt tc b8 brgb s).1 = true →
      transcode (process_setup cliopt tc b8 brgb s).2.2 flush flush_err packets 0 rs
        (process_setup cliopt tc b8 brgb s).2.1 = .ret false s' rs' →
      process_adapt cliopt tc b8 brgb packets flush flush_err rs s = .thrown 4 s' ∧
      NoTrailer s') ∧
    (∀ (b8 brgb : Bool) (s s' : St) (rs' : List PoolReply) (n' : Int) (more : List Packet)
        (flush2 : List Frame) (flush_err2 : Bool),
      tc.v210_ctx = false → (process_setup cliopt tc b8 brgb s).1 = true →
      transcode_loop (process_setup cliopt tc b8 brgb s).2.2 packets 0 rs
        (process_setup cliopt tc b8 brgb s).2.1 = (.ret false s' rs', n') →
      process_adapt cliopt tc b8 brgb (packets ++ more) flush2 flush_err2 rs s
        = .thrown 4 s') ∧
    (∀ (s s' : St) (rs' : List PoolReply), NoTrailer s → drain tc rs s = .ret false s' rs' →
      process_flush tc rs s = .thrown 4 s' ∧ NoTrailer s') ∧
    (∀ (s s' : St) (rs' : List PoolReply), NoTrailer s → drain tc rs s = .ret true s' rs' →
      s'.enc.queued = 0 ∧ NoTrailer s' ∧
      process_flush tc rs s =
        if s'.next_err.1 = true then .thrown 4 (s'.next_err.2.emit (.trailer false))
        else .returned (s'.next_err.2.emit (.trailer true))) := by
  have I := no_trailer_invariant
  have hpost := process_post I YUV_601 hw others cliopt tc packets flush flush_err rs errs
    (fun _ ok => by simp) (fun _ _ => trivial)
  refine ⟨?_, ?_, ?_, ?_, ?_, ?_, ?_, ?_⟩
  · intro code s h
    rw [h] at hpost
    obtain ⟨hc, hw | ⟨m, s1, h1, h2, -, h4⟩⟩ := hpost
    · exact ⟨hc, Or.inl hw⟩
    · exact ⟨hc, Or.inr ⟨s1, h4, h1, h2⟩⟩
  · intro s h
    rw [h] at hpost
    obtain ⟨m, s1, h1, h2, -, h4⟩ := hpost
    exact ⟨s1, h4, h1, h2⟩
  · intro s s' rs' more hN h
    have hp := encode_post I tc packets 0 rs s hN (fun _ _ => trivial)
    rw [h] at hp
    refine ⟨?_, hp⟩
    unfold process_direct
    rw [encode_append tc more packets 0 rs s s' rs' h]
    rfl
  · intro b8 brgb s hN hv hs
    refine ⟨?_, process_setup_post I cliopt tc b8 brgb s hN⟩
    rw [process_adapt_eq cliopt tc b8 brgb packets flush flush_err rs s hv, hs]
    simp
  · intro b8 brgb s s' rs' hN hv hs h
    have hp := transcode_post I (process_setup cliopt tc b8 brgb s).2.2 flush flush_err packets
      0 rs _ (process_setup_post I cliopt tc b8 brgb s hN) (fun _ _ => trivial)
    rw [h] at hp
    refine ⟨?_, hp⟩
    rw [process_adapt_eq cliopt tc b8 brgb packets flush flush_err rs s hv, if_pos hs, h]
    rfl
  · intro b8 brgb s s' rs' n' more flush2 flush_err2 hv hs h
    rw [process_adapt_eq cliopt tc b8 brgb (packets ++ more) flush2 flush_err2 rs s hv,
      if_pos hs, transcode_eq,
      transcode_loop_append _ more packets 0 n' rs _ s' rs' h]
    rfl
  · intro s s' rs' hN h
    have hp := drain_post I tc 0 rs s hN (fun _ _ => trivial)
    rw [h] at hp
    exact ⟨(process_flush_cases tc rs s s' rs').1 h, hp⟩
  · intro s s' rs' hN h
    have hp := drain_post I tc 0 rs s hN (fun _ _ => trivial)
    rw [h] at hp
    exact ⟨hp.1.2, hp.1.1, (process_flush_cases tc rs s s' rs').2 h⟩

/-- Three frames, the pool refuses the second: `process` throws 4 after the
failed submission, the third packet is not pushed and no trailer is written. -/
theorem failure_policy_witness :
    failing_run = .thrown 4 failing_final ∧
    failing_final.log =
      [.submit 2 1 false, .store 1 2 20 1, .submit 1 0 true, .store 0 1 10 1,
        .prepare .YUY2 .YUV_422 4 .FILMSCAN1, .create_pool 2 3] ∧
    ((4 : Nat) = 4 ∧ (NoTrailer failing_final ∨
      ∃ s1, failing_final.log = .trailer false :: s1.log ∧ NoTrailer s1 ∧
        s1.enc.queued = 0)) :=
  ⟨by decide, by decide,
    (failure_policy 4 8 (fun _ => { depth := 8, rgb := false }) demo_opts demo_tc
      [demo_packet 10, demo_packet 20, demo_packet 30] [] false [] failing_errs).1 4
      failing_final (by decide)⟩

/-! ## Validation of the command line -/

/-- C16 (raw-input options, all three or none): `parse` counts occurrences, not
distinct options. For the command line
`cfenc -s 720x480 -s 720x480 -s 720x480 -i in.yuv out.mov` the count is 3, so
`parse` returns although neither `-framerate` nor `-pix_fmt` was given:
`video_size` is set while `framerate` and `pix_fmt_name` are null. For
`cfenc -s 720x480 -s 1920x1080 -r 25/1 -p yuyv422 -i in.yuv out.mov`, which
gives all three options, the count is 4 and the command line is rejected with
the usage. Given once each, the three options pass, and one or two of them are
rejected. -/
theorem raw_param_counts_occurrences :
    (parse (fun _ => 0) (fun _ => .YUYV422) none
        [.video_size "720x480", .video_size "720x480", .video_size "720x480",
          .input "in.yuv"] ["out.mov"]).toOption.map
        (fun st => (st.video_size, st.framerate, st.pix_fmt_name, st.raw_param))
      = some (some "720x480", none, none, 3) ∧
    parse (fun _ => 0) (fun _ => .YUYV422) none
        [.video_size "720x480", .video_size "1920x1080", .framerate "25/1",
          .pix_fmt "yuyv422", .input "in.yuv"] ["out.mov"] = .error .usage ∧
    (parse (fun _ => 0) (fun _ => .YUYV422) none
        [.video_size "720x480", .framerate "25/1", .pix_fmt "yuyv422", .input "in.yuv"]
        ["out.mov"]).toOption.map
        (fun st => (st.video_size, st.framerate, st.pix_fmt_name, st.raw_param))
      = some (some "720x480", some "25/1", some "yuyv422", 3) ∧
    parse (fun _ => 0) (fun _ => .YUYV422) none
        [.video_size "720x480", .framerate "25/1", .input "in.yuv"] ["out.mov"]
      = .error .usage := by
  refine ⟨by decide, rfl, by decide, rfl⟩

/-- What one step of the option loop does to `raw_param`, to `b_show_help` and
to `trc`. -/
theorem parse_option_spec (atoi : String → Int) (av_get_pix_fmt : String → AVPixelFormat)
    (st st' : ParseState) (o : GetoptResult)
    (h : parse_option atoi av_get_pix_fmt st o = .ok st') :
    st'.raw_param = st.raw_param + (if o.is_raw_param then 1 else 0) ∧
    (st.b_show_help = true → st'.b_show_help = true) ∧
    ((st.b_show_help = true ∨ st.trc = 0 ∨ st.trc = 601 ∨ st.trc = 709) →
      (st'.b_show_help = true ∨ st'.trc = 0 ∨ st'.trc = 601 ∨ st'.trc = 709)) := by
  cases o with
  | video_size optarg =>
    simp only [parse_option] at h
    rcases hp : parse_pair 'x' optarg with e | (_ | ⟨w, hh, bad⟩) <;> rw [hp] at h <;>
      simp only [Except.ok.injEq, reduceCtorEq] at h <;> subst h <;>
      (simp [GetoptResult.is_raw_param]; try tauto)
  | framerate optarg =>
    simp only [parse_option] at h
    rcases hp : parse_pair '/' optarg with e | (_ | ⟨w, hh, bad⟩) <;> rw [hp] at h <;>
      simp only [Except.ok.injEq, reduceCtorEq] at h <;> subst h <;>
      (simp [GetoptResult.is_raw_param]; try tauto)
  | aspect optarg =>
    simp only [parse_option] at h
    rcases hp : parse_pair ':' optarg with e | (_ | ⟨w, hh, bad⟩) <;> rw [hp] at h <;>
      simp only [Except.ok.injEq, reduceCtorEq] at h <;> subst h <;>
      (simp [GetoptResult.is_raw_param]; try tauto)
  | trc optarg =>
    simp only [parse_option] at h
    split_ifs at h with hc <;> simp only [Except.ok.injEq] at h <;> subst h <;>
      simp [GetoptResult.is_raw_param]
    omega
  | _ =>
    simp only [parse_option] at h
    (try split_ifs at h) <;> simp only [Except.ok.injEq] at h <;> subst h <;>
      simp [GetoptResult.is_raw_param]

/-- The option loop counts every occurrence of `-video_size`, `-framerate` and
`-pix_fmt`, keeps `b_show_help` once it is set, and leaves `trc` at 0, 601 or
709 unless it sets `b_show_help`. -/
theorem parse_options_spec (atoi : String → Int) (av_get_pix_fmt : String → AVPixelFormat) :
    ∀ (opts : List GetoptResult) (st st' : ParseState),
      parse_options atoi av_get_pix_fmt st opts = .ok st' →
      st'.raw_param = st.raw_param + (opts.countP GetoptResult.is_raw_param : Nat) ∧
      (st.b_show_help = true → st'.b_show_help = true) ∧
      ((st.b_show_help = true ∨ st.trc = 0 ∨ st.trc = 601 ∨ st.trc = 709) →
        (st'.b_show_help = true ∨ st'.trc = 0 ∨ st'.trc = 601 ∨ st'.trc = 709)) := by
  intro opts
  induction opts with
  | nil =>
    intro st st' h
    simp only [parse_options, Except.ok.injEq] at h
    subst h
    simp
  | cons o os ih =>
    intro st st' h
    simp only [parse_options] at h
    cases h1 : parse_option atoi av_get_pix_fmt st o with
    | error e => rw [h1] at h; simp at h
    | ok st1 =>
      rw [h1] at h
      obtain ⟨a1, a2, a3⟩ := parse_option_spec atoi av_get_pix_fmt st st1 o h1
      obtain ⟨b1, b2, b3⟩ := ih st1 st' h
      refine ⟨?_, fun hs => b2 (a2 hs), fun hs => b3 (a3 hs)⟩
      rw [b1, a1, List.countP_cons]
      split_ifs <;> (simp; try omega)

/-- What is known when the final checks of `parse` let the options through. -/
theorem parse_finish_ok (st st' : ParseState) (rest : List String)
    (h : parse_finish st rest = .ok st') :
    st.b_show_help = false ∧ (st.raw_param = 0 ∨ st.raw_param = 3) ∧ st'.trc = st.trc ∧
    st'.input = st.input ∧ st.input ≠ none ∧ (∃ o, rest = [o] ∧ st'.output = some o) ∧
    st'.input ≠ st'.output ∧ st'.b_rgb = (st.b_rgb || decide (st.rgb ≠ 0)) ∧
    st'.b_video_only = (st.b_video_only || decide (st.video_only ≠ 0)) := by
  unfold parse_finish at h
  rcases rest with _ | ⟨o, _ | ⟨o2, r⟩⟩
  · exfalso
    by_cases h1 : st.rgb = 0 <;> by_cases h2 : st.video_only = 0 <;>
      by_cases h3 : (st.raw_param ≠ 0 ∧ st.raw_param ≠ 3) <;> simp [h1, h2, h3] at h
  · by_cases h3 : (st.raw_param ≠ 0 ∧ st.raw_param ≠ 3)
    · exfalso
      by_cases h1 : st.rgb = 0 <;> by_cases h2 : st.video_only = 0 <;>
        simp [h1, h2, h3] at h
    · have hr : st.raw_param = 0 ∨ st.raw_param = 3 := by omega
      by_cases h4 : st.b_show_help = true
      · exfalso
        by_cases h1 : st.rgb = 0 <;> by_cases h2 : st.video_only = 0 <;>
          simp [h1, h2, h3, h4] at h
      · by_cases h5 : st.input = none
        · exfalso
          by_cases h1 : st.rgb = 0 <;> by_cases h2 : st.video_only = 0 <;>
            simp [h1, h2, h3, h4, h5] at h
        · by_cases h6 : st.input = some o
          · exfalso
            by_cases h1 : st.rgb = 0 <;> by_cases h2 : st.video_only = 0 <;>
              simp [h1, h2, h3, h4, h5, h6] at h
          · by_cases h1 : st.rgb = 0 <;> by_cases h2 : st.video_only = 0 <;>
              simp [h1, h2, h3, h4, h5, h6] at h <;> subst h <;>
              simp [h1, h2, h4, h5, h6, hr]
  · exfalso
    by_cases h1 : st.rgb = 0 <;> by_cases h2 : st.video_only = 0 <;>
      by_cases h3 : (st.raw_param ≠ 0 ∧ st.raw_param ≠ 3) <;> simp [h1, h2, h3] at h

/-- What is known when `parse` returns: the options `-video_size`, `-framerate`
and `-pix_fmt` occur three times in all or not at all, `trc` is 0, 601 or 709,
the input and the output are set and differ. -/
theorem parse_ok (atoi : String → Int) (av_get_pix_fmt : String → AVPixelFormat)
    (input0 : Option String) (opts : List GetoptResult) (rest : List String)
    (st : ParseState) (h : parse atoi av_get_pix_fmt input0 opts rest = .ok st) :
    (opts.countP GetoptResult.is_raw_param = 0 ∨ opts.countP GetoptResult.is_raw_param = 3) ∧
    (st.cliopt.trc = 0 ∨ st.cliopt.trc = 601 ∨ st.cliopt.trc = 709) ∧
    st.input ≠ none ∧ st.output ≠ none ∧ st.input ≠ st.output := by
  unfold parse at h
  cases h1 : parse_options atoi av_get_pix_fmt (ParseState.new input0) opts with
  | error e => rw [h1] at h; simp at h
  | ok st1 =>
    rw [h1] at h
    obtain ⟨a1, -, a3⟩ := parse_options_spec atoi av_get_pix_fmt opts _ st1 h1
    have a3 := a3 (Or.inr (Or.inl rfl))
    simp only [ParseState.new, zero_add] at a1
    obtain ⟨b1, b2, b3, b4, b5, ⟨o, -, b6⟩, b7, -, -⟩ := parse_finish_ok st1 st rest h
    refine ⟨by omega, ?_, by rw [b4]; exact b5, by rw [b6]; simp, b7⟩
    simp only [ParseState.cliopt, b3]
    rcases a3 with a3 | a3
    · rw [b1] at a3; exact absurd a3 Bool.false_ne_true
    · exact a3

/-- C17 (invalid option values): an argument that does not match the pattern is
not rejected. `cfenc -a 16x9 -i in.mov out.mov` returns with the aspect ratio
left at 0/0, and
`cfenc -s abc -r fast -p yuyv422 -i in.yuv out.mov` returns with
`video_size` "abc", `g_width` and `g_height` left at 0 and no frame rate. Only an
argument that matches the pattern with a number below 1 is rejected with the
usage (`-s 0x480`, `-r 25/0`, `-a 0:1`), and a number that does not fit an `int`
ends `parse` with `std::out_of_range` instead of the status 1. -/
theorem unmatched_values_accepted :
    (parse (fun _ => 0) (fun _ => .YUYV422) none [.aspect "16x9", .input "in.mov"]
        ["out.mov"]).toOption.map (fun st => (st.aspect, st.b_show_help))
      = some ((0, 0), false) ∧
    (parse (fun _ => 0) (fun _ => .YUYV422) none
        [.video_size "abc", .framerate "fast", .pix_fmt "yuyv422", .input "in.yuv"]
        ["out.mov"]).toOption.map
        (fun st => (st.video_size, st.g_width, st.g_height, st.framerate, st.r_frame_rate))
      = some (some "abc", 0, 0, some "fast", none) ∧
    parse (fun _ => 0) (fun _ => .YUYV422) none
        [.video_size "0x480", .framerate "25/1", .pix_fmt "yuyv422", .input "in.yuv"]
        ["out.mov"] = .error .usage ∧
    parse (fun _ => 0) (fun _ => .YUYV422) none
        [.video_size "720x480", .framerate "25/0", .pix_fmt "yuyv422", .input "in.yuv"]
        ["out.mov"] = .error .usage ∧
    parse (fun _ => 0) (fun _ => .YUYV422) none [.aspect "0:1", .input "in.mov"] ["out.mov"]
      = .error .usage ∧
    parse (fun _ => 0) (fun _ => .YUYV422) none [.aspect "16:9", .input "in.mov"] ["out.mov"]
      = .ok { ParseState.new none with
              input := some "in.mov", output := some "out.mov", aspect := (16, 9) } ∧
    parse (fun _ => 0) (fun _ => .YUYV422) none
        [.aspect "99999999999:1", .input "in.mov"] ["out.mov"] = .error .out_of_range := by
  refine ⟨by decide, rfl, rfl, rfl, rfl, rfl, rfl⟩

/-- An argument that does not match the pattern changes nothing but the
pointer to it and the count, whatever the argument is: `parse_option` does not
set `b_show_help` for it. -/
theorem parse_option_unmatched (atoi : String → Int)
    (av_get_pix_fmt : String → AVPixelFormat) (st : ParseState) (optarg : String) :
    (regex_match_pair 'x' optarg = none →
      parse_option atoi av_get_pix_fmt st (.video_size optarg)
        = .ok { st with video_size := some optarg, raw_param := st.raw_param + 1 }) ∧
    (regex_match_pair '/' optarg = none →
      parse_option atoi av_get_pix_fmt st (.framerate optarg)
        = .ok { st with framerate := some optarg, raw_param := st.raw_param + 1 }) ∧
    (regex_match_pair ':' optarg = none →
      parse_option atoi av_get_pix_fmt st (.aspect optarg) = .ok st) := by
  refine ⟨fun h => ?_, fun h => ?_, fun h => ?_⟩ <;>
    simp [parse_option, parse_pair, h]

/-! ## The streams of the output -/

/-- The output streams the loop of `open_output` creates for the input streams
`rest`, the first of which has the position `i`. -/
theorem open_output_streams_ok (cliopt : CliOptions) (g_width g_height : Int) (v : Nat) :
    ∀ (rest : List AVCodecParameters) (i : Nat) (out : List OutputStream) (errs : List Bool)
      (out' : List OutputStream) (errs' : List Bool),
      open_output_streams cliopt g_width g_height v i rest out errs = .ok (out', errs') →
      out' = out ++ (((rest.enumFrom i).filter
          (fun p => !cliopt.b_video_only || decide (p.1 = v))).map
        (fun p => ({ source := p.1,
                     codecpar := if p.1 = v then cfhd_codecpar cliopt.b_rgb g_width g_height
                       else p.2 } : OutputStream))) := by
  intro rest
  induction rest with
  | nil =>
    intro i out errs out' errs' h
    simp only [open_output_streams, Except.ok.injEq, Prod.mk.injEq] at h
    simp [h.1]
  | cons ist rest ih =>
    intro i out errs out' errs' h
    unfold open_output_streams at h
    simp only at h
    split_ifs at h with h1 h2 h3 h4
    · have := ih _ _ _ _ _ h
      simp only [Bool.and_eq_true, decide_eq_true_eq, ne_eq, decide_not, Bool.not_eq_true',
        decide_eq_false_iff_not] at h1
      rw [this]
      simp [List.enumFrom, List.filter, h1.1, h1.2]
    · have := ih _ _ _ _ _ h
      rw [this]
      simp [List.enumFrom, List.filter, h3]
    · have := ih _ _ _ _ _ h
      have hvo : cliopt.b_video_only = false := by
        cases hb : cliopt.b_video_only
        · rfl
        · simp [hb, h3] at h1
      rw [this]
      simp [List.enumFrom, List.filter, h3, hvo]

/-- When no call fails the loop of `open_output` gets through. -/
theorem open_output_streams_total (cliopt : CliOptions) (g_width g_height : Int) (v : Nat) :
    ∀ (rest : List AVCodecParameters) (i : Nat) (out : List OutputStream),
      ∃ out', open_output_streams cliopt g_width g_height v i rest out [] = .ok (out', []) := by
  intro rest
  induction rest with
  | nil => intro i out; exact ⟨out, rfl⟩
  | cons ist rest ih =>
    intro i out
    unfold open_output_streams
    simp only [take_err]
    split_ifs <;> first | exact ih _ _ | (exfalso; simp at *)

/-- In video-only mode exactly the stream at position `v` gets an output
stream. -/
theorem video_only_streams (cfhd : AVCodecParameters) (v : Nat) :
    ∀ (l : List AVCodecParameters) (i : Nat),
      (((l.enumFrom i).filter (fun p => !true || decide (p.1 = v))).map
        (fun p => ({ source := p.1, codecpar := if p.1 = v then cfhd else p.2 } :
          OutputStream)))
      = if i ≤ v ∧ v < i + l.length then [{ source := v, codecpar := cfhd }] else [] := by
  intro l
  induction l with
  | nil =>
    intro i
    have : ¬ (i ≤ v ∧ v < i + 0) := by omega
    simp [this]
  | cons a l ih =>
    intro i
    have h := ih (i + 1)
    simp only [Bool.not_true, Bool.false_or] at h ⊢
    rw [List.enumFrom_cons, List.filter_cons]
    by_cases hi : i = v
    · subst hi
      have h2 : ¬ (i + 1 ≤ i ∧ i < i + 1 + l.length) := by omega
      rw [if_neg h2] at h
      simp only [decide_True, ↓reduceIte, List.map_cons, h, List.length_cons]
      rw [if_pos (by omega)]
    · simp only [hi, decide_False, Bool.false_eq_true, ↓reduceIte, h, List.length_cons]
      by_cases hc : i + 1 ≤ v ∧ v < i + 1 + l.length
      · rw [if_pos hc, if_pos (by omega)]
      · rw [if_neg hc, if_neg (by omega)]

/-- C18 (stream mapping). For every input with `n` streams whose video stream
`input` is at position `v` and has the index `v`, whenever `open_output`
returns: in video-only mode the output has exactly one stream, the CineForm
video track made for the input stream `v`; otherwise it has exactly `n` streams
in input order, the one at position `v` being the CineForm video track and every
other one a copy of the parameters of the input stream at the same position. In
both modes the stream index `write_cfhd_sample` puts on an encoded sample (0 in
video-only mode, `v` otherwise) is the position of the CineForm video track in
the output. When no call fails, `open_output` returns. -/
theorem stream_mapping (cliopt : CliOptions) (tc : CFHD_Transcoder) (g_width g_height : Int)
    (v : Nat) (streams : List AVCodecParameters) (errs errs' : List Bool)
    (out : List OutputStream) (hv : v < streams.length)
    (htc : tc.b_video_only = cliopt.b_video_only) (hidx : tc.input.index = v)
    (h : open_output cliopt g_width g_height v streams errs = .ok (out, errs')) :
    (cliopt.b_video_only = true →
      out = [{ source := v, codecpar := cfhd_codecpar cliopt.b_rgb g_width g_height }] ∧
      sample_stream_index tc = 0) ∧
    (cliopt.b_video_only = false →
      out.length = streams.length ∧
      out[v]? = some { source := v, codecpar := cfhd_codecpar cliopt.b_rgb g_width g_height } ∧
      (∀ i p, i ≠ v → streams[i]? = some p → out[i]? = some { source := i, codecpar := p }) ∧
      sample_stream_index tc = v) ∧
    (0 ≤ sample_stream_index tc ∧ (sample_stream_index tc).toNat < out.length ∧
      out[(sample_stream_index tc).toNat]?
        = some { source := v, codecpar := cfhd_codecpar cliopt.b_rgb g_width g_height } ∧
      (cfhd_codecpar cliopt.b_rgb g_width g_height).codec_id = .CFHD) ∧
    (∃ out0, open_output cliopt g_width g_height v streams [] = .ok (out0, [])) := by
  have hout : out = ((streams.enumFrom 0).filter
        (fun p => !cliopt.b_video_only || decide (p.1 = v))).map
      (fun p => ({ source := p.1,
                   codecpar := if p.1 = v then cfhd_codecpar cliopt.b_rgb g_width g_height
                     else p.2 } : OutputStream)) := by
    unfold open_output at h
    simp only at h
    split_ifs at h with h1
    cases hl : open_output_streams cliopt g_width g_height v 0 streams [] (take_err errs).2 with
    | error c => simp [hl] at h
    | ok r =>
      obtain ⟨o, e⟩ := r
      simp only [hl] at h
      split_ifs at h with h2 h3
      simp only [Except.ok.injEq, Prod.mk.injEq] at h
      have := open_output_streams_ok cliopt g_width g_height v streams 0 [] _ o e hl
      rw [← h.1, this]
      simp
  have hvo : cliopt.b_video_only = true →
      out = [{ source := v, codecpar := cfhd_codecpar cliopt.b_rgb g_width g_height }] := by
    intro hb
    rw [hout, hb, video_only_streams _ v streams 0, if_pos (by omega)]
  have hall : cliopt.b_video_only = false →
      ∀ i : Nat, out[i]? = (streams[i]?).map (fun p =>
        OutputStream.mk i (if i = v then cfhd_codecpar cliopt.b_rgb g_width g_height else p)) := by
    intro hb i
    rw [hout, hb]
    simp only [Bool.not_false, Bool.true_or, List.filter_true, List.getElem?_map,
      List.getElem?_enumFrom, Nat.zero_add, Option.map_map]
    rfl
  have hlen : cliopt.b_video_only = false → out.length = streams.length := by
    intro hb
    rw [hout, hb]
    simp
  have hget : streams[v]? = some (streams.get ⟨v, hv⟩) := List.getElem?_eq_getElem hv
  refine ⟨fun hb => ⟨hvo hb, ?_⟩, fun hb => ⟨hlen hb, ?_, ?_, ?_⟩, ?_, ?_⟩
  · unfold sample_stream_index
    rw [htc, hb]
    rfl
  · rw [hall hb v, hget]
    simp
  · intro i p hi hp
    rw [hall hb i, hp]
    simp [hi]
  · unfold sample_stream_index
    rw [htc, hb]
    simpa using hidx
  · cases hb : cliopt.b_video_only
    · have hs : sample_stream_index tc = v := by
        unfold sample_stream_index
        rw [htc, hb]
        simpa using hidx
      rw [hs]
      refine ⟨by omega, by simp [hlen hb, hv], ?_, rfl⟩
      simp only [Int.toNat_ofNat]
      rw [hall hb v, hget]
      simp
    · have hs : sample_stream_index tc = 0 := by
        unfold sample_stream_index
        rw [htc, hb]
        rfl
      rw [hs, hvo hb]
      exact ⟨by omega, by simp, rfl, rfl⟩
  · unfold open_output
    simp only [take_err]
    obtain ⟨o, ho⟩ := open_output_streams_total cliopt g_width g_height v streams 0 []
    rw [ho]
    exact ⟨o, by simp⟩

/-- An input with an audio stream, the video stream at position 1 and a subtitle
stream: three output streams with the CineForm track at position 1; in
video-only mode one output stream. -/
theorem stream_mapping_witness :
    open_output ⟨"fs1", false, 0, 0, false⟩ 720 480 1
        [⟨.audio, .other 65536, .NONE, 0, 0⟩, ⟨.video, .RAWVIDEO, .YUYV422, 720, 480⟩,
          ⟨.subtitle, .other 94208, .NONE, 0, 0⟩] []
      = .ok ([⟨0, ⟨.audio, .other 65536, .NONE, 0, 0⟩⟩,
          ⟨1, ⟨.video, .CFHD, .YUV422P10LE, 720, 480⟩⟩,
          ⟨2, ⟨.subtitle, .other 94208, .NONE, 0, 0⟩⟩], []) ∧
    open_output ⟨"fs1", false, 0, 0, true⟩ 720 480 1
        [⟨.audio, .other 65536, .NONE, 0, 0⟩, ⟨.video, .RAWVIDEO, .YUYV422, 720, 480⟩,
          ⟨.subtitle, .other 94208, .NONE, 0, 0⟩] []
      = .ok ([⟨1, ⟨.video, .CFHD, .YUV422P10LE, 720, 480⟩⟩], []) ∧
    open_output ⟨"fs1", false, 0, 0, false⟩ 720 480 1
        [⟨.audio, .other 65536, .NONE, 0, 0⟩, ⟨.video, .RAWVIDEO, .YUYV422, 720, 480⟩,
          ⟨.subtitle, .other 94208, .NONE, 0, 0⟩] [false, false, false, true]
      = .error 3 ∧
    ((0 : Int) ≤ sample_stream_index ⟨false, ⟨1, .RAWVIDEO, .YUYV422, 720, 480⟩, .NONE, false, false⟩ ∧
      (sample_stream_index
          ⟨false, ⟨1, .RAWVIDEO, .YUYV422, 720, 480⟩, .NONE, false, false⟩).toNat
        < [(⟨0, ⟨.audio, .other 65536, .NONE, 0, 0⟩⟩ : OutputStream),
            ⟨1, ⟨.video, .CFHD, .YUV422P10LE, 720, 480⟩⟩,
            ⟨2, ⟨.subtitle, .other 94208, .NONE, 0, 0⟩⟩].length ∧
      [(⟨0, ⟨.audio, .other 65536, .NONE, 0, 0⟩⟩ : OutputStream),
          ⟨1, ⟨.video, .CFHD, .YUV422P10LE, 720, 480⟩⟩,
          ⟨2, ⟨.subtitle, .other 94208, .NONE, 0, 0⟩⟩][(sample_stream_index
            ⟨false, ⟨1, .RAWVIDEO, .YUYV422, 720, 480⟩, .NONE, false, false⟩).toNat]?
        = some { source := 1,
                 codecpar := cfhd_codecpar (⟨"fs1", false, 0, 0, false⟩ : CliOptions).b_rgb
                   720 480 } ∧
      (cfhd_codecpar (⟨"fs1", false, 0, 0, false⟩ : CliOptions).b_rgb 720 480).codec_id
        = .CFHD) :=
  ⟨rfl, rfl, rfl,
    (stream_mapping ⟨"fs1", false, 0, 0, false⟩
      ⟨false, ⟨1, .RAWVIDEO, .YUYV422, 720, 480⟩, .NONE, false, false⟩ 720 480 1
      [⟨.audio, .other 65536, .NONE, 0, 0⟩, ⟨.video, .RAWVIDEO, .YUYV422, 720, 480⟩,
        ⟨.subtitle, .other 94208, .NONE, 0, 0⟩] [] []
      [⟨0, ⟨.audio, .other 65536, .NONE, 0, 0⟩⟩, ⟨1, ⟨.video, .CFHD, .YUV422P10LE, 720, 480⟩⟩,
        ⟨2, ⟨.subtitle, .other 94208, .NONE, 0, 0⟩⟩] (by decide) rfl rfl rfl).2.2.1⟩

/-! ## Lazy allocation of the slots -/

/-- The store of frame `n + 1` into a vector that holds `min n C` slots. -/
theorem store_frame_next (q : List CFHD_AVData) (C g : Int) (data : List Nat)
    (pitch pts dur : Int) (n : Nat) (hC : 1 ≤ C) (hq : (q.length : Int) = min (n : Int) C) :
    ∃ q', store_frame q C g data pitch ((n : Int) + 1) pts dur
        = some (((n : Int) % C).toNat, q') ∧
      (n : Int) % C ≤ q.length ∧
      ((n : Int) < C → (n : Int) % C = q.length ∧ q'.length = q.length + 1) ∧
      (C ≤ (n : Int) → (n : Int) % C < q.length ∧ q'.length = q.length) ∧
      (q'.length : Int) = min ((n : Int) + 1) C := by
  have hnn : 0 ≤ (n : Int) % C := Int.emod_nonneg _ (by omega)
  have hlt : (n : Int) % C < C := Int.emod_lt_of_pos _ (by omega)
  unfold store_frame
  rw [push_index_eq ((n : Int) + 1) C (by omega) hC]
  have e : (n : Int) + 1 - 1 = n := by omega
  rw [e]
  simp only
  by_cases hn : (n : Int) < C
  · have hmod : (n : Int) % C = n := Int.emod_eq_of_lt (by omega) hn
    have hlen : (q.length : Int) = n := by omega
    rw [if_pos ⟨hnn, by omega⟩]
    refine ⟨_, rfl, by omega, fun _ => ⟨by omega, by simp⟩, fun h => by omega, ?_⟩
    simp only [List.length_append, List.length_singleton, Nat.cast_add, Nat.cast_one]
    omega
  · have hlen : (q.length : Int) = C := by omega
    rw [if_neg (by omega)]
    have hidx : ((n : Int) % C).toNat < q.length := by omega
    have hs : slot_at q ((n : Int) % C) = some (q.get ⟨((n : Int) % C).toNat, hidx⟩) := by
      unfold slot_at
      rw [if_pos hnn]
      exact List.getElem?_eq_getElem hidx
    rw [hs]
    refine ⟨_, rfl, by omega, fun h => by omega, fun _ => ⟨by omega, by simp⟩, ?_⟩
    simp only [List.length_set]
    omega

theorem stored_count_le (l : List Event) (h : stores_in_sequence l = true) :
    (stored_count l : Int) ≤ INT_MAX := by
  induction l with
  | nil => unfold INT_MAX; simp [stored_count]
  | cons ev l ih =>
    simp only [stores_in_sequence, Bool.and_eq_true] at h
    have h1 := ih h.1
    cases ev <;> simp_all [stored_count, Event.is_store, Event.in_sequence]
    omega

theorem SlotsAllocated_neutral (C : Int) (s : St) (enc : CFHD_Encoder) (errs : List Bool)
    (ev : Event) (h : SlotsAllocated C s) (hs : ev.is_store = false)
    (hC : enc.queue_size = s.enc.queue_size) (hq : enc.queue = s.enc.queue) :
    SlotsAllocated C ⟨enc, errs, ev :: s.log⟩ := by
  obtain ⟨h1, h2⟩ := h
  refine ⟨by rw [← h1]; exact hC, ?_⟩
  intro hseq
  simp only [stores_in_sequence, Bool.and_eq_true] at hseq
  simp only [stored_count, hs, Bool.false_eq_true, ↓reduceIte, Nat.add_zero, hq]
  exact h2 hseq.1

theorem SlotsAllocated_same (C : Int) (s : St) (enc : CFHD_Encoder) (errs : List Bool)
    (h : SlotsAllocated C s)
    (hC : enc.queue_size = s.enc.queue_size) (hq : enc.queue = s.enc.queue) :
    SlotsAllocated C ⟨enc, errs, s.log⟩ := by
  obtain ⟨h1, h2⟩ := h
  exact ⟨by rw [← h1]; exact hC, fun hseq => by simpa only [hq] using h2 hseq⟩

theorem SlotsAllocated_pop {C : Int} {r : PoolReply} {s s' : St} {b : Bool}
    (h : SlotsAllocated C s) (hp : pop r s = some (b, s')) : SlotsAllocated C s' := by
  rcases pop_spec hp with ⟨-, -, hs⟩ | ⟨f, buf, -, -, hs⟩ | ⟨f, buf, data, size, i, slot, -, -, -, -, hs⟩
  · subst hs
    exact SlotsAllocated_neutral C s _ _ _ h rfl rfl rfl
  · subst hs
    exact SlotsAllocated_neutral C s _ _ _ h rfl rfl rfl
  · subst hs
    have h1 := SlotsAllocated_neutral C s s.enc s.errs (.poll s.enc.sample.size) h rfl rfl rfl
    exact SlotsAllocated_neutral C _ _ _ _ h1 rfl rfl rfl

theorem SlotsAllocated_write {C : Int} (tc : CFHD_Transcoder) {s : St}
    (h : SlotsAllocated C s) : SlotsAllocated C (write_cfhd_sample tc s).2 := by
  rcases write_spec tc s with ⟨-, hw⟩ | ⟨-, errs, hw | hw⟩
  · rw [hw]; exact h
  · rw [hw]
    exact SlotsAllocated_neutral C s _ _ _ h rfl rfl rfl
  · rw [hw]
    have h1 := SlotsAllocated_neutral C s s.enc s.errs
      (.write (sample_stream_index tc) s.enc.sample.frame_num s.enc.sample.pts
        s.enc.sample.duration true) h rfl rfl rfl
    exact SlotsAllocated_neutral C _ _ _ _ h1 rfl rfl rfl

theorem SlotsAllocated_push_store {C g : Int} {data : List Nat} {pitch f pts dur : Int}
    {s s' : St} {b : Bool} (hC : 1 ≤ C) (h : SlotsAllocated C s)
    (hp : push_store g data pitch f pts dur s = some (b, s')) : SlotsAllocated C s' := by
  rcases push_store_spec hp with ⟨-, hs⟩ | ⟨i, queue, errs, hst, hs⟩
  · subst hs
    rw [next_err_eta]
    exact SlotsAllocated_same C s _ _ h rfl rfl
  · have key : SlotsAllocated C
        ⟨{ s.enc with queue := queue }, errs, .store i f pts dur :: s.log⟩ := by
      obtain ⟨h1, h2⟩ := h
      refine ⟨h1, ?_⟩
      intro hseq
      simp only [stores_in_sequence, Bool.and_eq_true, Event.in_sequence,
        decide_eq_true_eq] at hseq
      obtain ⟨hl, hf, -⟩ := hseq
      have hlen := h2 hl
      obtain ⟨q', hq', -, -, -, hlen'⟩ :=
        store_frame_next s.enc.queue C g data pitch pts dur (stored_count s.log) hC hlen
      rw [h1, hf, hq'] at hst
      simp only [Option.some.injEq, Prod.mk.injEq] at hst
      simp only [stored_count, Event.is_store, ↓reduceIte, Nat.cast_add, Nat.cast_one]
      rw [← hst.2]
      exact hlen'
    rcases hs with ⟨-, hs⟩ | ⟨-, hs⟩
    · subst hs
      exact SlotsAllocated_neutral C _ _ _ _ key rfl rfl rfl
    · subst hs
      exact SlotsAllocated_neutral C _ _ _ _ key rfl rfl rfl

/-- Every state an encoder of capacity `C` can reach has its slots allocated
as `push` with consecutive frame numbers leaves them. -/
theorem SlotsAllocated_reachable {C : Int} {s : St} (hC : 1 ≤ C) (h : Reachable C s) :
    SlotsAllocated C s := by
  induction h with
  | init s hC hq hv hl =>
    refine ⟨hC, fun _ => ?_⟩
    rw [hv, hl]
    simp only [List.length_nil, stored_count, Nat.cast_zero]
    omega
  | pop r s s' b _ hp ih => exact SlotsAllocated_pop ih hp
  | push g data pitch f pts dur rs rest s s' ok _ hp ih =>
    exact (push_preserves (SlotsAllocated C) g data pitch f pts dur
      (fun _ _ _ _ hP hpop => SlotsAllocated_pop hP hpop)
      (fun _ _ _ hP _ hps => SlotsAllocated_push_store hC hP hps) rs s ih).1 ok s' rest hp
  | push_stalled g data pitch f pts dur rs s s' _ hp ih =>
    exact (push_preserves (SlotsAllocated C) g data pitch f pts dur
      (fun _ _ _ _ hP hpop => SlotsAllocated_pop hP hpop)
      (fun _ _ _ hP _ hps => SlotsAllocated_push_store hC hP hps) rs s ih).2 s' hp
  | write tc s _ ih => exact SlotsAllocated_write tc ih

/-- C19 (lazy slot allocation stays in bounds). For every capacity `C` with
`1 ≤ C ≤ INT_MAX` and every state the encoder can reach by calls of `push`,
`pop` and `write_cfhd_sample` in which the frames were stored with the numbers
1, 2, 3, ...: when `n` frames have been stored, the slot vector has exactly
`min n C` entries; the push of frame `n + 1` computes the index `n mod C`, which
is at most the size of the vector, equal to it while `n < C` (a slot is
appended) and below it afterwards (a slot is overwritten), and leaves
`min (n + 1) C` entries; the index `pop` computes for a frame number between 1
and `n` is inside the vector. So neither the storing branch of `push` nor `pop`
for a frame already stored is undefined. -/
theorem lazy_slot_allocation (C : Int) (s : St) (hC : 1 ≤ C) (hC2 : C ≤ INT_MAX)
    (h : Reachable C s) (hseq : stores_in_sequence s.log = true) :
    (s.enc.queue.length : Int) = min (stored_count s.log : Int) C ∧
    (∀ (g : Int) (data : List Nat) (pitch pts dur : Int),
      ∃ q', store_frame s.enc.queue s.enc.queue_size g data pitch
          ((stored_count s.log : Int) + 1) pts dur
          = some (((stored_count s.log : Int) % C).toNat, q') ∧
        (stored_count s.log : Int) % C ≤ s.enc.queue.length ∧
        ((stored_count s.log : Int) < C →
          (stored_count s.log : Int) % C = s.enc.queue.length ∧
          q'.length = s.enc.queue.length + 1) ∧
        (C ≤ (stored_count s.log : Int) →
          (stored_count s.log : Int) % C < s.enc.queue.length ∧
          q'.length = s.enc.queue.length) ∧
        (q'.length : Int) = min ((stored_count s.log : Int) + 1) C ∧
        push_store g data pitch ((stored_count s.log : Int) + 1) pts dur s ≠ none) ∧
    (∀ (f buffer : Nat) (get : Option (Nat × Nat)), 1 ≤ f → f ≤ stored_count s.log →
      pop_index f s.enc.queue_size = some (((f : Int) - 1) % C) ∧
      ((f : Int) - 1) % C < s.enc.queue.length ∧
      (∃ slot, slot_at s.enc.queue (((f : Int) - 1) % C) = some slot) ∧
      pop (.ready f buffer get) s ≠ none) := by
  obtain ⟨hsz, hlen⟩ := SlotsAllocated_reachable hC h
  have hlen := hlen hseq
  have hmax := stored_count_le s.log hseq
  refine ⟨hlen, ?_, ?_⟩
  · intro g data pitch pts dur
    obtain ⟨q', h1, h2, h3, h4, h5⟩ :=
      store_frame_next s.enc.queue C g data pitch pts dur (stored_count s.log) hC hlen
    refine ⟨q', by rw [hsz]; exact h1, h2, h3, h4, h5, ?_⟩
    unfold push_store
    dsimp only
    split_ifs
    · simp
    · rw [next_err_enc, hsz, h1]
      dsimp only
      split_ifs <;> simp
  · intro f buffer get hf1 hfn
    unfold INT_MAX at hmax hC2
    have hidx := pop_index_eq f C hf1 (by omega) hC (by omega)
    have hnn : 0 ≤ ((f : Int) - 1) % C := Int.emod_nonneg _ (by omega)
    have hltC : ((f : Int) - 1) % C < C := Int.emod_lt_of_pos _ (by omega)
    have hle : ((f : Int) - 1) % C ≤ (f : Int) - 1 := by
      by_cases hx : (f : Int) - 1 < C
      · rw [Int.emod_eq_of_lt (by omega) hx]
      · omega
    have hlt : ((f : Int) - 1) % C < s.enc.queue.length := by omega
    have hidx2 : (((f : Int) - 1) % C).toNat < s.enc.queue.length := by omega
    have hslot : slot_at s.enc.queue (((f : Int) - 1) % C)
        = some (s.enc.queue.get ⟨(((f : Int) - 1) % C).toNat, hidx2⟩) := by
      unfold slot_at
      rw [if_pos hnn]
      exact List.getElem?_eq_getElem hidx2
    refine ⟨by rw [hsz]; exact hidx, hlt, ⟨_, hslot⟩, ?_⟩
    unfold pop
    cases get with
    | none => simp
    | some x =>
      obtain ⟨data, size⟩ := x
      simp only [St.emit]
      rw [hsz, hidx]
      simp only
      rw [hslot]
      simp

/-- Capacity 3 after frames 1, 2, 3 and after frame 4: three slots, the push of
frame 4 overwrites slot 0 and the push of frame 5 would overwrite slot 1. -/
theorem lazy_slot_allocation_witness :
    stored_count run3.log = 3 ∧ run3.enc.queue.length = 3 ∧
    stored_count run4_in_order.log = 4 ∧
    (run4_in_order.enc.queue.length : Int) = min (stored_count run4_in_order.log : Int) 3 :=
  ⟨by decide, by decide, by decide,
    (lazy_slot_allocation 3 run4_in_order (by decide) (by decide) run4_in_order_reachable
      (by decide)).1⟩

/-! ## The buffer layout matches the prepared pixel format -/

/-- The set-up of the decode path without the RGB flag for a source that is not
8 bits deep: the v210 encoder is set up, and the scaler, with the target
YUV422P10LE, exactly when the source is not in that format already. -/
theorem process_setup_repack (cliopt : CliOptions) (tc : CFHD_Transcoder)
    (input_is_rgb : Bool) (s : St) (hsws : tc.sws_ctx = false) (hrgb : cliopt.b_rgb = false)
    (hok : (process_setup cliopt tc false input_is_rgb s).1 = true) :
    (process_setup cliopt tc false input_is_rgb s).2.2.v210_ctx = true ∧
    (process_setup cliopt tc false input_is_rgb s).2.2.input = tc.input ∧
    (tc.input.format = .YUV422P10LE →
      (process_setup cliopt tc false input_is_rgb s).2.2.sws_ctx = false) ∧
    (tc.input.format ≠ .YUV422P10LE →
      (process_setup cliopt tc false input_is_rgb s).2.2.sws_ctx = true ∧
      scaler_target (process_setup cliopt tc false input_is_rgb s).2.1.log
        = some .YUV422P10LE) := by
  obtain ⟨vo, inp, dc, sw, v2⟩ := tc
  simp only at hsws
  subst hsws
  unfold process_setup at hok ⊢
  dsimp only at hok ⊢
  generalize s.next_err = p1 at hok ⊢
  obtain ⟨e1, s1⟩ := p1
  dsimp only at hok ⊢
  generalize s1.next_err = p2 at hok ⊢
  obtain ⟨e2, s2⟩ := p2
  dsimp only at hok ⊢
  by_cases he : (e1 || e2) = true
  · simp [he] at hok
  · simp only [he, hrgb, Bool.false_eq_true, ↓reduceIte] at hok ⊢
    generalize init_v210_encoder s2 = p3 at hok ⊢
    obtain ⟨ok, s3⟩ := p3
    cases ok
    · simp at hok
    · simp only [Bool.not_true, Bool.false_eq_true, ↓reduceIte] at hok ⊢
      by_cases hf : inp.format = .YUV422P10LE
      · simp [hf]
      · simp only [ne_eq, hf, not_false_eq_true, ↓reduceIte, reduceCtorEq] at hok ⊢
        generalize s3.next_err = p4 at hok ⊢
        obtain ⟨e3, s4⟩ := p4
        cases e3
        · simp only [Bool.false_eq_true, ↓reduceIte] at hok ⊢
          have hl := init_scaler_log ⟨vo, inp, dc, false, true⟩ .YUV422P10LE
            (input_is_rgb != false) cliopt.trc s4
          rw [if_pos hok] at hl
          have hb : (input_is_rgb != false) = input_is_rgb := by cases input_is_rgb <;> rfl
          rw [hb] at hok hl
          simp [hok, hl, scaler_target]
        · simp at hok

theorem process_encoder_pix_fmt (YUV_601 hw : Nat) (cliopt : CliOptions) (tc : CFHD_Transcoder)
    (d : AVPixFmtDescriptor) :
    (process_encoder YUV_601 hw cliopt tc d).pix_fmt =
      if cliopt.b_rgb then .RG48 else if d.depth == 8 then .YUY2 else .V210 := by
  unfold process_encoder CFHD_Encoder.new select_format
  by_cases hb : cliopt.b_rgb = true
  · simp [hb]
  · simp [hb]

/-- When `start` gets through, the pool has been created and prepared with the
pixel format of the encoder, and nothing else has happened. -/
theorem start_prepared (s : St) (h : (start s).1 = true) :
    (start s).2.log =
      .prepare s.enc.pix_fmt s.enc.enc_fmt s.enc.flags s.enc.quality ::
        .create_pool s.enc.threads s.enc.queue_size :: s.log := by
  unfold start at h ⊢
  simp only [St.emit] at h ⊢
  split_ifs at h ⊢
  simp_all [next_err_log, next_err_enc]

theorem layout_injective (p : CFHD_PixelFormat) :
    (p = .RG48 ↔ p.layout = .av .RGB48LE) ∧ (p = .YUY2 ↔ p.layout = .av .YUYV422) ∧
    (p = .V210 ↔ p.layout = .v210) := by
  cases p <;> simp [CFHD_PixelFormat.layout]

/-- The layout `process` hands to `push` is the layout of the pixel format of
the encoder it constructs. -/
theorem process_layout_eq (YUV_601 hw : Nat) (others : Nat → AVPixFmtDescriptor)
    (cliopt : CliOptions) (stream : InputStream) (errs errs' : List Bool)
    (tc : CFHD_Transcoder) (log : List Event) (d : AVPixFmtDescriptor)
    (hd : av_pix_fmt_desc_get others stream.format = some d)
    (h : open_input cliopt stream errs = .ok (tc, errs', log)) (s : St) (lay : BufferLayout)
    (hl : process_layout cliopt tc (d.depth == 8) d.rgb s = some lay) :
    lay = (process_encoder YUV_601 hw cliopt tc d).pix_fmt.layout := by
  obtain ⟨hin, -, hsws, hv, hnone, hdec, -⟩ := open_input_ok cliopt stream errs errs' tc log h
  rw [process_encoder_pix_fmt]
  unfold process_layout at hl
  by_cases hdir : is_direct_format cliopt.b_rgb stream = true
  · rw [hdec, if_pos hdir] at hl
    simp only [↓reduceIte, encode_layout, Option.some.injEq] at hl
    obtain ⟨-, hf⟩ := (is_direct_format_iff cliopt.b_rgb stream).mp hdir
    rw [hin, hf] at hl
    cases hb : cliopt.b_rgb
    · rw [hb] at hf hl
      simp only [Bool.false_eq_true, ↓reduceIte] at hf hl
      rw [hf] at hd
      simp only [av_pix_fmt_desc_get, Option.some.injEq] at hd
      rw [← hl, ← hd]
      rfl
    · rw [hb] at hl
      simp only [↓reduceIte] at hl
      rw [← hl]
      rfl
  · rw [hdec, if_neg hdir, if_neg hnone] at hl
    dsimp only at hl
    split_ifs at hl with hok
    by_cases hc : cliopt.b_rgb = true ∨ (d.depth == 8) = true
    · obtain ⟨h1, -, h3⟩ := process_setup_v210 cliopt tc (d.depth == 8) d.rgb s hv hc
      obtain ⟨h4, h5⟩ := h3 hok
      simp only [transcode_layout, out_frame_format, h1, h4, h5, scaler_target,
        Bool.false_eq_true, ↓reduceIte, Option.map_some', Option.some.injEq] at hl
      rw [← hl]
      rcases hc with hc | hc
      · simp [hc, CFHD_PixelFormat.layout]
      · cases hb : cliopt.b_rgb <;> simp [hc, CFHD_PixelFormat.layout]
    · have hb : cliopt.b_rgb = false := by
        cases hx : cliopt.b_rgb
        · rfl
        · exact absurd (Or.inl hx) hc
      have h8 : (d.depth == 8) = false := by
        cases hx : (d.depth == 8)
        · rfl
        · exact absurd (Or.inr hx) hc
      rw [h8] at hok hl
      obtain ⟨h1, -, -, -⟩ := process_setup_repack cliopt tc d.rgb s hsws hb hok
      simp only [transcode_layout, h1, ↓reduceIte, Option.some.injEq] at hl
      rw [← hl, hb, h8]
      rfl

/-- C21 (the buffer handed to `push` has the layout the pool was prepared
with). For every input video stream (codec, pixel format, depth) and every
option set, whenever `open_input` returns: when `start` gets through, the pool
has been prepared with the pixel format of the encoder; in direct mode and in
adaptation mode alike, the buffers `process` hands to `push` (the raw packet in
`encode`; in `transcode_packet` the packet of the v210 encoder when it is set
up, otherwise `out_frame`, which the scaler fills) have the layout of that
pixel format: the encoder is RG48 exactly when the buffer is RGB48LE, YUY2
exactly when it is YUYV422, and V210 exactly when the buffer comes from the
v210 encoder. The layout is determined whenever a frame can be pushed (direct
mode, or the set-up of the decode path got through), and the frame given to
the v210 encoder is in YUV422P10LE, the format that encoder was opened with. -/
theorem buffer_layout_matches (YUV_601 hw : Nat) (others : Nat → AVPixFmtDescriptor)
    (cliopt : CliOptions) (stream : InputStream) (errs errs' : List Bool)
    (tc : CFHD_Transcoder) (log : List Event) (d : AVPixFmtDescriptor)
    (hd : av_pix_fmt_desc_get others stream.format = some d)
    (h : open_input cliopt stream errs = .ok (tc, errs', log)) :
    (∀ errs2 : List Bool,
      (start ⟨process_encoder YUV_601 hw cliopt tc d, errs2, []⟩).1 = true →
      (start ⟨process_encoder YUV_601 hw cliopt tc d, errs2, []⟩).2.log =
        [.prepare (process_encoder YUV_601 hw cliopt tc d).pix_fmt
            (process_encoder YUV_601 hw cliopt tc d).enc_fmt
            (process_encoder YUV_601 hw cliopt tc d).flags
            (process_encoder YUV_601 hw cliopt tc d).quality,
          .create_pool (process_encoder YUV_601 hw cliopt tc d).threads
            (process_encoder YUV_601 hw cliopt tc d).queue_size] ∧
      (start ⟨process_encoder YUV_601 hw cliopt tc d, errs2, []⟩).2.enc.pix_fmt
        = (process_encoder YUV_601 hw cliopt tc d).pix_fmt) ∧
    (∀ (s : St) (lay : BufferLayout),
      process_layout cliopt tc (d.depth == 8) d.rgb s = some lay →
      lay = (process_encoder YUV_601 hw cliopt tc d).pix_fmt.layout ∧
      ((process_encoder YUV_601 hw cliopt tc d).pix_fmt = .RG48 ↔ lay = .av .RGB48LE) ∧
      ((process_encoder YUV_601 hw cliopt tc d).pix_fmt = .YUY2 ↔ lay = .av .YUYV422) ∧
      ((process_encoder YUV_601 hw cliopt tc d).pix_fmt = .V210 ↔ lay = .v210)) ∧
    (∀ s : St,
      (tc.dec_codec_id = .NONE ∨
        (process_setup cliopt tc (d.depth == 8) d.rgb s).1 = true) →
      process_layout cliopt tc (d.depth == 8) d.rgb s
        = some (process_encoder YUV_601 hw cliopt tc d).pix_fmt.layout) ∧
    (∀ s : St, tc.dec_codec_id ≠ .NONE →
      (process_setup cliopt tc (d.depth == 8) d.rgb s).1 = true →
      (process_setup cliopt tc (d.depth == 8) d.rgb s).2.2.v210_ctx = true →
      out_frame_format (process_setup cliopt tc (d.depth == 8) d.rgb s).2.2
        (process_setup cliopt tc (d.depth == 8) d.rgb s).2.1.log = some .YUV422P10LE) := by
  obtain ⟨hin, -, hsws, hv, hnone, hdec, -⟩ := open_input_ok cliopt stream errs errs' tc log h
  have heq := process_layout_eq YUV_601 hw others cliopt stream errs errs' tc log d hd h
  have hsome : ∀ s : St,
      (tc.dec_codec_id = .NONE ∨
        (process_setup cliopt tc (d.depth == 8) d.rgb s).1 = true) →
      ∃ lay, process_layout cliopt tc (d.depth == 8) d.rgb s = some lay := by
    intro s hor
    unfold process_layout
    by_cases hn : tc.dec_codec_id = .NONE
    · rw [if_pos hn]; exact ⟨_, rfl⟩
    · have hok : (process_setup cliopt tc (d.depth == 8) d.rgb s).1 = true :=
        hor.resolve_left hn
      rw [if_neg hn]
      dsimp only
      rw [if_pos hok]
      by_cases hc : cliopt.b_rgb = true ∨ (d.depth == 8) = true
      · obtain ⟨h1, -, h3⟩ := process_setup_v210 cliopt tc (d.depth == 8) d.rgb s hv hc
        obtain ⟨h4, h5⟩ := h3 hok
        simp [transcode_layout, out_frame_format, h1, h4, h5, scaler_target]
      · have hb : cliopt.b_rgb = false := by
          cases hx : cliopt.b_rgb
          · rfl
          · exact absurd (Or.inl hx) hc
        have h8 : (d.depth == 8) = false := by
          cases hx : (d.depth == 8)
          · rfl
          · exact absurd (Or.inr hx) hc
        rw [h8] at hok ⊢
        obtain ⟨h1, -, -, -⟩ := process_setup_repack cliopt tc d.rgb s hsws hb hok
        simp [transcode_layout, h1]
  refine ⟨?_, ?_, ?_, ?_⟩
  · intro errs2 hst
    exact ⟨start_prepared _ hst, by rw [start_enc]⟩
  · intro s lay hl
    have := heq s lay hl
    rw [this]
    exact ⟨rfl, layout_injective _⟩
  · intro s hor
    obtain ⟨lay, hl⟩ := hsome s hor
    rw [hl, heq s lay hl]
  · intro s hn hok hv2
    by_cases hc : cliopt.b_rgb = true ∨ (d.depth == 8) = true
    · obtain ⟨h1, -, -⟩ := process_setup_v210 cliopt tc (d.depth == 8) d.rgb s hv hc
      rw [h1] at hv2
      exact absurd hv2 Bool.false_ne_true
    · have hb : cliopt.b_rgb = false := by
        cases hx : cliopt.b_rgb
        · rfl
        · exact absurd (Or.inl hx) hc
      have h8 : (d.depth == 8) = false := by
        cases hx : (d.depth == 8)
        · rfl
        · exact absurd (Or.inr hx) hc
      rw [h8] at hok ⊢
      obtain ⟨-, h2, h3, h4⟩ := process_setup_repack cliopt tc d.rgb s hsws hb hok
      unfold out_frame_format
      by_cases hf : tc.input.format = .YUV422P10LE
      · rw [h3 hf, h2, hf]
        rfl
      · rw [(h4 hf).1, (h4 hf).2]
        rfl

/-- One frame through each path, two rows high. A 10-bit YUV422P10LE stream
without the RGB flag: the encoder is V210 and the slot holds the packet of the
v210 encoder. An 8-bit stream of a compressed codec: YUY2 and the scaled bytes.
The same with the RGB flag: RG48 and the scaled bytes. Raw YUYV422: YUY2 and
the bytes of the packet. -/
theorem buffer_layout_matches_witness :
    layout_run (fun _ => ⟨10, false⟩) ⟨"fs1", false, 0, 2, false⟩
        ⟨false, ⟨0, .other 147, .YUV422P10LE, 1920, 2⟩, .other 147, false, false⟩
      = some (.V210, [[9, 9]]) ∧
    layout_run (fun _ => ⟨8, false⟩) ⟨"fs1", false, 0, 2, false⟩
        ⟨false, ⟨0, .other 27, .other 0, 1920, 2⟩, .other 27, false, false⟩
      = some (.YUY2, [[7, 8]]) ∧
    layout_run (fun _ => ⟨8, false⟩) ⟨"fs1", true, 0, 2, false⟩
        ⟨false, ⟨0, .other 27, .other 0, 1920, 2⟩, .other 27, false, false⟩
      = some (.RG48, [[7, 8]]) ∧
    layout_run (fun _ => ⟨8, false⟩) ⟨"fs1", false, 0, 2, false⟩
        ⟨false, ⟨0, .RAWVIDEO, .YUYV422, 1920, 2⟩, .NONE, false, false⟩
      = some (.YUY2, [[1, 2]]) ∧
    (process_encoder 4 8 ⟨"fs1", false, 0, 2, false⟩
        ⟨false, ⟨0, .other 147, .YUV422P10LE, 1920, 2⟩, .other 147, false, false⟩
        ⟨10, false⟩).pix_fmt = .V210 ∧
    process_layout ⟨"fs1", false, 0, 2, false⟩
        ⟨false, ⟨0, .other 147, .YUV422P10LE, 1920, 2⟩, .other 147, false, false⟩
        ((⟨10, false⟩ : AVPixFmtDescriptor).depth == 8) (⟨10, false⟩ : AVPixFmtDescriptor).rgb
        run0
      = some (process_encoder 4 8 ⟨"fs1", false, 0, 2, false⟩
          ⟨false, ⟨0, .other 147, .YUV422P10LE, 1920, 2⟩, .other 147, false, false⟩
          ⟨10, false⟩).pix_fmt.layout :=
  ⟨by decide, by decide, by decide, by decide, by decide,
    (buffer_layout_matches 4 8 (fun _ => ⟨10, false⟩) ⟨"fs1", false, 0, 2, false⟩
      ⟨0, .other 147, .YUV422P10LE, 1920, 2⟩ [] []
      ⟨false, ⟨0, .other 147, .YUV422P10LE, 1920, 2⟩, .other 147, false, false⟩
      [.open_decoder (.other 147)] ⟨10, false⟩ rfl rfl).2.2.1 run0 (Or.inr (by decide))⟩

/-! ## Exactly-once output needs a pool that keeps to its contract -/

/-- Two runs of `process` that reach `av_write_trailer` without a failure and
return, with `queued` 0 and the trailer as the last event. In the first the pool
completes frame 1 with a sample of size 0: `pop` counts it, `write_cfhd_sample`
skips it, so one frame was submitted and no sample written. In the second the
pool hands out the sample of frame 1 twice: frame 1 is written twice, and
frame 2, which was submitted, is never written. The first pool only hands out
a frame that is in flight, the second only samples that are not empty. -/
theorem exactly_once_output_counterexample :
    (empty_sample_run.frames = some (0, some (.trailer true), [1], [1], []) ∧
      (∀ q ev sub ret wr, empty_sample_run.frames = some (q, ev, sub, ret, wr) →
        wr.length ≠ sub.length)) ∧
    (repeated_sample_run.frames = some (0, some (.trailer true), [1, 2], [1, 1], [1, 1]) ∧
      (∀ q ev sub ret wr, repeated_sample_run.frames = some (q, ev, sub, ret, wr) →
        ¬ wr.Nodup ∧ (2 : Int) ∈ sub ∧ (2 : Nat) ∉ wr)) ∧
    empty_sample_run.returned_state.map (fun s => s.log) =
      some [.trailer true, .retrieve 1 10 1, .poll 0, .submit 1 0 true, .store 0 1 10 1,
        .prepare .YUY2 .YUV_422 4 .FILMSCAN1, .create_pool 2 3] ∧
    repeated_sample_run.returned_state.map (fun s => s.log) =
      some [.trailer true, .release 8, .write 0 1 10 1 true, .retrieve 1 10 1, .poll 0,
        .release 7, .write 0 1 10 1 true, .retrieve 1 10 1, .poll 0, .submit 2 1 true,
        .store 1 2 20 1, .submit 1 0 true, .store 0 1 10 1,
        .prepare .YUY2 .YUV_422 4 .FILMSCAN1, .create_pool 2 3] ∧
    (empty_sample_run.returned_state.map (fun s => pool_any_order s.log.tail) = some true ∧
      ¬ (PoolReply.ready 1 7 (some (9, 0))).nonempty) ∧
    ((∀ r ∈ [PoolReply.ready 1 7 (some (9, 100)), .ready 1 8 (some (9, 100))], r.nonempty) ∧
      repeated_sample_run.returned_state.map (fun s => pool_any_order s.log.tail)
        = some false) := by
  have h1 : empty_sample_run.frames = some (0, some (.trailer true), [1], [1], []) := by
    decide
  have h2 : repeated_sample_run.frames
      = some (0, some (.trailer true), [1, 2], [1, 1], [1, 1]) := by decide
  refine ⟨⟨h1, ?_⟩, ⟨h2, ?_⟩, by decide, by decide,
    ⟨by decide, by simp [PoolReply.nonempty]⟩, ⟨by simp [PoolReply.nonempty], by decide⟩⟩
  · intro q ev sub ret wr h
    rw [h1] at h
    simp only [Option.some.injEq, Prod.mk.injEq] at h
    obtain ⟨-, -, hs, -, hw⟩ := h
    rw [← hs, ← hw]
    decide
  · intro q ev sub ret wr h
    rw [h2] at h
    simp only [Option.some.injEq, Prod.mk.injEq] at h
    obtain ⟨-, -, hs, -, hw⟩ := h
    rw [← hs, ← hw]
    decide

end Cfenc
